import Mathlib

/-!
# Bump allocators (Worksheet2): forward and backward arenas

A shallow embedding of `Worksheet2/Task2/BumpAllocator.hpp` (the forward arena),
`Worksheet2/Task3/BumpAllocatorDownwards.hpp` (the backward arena) and
`Worksheet2/Task1/BumpAllocator.hpp` (the first forward arena, namespace `Task1`), and of
`class my_string` of `Worksheet1/Task1` and `Worksheet1/Task3` (namespace `Worksheet1`).

* Addresses (`char*`, `std::uintptr_t`) and `std::size_t` values are 64-bit words: natural
  numbers below `WORD = 2 ^ 64`; every addition, subtraction and multiplication of the source
  is taken modulo `WORD` (`wadd`, `wsub`, `wmul`).
* A template instantiation `alloc<T>` is the call with `sizeofT = sizeof(T)` and
  `alignofT = alignof(T)` passed as numbers.
* `alloc` returns `some address` from the branch that returns the aligned pointer and `none`
  from the branch that returns `nullptr`.
* The lines written to `std::cout` are collected, in order, in the field `cout`.
* The address returned by `new char[heap_size]` is the parameter `heap` of `create`.
-/

/-- Number of values of a 64-bit word (`std::size_t`, `std::uintptr_t`): two to the power 64. -/
def WORD : Nat := 18446744073709551616

/-- Word addition, also `pointer + size`. -/
def wadd (a b : Nat) : Nat := (a + b) % WORD

/-- Word subtraction, also `pointer - size` and `pointer - pointer`. -/
def wsub (a b : Nat) : Nat := (a + (WORD - b % WORD)) % WORD

/-- Word multiplication. -/
def wmul (a b : Nat) : Nat := (a * b) % WORD

/-- The calls a client can make on an arena: `alloc<T>(num_objects)` for a type with the given
size and alignment, and `dealloc()`. -/
inductive Op where
  | alloc (sizeofT alignofT num_objects : Nat)
  | dealloc
  deriving Repr, DecidableEq

/-! ## Forward arena: `class BumpAllocator` (Task2) -/

/-- Data members of `class BumpAllocator`, and the lines it has written to `std::cout`. -/
structure BumpAllocator where
  heap : Nat
  next : Nat
  heap_end : Nat
  total_size : Nat
  allocation_count : Nat
  total_allocations : Nat
  debug_mode : Bool
  cout : List String

namespace BumpAllocator

/-- Constructor `BumpAllocator(heap_size, debug)`; `heap` is the address of the new buffer. -/
def create (heap heap_size : Nat) (debug : Bool) : BumpAllocator :=
  { heap := heap
    next := heap
    heap_end := wadd heap heap_size
    total_size := heap_size
    allocation_count := 0
    total_allocations := 0
    debug_mode := debug
    cout := if debug then
        ["BumpAllocator created with " ++ toString heap_size ++ " bytes."]
      else [] }

/-- Private helper `align_pointer(ptr, alignment)`: moves `ptr` forward. -/
def align_pointer (ptr alignment : Nat) : Nat :=
  let mask := wsub alignment 1
  let misalignment := ptr &&& mask
  if misalignment ≠ 0 then wadd ptr (wsub alignment misalignment) else ptr

/-- Member template `alloc<T>(num_objects)`. -/
def alloc (s : BumpAllocator) (sizeofT alignofT num_objects : Nat) :
    Option Nat × BumpAllocator :=
  let required_size := wmul sizeofT num_objects
  let alignment := alignofT
  let aligned_ptr := align_pointer s.next alignment
  if wadd aligned_ptr required_size ≤ s.heap_end then
    (some aligned_ptr,
      { s with
        next := wadd aligned_ptr required_size
        allocation_count := wadd s.allocation_count 1
        total_allocations := wadd s.total_allocations 1
        cout := if s.debug_mode then
            s.cout ++ ["Allocated " ++ toString required_size ++ " bytes."]
          else s.cout })
  else
    (none,
      { s with
        cout := if s.debug_mode then
            s.cout ++ ["Failed to allocate memory. Not enough space!"]
          else s.cout })

/-- Member `dealloc()`. -/
def dealloc (s : BumpAllocator) : BumpAllocator :=
  let s1 : BumpAllocator :=
    if s.allocation_count > 0 then
      { s with allocation_count := wsub s.allocation_count 1 }
    else s
  if s1.allocation_count = 0 then
    { s1 with
      next := s1.heap
      cout := if s1.debug_mode then s1.cout ++ ["Allocator reset."] else s1.cout }
  else s1

/-- Member `remaining_memory()`. -/
def remaining_memory (s : BumpAllocator) : Nat := wsub s.heap_end s.next

/-- One client call: the returned pointer (if any) and the arena afterwards. -/
def step (s : BumpAllocator) : Op → Option Nat × BumpAllocator
  | Op.alloc sizeofT alignofT num_objects => s.alloc sizeofT alignofT num_objects
  | Op.dealloc => (none, s.dealloc)

/-- The arena after a sequence of client calls. -/
def run (s : BumpAllocator) : List Op → BumpAllocator
  | [] => s
  | op :: ops => run (s.step op).2 ops

/-- The arena after `k` calls of `dealloc()`. -/
def deallocTimes : Nat → BumpAllocator → BumpAllocator
  | 0, s => s
  | k + 1, s => deallocTimes k s.dealloc

/-- How many of the calls of a sequence took the successful branch of `alloc`. -/
def successes (s : BumpAllocator) : List Op → Nat
  | [] => 0
  | op :: ops =>
    (match op, (s.step op).1 with
      | Op.alloc _ _ _, some _ => 1
      | _, _ => 0) + successes (s.step op).2 ops

/-- The pointers returned by a sequence of client calls, in order (`none` for `nullptr` and for
`dealloc()`). -/
def results (s : BumpAllocator) : List Op → List (Option Nat)
  | [] => []
  | op :: ops => (s.step op).1 :: results (s.step op).2 ops

/-- Destructor `~BumpAllocator()`: the lines on `std::cout` once the arena is destroyed. -/
def destroy (s : BumpAllocator) : List String :=
  if s.debug_mode then
    s.cout ++ ["BumpAllocator destroyed.",
      "Total allocations made: " ++ toString s.total_allocations]
  else s.cout

end BumpAllocator

/-! ## Backward arena: `class BumpAllocatorDownwards` (Task3) -/

/-- Data members of `class BumpAllocatorDownwards`, and the lines written to `std::cout`. -/
structure BumpAllocatorDownwards where
  heap : Nat
  next : Nat
  heap_end : Nat
  heap_start : Nat
  allocation_count : Nat
  total_allocations : Nat
  cout : List String

namespace BumpAllocatorDownwards

/-- Constructor `BumpAllocatorDownwards(heap_size)`; `heap` is the address of the new buffer. -/
def create (heap heap_size : Nat) : BumpAllocatorDownwards :=
  { heap := heap
    next := wadd heap heap_size
    heap_end := wadd heap heap_size
    heap_start := heap
    allocation_count := 0
    total_allocations := 0
    cout := [] }

/-- Private helper `align_pointer(ptr, alignment)`: moves `ptr` backward. -/
def align_pointer (ptr alignment : Nat) : Nat :=
  let mask := wsub alignment 1
  let misalignment := ptr &&& mask
  if misalignment ≠ 0 then wsub ptr misalignment else ptr

/-- Member template `alloc<T>(num_objects)`. -/
def alloc (s : BumpAllocatorDownwards) (sizeofT alignofT num_objects : Nat) :
    Option Nat × BumpAllocatorDownwards :=
  let required_size := wmul sizeofT num_objects
  let alignment := alignofT
  let aligned_ptr := align_pointer (wsub s.next required_size) alignment
  if aligned_ptr ≥ s.heap_start then
    (some aligned_ptr,
      { s with
        next := aligned_ptr
        allocation_count := wadd s.allocation_count 1
        total_allocations := wadd s.total_allocations 1 })
  else
    (none, { s with cout := s.cout ++ ["Failed to allocate memory. Not enough space!"] })

/-- Member `dealloc()`. -/
def dealloc (s : BumpAllocatorDownwards) : BumpAllocatorDownwards :=
  let s1 : BumpAllocatorDownwards :=
    if s.allocation_count > 0 then
      { s with allocation_count := wsub s.allocation_count 1 }
    else s
  if s1.allocation_count = 0 then
    { s1 with
      next := s1.heap_end
      cout := s1.cout ++ ["Allocator reset."] }
  else s1

/-- Member `remaining_memory()`. -/
def remaining_memory (s : BumpAllocatorDownwards) : Nat := wsub s.next s.heap_start

/-- One client call: the returned pointer (if any) and the arena afterwards. -/
def step (s : BumpAllocatorDownwards) : Op → Option Nat × BumpAllocatorDownwards
  | Op.alloc sizeofT alignofT num_objects => s.alloc sizeofT alignofT num_objects
  | Op.dealloc => (none, s.dealloc)

/-- The arena after a sequence of client calls. -/
def run (s : BumpAllocatorDownwards) : List Op → BumpAllocatorDownwards
  | [] => s
  | op :: ops => run (s.step op).2 ops

/-- The arena after `k` calls of `dealloc()`. -/
def deallocTimes : Nat → BumpAllocatorDownwards → BumpAllocatorDownwards
  | 0, s => s
  | k + 1, s => deallocTimes k s.dealloc

/-- How many of the calls of a sequence took the successful branch of `alloc`. -/
def successes (s : BumpAllocatorDownwards) : List Op → Nat
  | [] => 0
  | op :: ops =>
    (match op, (s.step op).1 with
      | Op.alloc _ _ _, some _ => 1
      | _, _ => 0) + successes (s.step op).2 ops

/-- The pointers returned by a sequence of client calls, in order (`none` for `nullptr` and for
`dealloc()`). -/
def results (s : BumpAllocatorDownwards) : List Op → List (Option Nat)
  | [] => []
  | op :: ops => (s.step op).1 :: results (s.step op).2 ops

end BumpAllocatorDownwards

/-! ## First forward arena: `class BumpAllocator` of Task1

The Task1 class has no debug flag: it writes every diagnostic line. -/

namespace Task1

/-- Data members of the Task1 `class BumpAllocator`, and the lines written to `std::cout`. -/
structure BumpAllocator where
  heap : Nat
  next : Nat
  heap_end : Nat
  total_size : Nat
  allocation_count : Nat
  total_allocations : Nat
  cout : List String

namespace BumpAllocator

/-- Constructor `BumpAllocator(heap_size)`; `heap` is the address of the new buffer. -/
def create (heap heap_size : Nat) : BumpAllocator :=
  { heap := heap
    next := heap
    heap_end := wadd heap heap_size
    total_size := heap_size
    allocation_count := 0
    total_allocations := 0
    cout := ["BumpAllocator created with " ++ toString heap_size ++ " bytes."] }

/-- Private helper `align_pointer(ptr, alignment)`: moves `ptr` forward. -/
def align_pointer (ptr alignment : Nat) : Nat :=
  let mask := wsub alignment 1
  let misalignment := ptr &&& mask
  if misalignment ≠ 0 then wadd ptr (wsub alignment misalignment) else ptr

/-- Member template `alloc<T>(num_objects)`. -/
def alloc (s : BumpAllocator) (sizeofT alignofT num_objects : Nat) :
    Option Nat × BumpAllocator :=
  let required_size := wmul sizeofT num_objects
  let alignment := alignofT
  let aligned_ptr := align_pointer s.next alignment
  if wadd aligned_ptr required_size ≤ s.heap_end then
    (some aligned_ptr,
      { s with
        next := wadd aligned_ptr required_size
        allocation_count := wadd s.allocation_count 1
        total_allocations := wadd s.total_allocations 1
        cout := s.cout ++ ["Allocated " ++ toString required_size ++ " bytes."] })
  else
    (none, { s with cout := s.cout ++ ["Failed to allocate memory. Not enough space!"] })

/-- Member `dealloc()`. -/
def dealloc (s : BumpAllocator) : BumpAllocator :=
  let s1 : BumpAllocator :=
    if s.allocation_count > 0 then
      { s with allocation_count := wsub s.allocation_count 1 }
    else s
  if s1.allocation_count = 0 then
    { s1 with
      next := s1.heap
      cout := s1.cout ++ ["Allocator reset."] }
  else s1

/-- Member `remaining_memory()`. -/
def remaining_memory (s : BumpAllocator) : Nat := wsub s.heap_end s.next

/-- One client call: the returned pointer (if any) and the arena afterwards. -/
def step (s : BumpAllocator) : Op → Option Nat × BumpAllocator
  | Op.alloc sizeofT alignofT num_objects => s.alloc sizeofT alignofT num_objects
  | Op.dealloc => (none, s.dealloc)

/-- The arena after a sequence of client calls. -/
def run (s : BumpAllocator) : List Op → BumpAllocator
  | [] => s
  | op :: ops => run (s.step op).2 ops

/-- The pointers returned by a sequence of client calls, in order (`none` for `nullptr` and for
`dealloc()`). -/
def results (s : BumpAllocator) : List Op → List (Option Nat)
  | [] => []
  | op :: ops => (s.step op).1 :: results (s.step op).2 ops

/-- Destructor `~BumpAllocator()`: the lines on `std::cout` once the arena is destroyed. -/
def destroy (s : BumpAllocator) : List String :=
  s.cout ++ ["BumpAllocator destroyed.",
    "Total allocations made: " ++ toString s.total_allocations]

end BumpAllocator

end Task1

/-! ## Worksheet1: `class my_string`

The C heap is a map from addresses to live character arrays (`new char[n]`) and a map from
addresses to live reference counts (`new int(1)`); a deleted or never allocated address maps
to `none`. `new` hands out the address `fresh`, which no live block uses. A `char` is a `Char`
with `NUL` the terminator, an `int` is an `Int`, and signed overflow, reading a deleted block
and writing a null `char*` to `std::cout` are undefined: the operation returns `none`. -/

namespace Worksheet1

/-- The terminating character of a C string. -/
def NUL : Char := Char.ofNat 0

/-- Library function `strlen`: the number of characters before the first `NUL`. -/
def strlen (buf : List Char) : Nat := (buf.takeWhile (fun c => c != NUL)).length

/-- The text `std::cout << str` writes: the characters before the first `NUL`. -/
def cstring (buf : List Char) : String := String.mk (buf.takeWhile (fun c => c != NUL))

/-- Largest value of `int`. -/
def INT_MAX : Int := 2147483647

/-- Smallest value of `int`. -/
def INT_MIN : Int := -2147483648

namespace Task1

/-- Data member of the Task1 `class my_string`: the pointer `str` (`none` for `nullptr`). -/
structure my_string where
  str : Option Nat

/-- Member `getChar(i)`, reading the character arrays `chars`. -/
def my_string.getChar (chars : Nat → Option (List Char)) (o : my_string) (i : Int) :
    Option Char :=
  match o.str with
  | none => some NUL
  | some a =>
    if 0 ≤ i then
      match chars a with
      | none => none
      | some buf => if i.toNat < strlen buf then some (buf.getD i.toNat NUL) else some NUL
    else some NUL

/-- Member `setChar(i, c)`: the character arrays afterwards. -/
def my_string.setChar (chars : Nat → Option (List Char)) (o : my_string) (i : Int) (c : Char) :
    Option (Nat → Option (List Char)) :=
  match o.str with
  | none => some chars
  | some a =>
    if 0 ≤ i then
      match chars a with
      | none => none
      | some buf =>
        if i.toNat < strlen buf then
          some (fun b => if b = a then some (buf.set i.toNat c) else chars b)
        else some chars
    else some chars

end Task1

namespace Task3

/-- Data members of the Task3 `class my_string`: the pointers `str` and `ref_count` (`none`
for `nullptr`). -/
structure my_string where
  str : Option Nat
  ref_count : Option Nat
  deriving DecidableEq

/-- Member `getChar(i)`, reading the character arrays `chars`. -/
def my_string.getChar (chars : Nat → Option (List Char)) (o : my_string) (i : Int) :
    Option Char :=
  match o.str with
  | none => some NUL
  | some a =>
    if 0 ≤ i then
      match chars a with
      | none => none
      | some buf => if i.toNat < strlen buf then some (buf.getD i.toNat NUL) else some NUL
    else some NUL

/-- Member `setChar(i, c)`: the character arrays afterwards. -/
def my_string.setChar (chars : Nat → Option (List Char)) (o : my_string) (i : Int) (c : Char) :
    Option (Nat → Option (List Char)) :=
  match o.str with
  | none => some chars
  | some a =>
    if 0 ≤ i then
      match chars a with
      | none => none
      | some buf =>
        if i.toNat < strlen buf then
          some (fun b => if b = a then some (buf.set i.toNat c) else chars b)
        else some chars
    else some chars

/-- The program state: the heap (`chars`, `ints`, `fresh`), the `my_string` objects by name
(`objs`), the names of the live objects (`live`) and the lines written to `std::cout`. -/
structure Store where
  chars : Nat → Option (List Char)
  ints : Nat → Option Int
  fresh : Nat
  objs : Nat → my_string
  live : List Nat
  cout : List String

namespace Store

/-- The state at program start: empty heap, no objects. -/
def empty : Store :=
  { chars := fun _ => none
    ints := fun _ => none
    fresh := 0
    objs := fun _ => { str := none, ref_count := none }
    live := []
    cout := [] }

/-- Private member `release()` of the object named `x`. -/
def release (w : Store) (x : Nat) : Option Store :=
  match (w.objs x).ref_count with
  | none => some w
  | some rc =>
    match w.ints rc with
    | none => none
    | some n =>
      if n = INT_MIN then none
      else if n - 1 = 0 then
        match (w.objs x).str with
        | none => none
        | some a =>
          match w.chars a with
          | none => none
          | some buf =>
            some { w with
              cout := w.cout ++ [cstring buf ++ " [" ++ toString (n - 1) ++ "]"]
              chars := fun b => if b = a then none else w.chars b
              ints := fun c => if c = rc then none else w.ints c }
      else some { w with ints := fun c => if c = rc then some (n - 1) else w.ints c }

/-- Constructor `my_string(const char* s)` for a new object named `x`; `s` is `none` for
`nullptr` and otherwise the characters found at `s`. -/
def construct (w : Store) (x : Nat) (s : Option (List Char)) : Store :=
  match s with
  | some cs =>
    { w with
      chars := fun b =>
        if b = w.fresh then some (cs.takeWhile (fun c => c != NUL) ++ [NUL]) else w.chars b
      ints := fun c => if c = w.fresh + 1 then some 1 else w.ints c
      fresh := w.fresh + 2
      objs := fun y =>
        if y = x then { str := some w.fresh, ref_count := some (w.fresh + 1) } else w.objs y
      live := x :: w.live }
  | none =>
    { w with
      objs := fun y => if y = x then { str := none, ref_count := none } else w.objs y
      live := x :: w.live }

/-- Copy constructor `my_string(const my_string& s)` for a new object named `x` from the
object named `y`. -/
def copy_construct (w : Store) (x y : Nat) : Option Store :=
  match (w.objs y).ref_count with
  | none =>
    some { w with
      objs := fun z => if z = x then w.objs y else w.objs z
      live := x :: w.live }
  | some rc =>
    match w.ints rc with
    | none => none
    | some n =>
      if n = INT_MAX then none
      else
        some { w with
          ints := fun c => if c = rc then some (n + 1) else w.ints c
          objs := fun z => if z = x then w.objs y else w.objs z
          live := x :: w.live }

/-- Assignment `x = y` (`operator=`). -/
def assign (w : Store) (x y : Nat) : Option Store :=
  if x ≠ y then
    match w.release x with
    | none => none
    | some w1 =>
      match (w1.objs y).ref_count with
      | none => some { w1 with objs := fun z => if z = x then w1.objs y else w1.objs z }
      | some rc =>
        match w1.ints rc with
        | none => none
        | some n =>
          if n = INT_MAX then none
          else
            some { w1 with
              ints := fun c => if c = rc then some (n + 1) else w1.ints c
              objs := fun z => if z = x then w1.objs y else w1.objs z }
  else some w

/-- Destructor `~my_string()` of the object named `x`, which then stops being live. -/
def destruct (w : Store) (x : Nat) : Option Store :=
  match w.release x with
  | none => none
  | some w1 => some { w1 with live := w1.live.erase x }

/-- Member `print()` of the object named `x`. -/
def print (w : Store) (x : Nat) : Option Store :=
  match (w.objs x).str with
  | none => some { w with cout := w.cout ++ ["Empty string"] }
  | some a =>
    match w.chars a, (w.objs x).ref_count with
    | some buf, some rc =>
      match w.ints rc with
      | none => none
      | some n => some { w with cout := w.cout ++ [cstring buf ++ " [" ++ toString n ++ "]"] }
    | _, _ => none

/-- How many live objects hold the reference count at address `rc`. -/
def handles (w : Store) (rc : Nat) : Nat :=
  w.live.countP (fun x => decide ((w.objs x).ref_count = some rc))

end Store

/-- The statements of a client program: construction from a C string, copy construction,
assignment, and the end of an object's scope. -/
inductive SOp where
  | construct (x : Nat) (s : Option (List Char))
  | copy (x y : Nat)
  | assign (x y : Nat)
  | destroy (x : Nat)

/-- A statement names objects properly: a new object has a name not in use, every other object
it mentions is live. -/
def SOp.ok (live : List Nat) : SOp → Prop
  | SOp.construct x _ => x ∉ live
  | SOp.copy x y => x ∉ live ∧ y ∈ live
  | SOp.assign x y => x ∈ live ∧ y ∈ live
  | SOp.destroy x => x ∈ live

instance SOp.decOk (live : List Nat) : (op : SOp) → Decidable (op.ok live)
  | SOp.construct _ _ => inferInstanceAs (Decidable (_ ∉ _))
  | SOp.copy _ _ => inferInstanceAs (Decidable (_ ∧ _))
  | SOp.assign _ _ => inferInstanceAs (Decidable (_ ∧ _))
  | SOp.destroy _ => inferInstanceAs (Decidable (_ ∈ _))

/-- The names that are live after a statement. -/
def SOp.liveAfter (live : List Nat) : SOp → List Nat
  | SOp.construct x _ => x :: live
  | SOp.copy x _ => x :: live
  | SOp.assign _ _ => live
  | SOp.destroy x => live.erase x

/-- A program names objects properly throughout. -/
def wellFormed : List Nat → List SOp → Prop
  | _, [] => True
  | live, op :: ops => op.ok live ∧ wellFormed (op.liveAfter live) ops

instance decWellFormed : (live : List Nat) → (ops : List SOp) →
    Decidable (wellFormed live ops)
  | _, [] => inferInstanceAs (Decidable True)
  | live, op :: ops =>
    @instDecidableAnd _ _ (SOp.decOk live op) (decWellFormed (op.liveAfter live) ops)

namespace Store

/-- One statement; `none` when it runs into undefined behaviour. -/
def step (w : Store) : SOp → Option Store
  | SOp.construct x s => some (w.construct x s)
  | SOp.copy x y => w.copy_construct x y
  | SOp.assign x y => w.assign x y
  | SOp.destroy x => w.destruct x

/-- A program; `none` when it runs into undefined behaviour. -/
def run (w : Store) : List SOp → Option Store
  | [] => some w
  | op :: ops =>
    match w.step op with
    | none => none
    | some w1 => run w1 ops

/-- Reference-count invariant: names are distinct; each count cell holds the number of live
objects that point to it and is deleted when there are none; a live object with a count has
the buffer allocated together with it, still live; an object without a count has no buffer;
every live buffer has an owner. -/
def Inv (w : Store) : Prop :=
  w.live.Nodup
    ∧ (∀ rc, w.ints rc = if w.handles rc = 0 then none else some (w.handles rc : Int))
    ∧ (∀ x ∈ w.live, ∀ rc, (w.objs x).ref_count = some rc →
        ∃ a, (w.objs x).str = some a ∧ rc = a + 1 ∧ rc < w.fresh
          ∧ ∃ buf, w.chars a = some buf)
    ∧ (∀ x ∈ w.live, (w.objs x).ref_count = none → (w.objs x).str = none)
    ∧ (∀ a buf, w.chars a = some buf → w.handles (a + 1) ≠ 0)

end Store

/-- The count cell `o` (`none` for `nullptr`) can take one more holder: fewer than
`INT_MAX = 2^31 - 1` of the objects named in `others` hold it. -/
def Store.room (w : Store) (others : List Nat) : Option Nat → Prop
  | none => True
  | some rc => others.countP (fun z => decide ((w.objs z).ref_count = some rc)) < 2147483647

instance Store.decRoom (w : Store) (others : List Nat) :
    (o : Option Nat) → Decidable (w.room others o)
  | none => inferInstanceAs (Decidable True)
  | some _ => inferInstanceAs (Decidable (_ < _))

/-- A statement that increments a count finds room in it: the source of a copy construction
is shared by fewer than `INT_MAX` live objects, the source of an assignment `x = y` by fewer
than `INT_MAX` live objects other than `x` (which releases its own share first). -/
def SOp.room (w : Store) : SOp → Prop
  | SOp.construct _ _ => True
  | SOp.copy _ y => w.room w.live (w.objs y).ref_count
  | SOp.assign x y => x ≠ y → w.room (w.live.erase x) (w.objs y).ref_count
  | SOp.destroy _ => True

instance SOp.decRoom (w : Store) : (op : SOp) → Decidable (op.room w)
  | SOp.construct _ _ => inferInstanceAs (Decidable True)
  | SOp.copy _ y => Store.decRoom w w.live (w.objs y).ref_count
  | SOp.assign x y =>
    if h : x = y then isTrue (fun hne => absurd h hne)
    else
      match Store.decRoom w (w.live.erase x) (w.objs y).ref_count with
      | isTrue hr => isTrue (fun _ => hr)
      | isFalse hr => isFalse (fun hf => hr (hf h))
  | SOp.destroy _ => inferInstanceAs (Decidable True)

/-- Throughout a program, run from the given state, every statement that increments a count
finds room in it, so no buffer ever gets more than `INT_MAX` live holders (nothing is asked
of statements after undefined behaviour). -/
def hasRoom : Option Store → List SOp → Prop
  | none, [] => True
  | none, _ :: _ => True
  | some _, [] => True
  | some w, op :: ops => op.room w ∧ hasRoom (w.step op) ops

instance decHasRoom : (o : Option Store) → (ops : List SOp) → Decidable (hasRoom o ops)
  | none, [] => inferInstanceAs (Decidable True)
  | none, _ :: _ => inferInstanceAs (Decidable True)
  | some _, [] => inferInstanceAs (Decidable True)
  | some w, op :: ops =>
    @instDecidableAnd _ _ (SOp.decRoom w op) (decHasRoom (w.step op) ops)

end Task3

end Worksheet1

/-! ## Calls whose arithmetic stays inside the word, and the cursor invariant -/

/-- A call on a forward arena ending at `limit` whose size and address arithmetic cannot wrap:
the alignment is positive and the exact byte count, placed after the limit and a full
alignment of padding, still ends inside the 64-bit address space. -/
def BumpAllocator.noWrap (limit : Nat) : Op → Prop
  | Op.alloc sizeofT alignofT num_objects =>
    1 ≤ alignofT ∧ limit + alignofT + sizeofT * num_objects ≤ WORD
  | Op.dealloc => True

/-- A call on a backward arena starting at `base` whose size and address arithmetic cannot
wrap: the exact byte count is at most the base address, so `next - required_size` stays at or
above address zero. -/
def BumpAllocatorDownwards.noWrap (base : Nat) : Op → Prop
  | Op.alloc sizeofT _ num_objects => sizeofT * num_objects ≤ base
  | Op.dealloc => True

instance BumpAllocator.decNoWrap (limit : Nat) :
    (op : Op) → Decidable (BumpAllocator.noWrap limit op)
  | Op.alloc _ _ _ => inferInstanceAs (Decidable (_ ∧ _))
  | Op.dealloc => inferInstanceAs (Decidable True)

instance BumpAllocatorDownwards.decNoWrap (base : Nat) :
    (op : Op) → Decidable (BumpAllocatorDownwards.noWrap base op)
  | Op.alloc _ _ _ => inferInstanceAs (Decidable (_ ≤ _))
  | Op.dealloc => inferInstanceAs (Decidable True)

/-- The arithmetic of a forward call made in state `s` is exact, that is, none of it wraps:
aligning the cursor does not carry past the end of the address space (the aligned address is
not below the cursor) and the aligned address plus the exact byte count is still an address.
`dealloc()` has no such arithmetic. -/
def BumpAllocator.exact (s : BumpAllocator) : Op → Prop
  | Op.alloc sizeofT alignofT num_objects =>
    s.next ≤ BumpAllocator.align_pointer s.next alignofT
      ∧ BumpAllocator.align_pointer s.next alignofT + sizeofT * num_objects < WORD
  | Op.dealloc => True

/-- The arithmetic of a backward call made in state `s` is exact, that is, none of it wraps:
the exact byte count is at most the cursor, so `next - required_size` does not pass below
address zero. `dealloc()` has no such arithmetic. -/
def BumpAllocatorDownwards.exact (s : BumpAllocatorDownwards) : Op → Prop
  | Op.alloc sizeofT _ num_objects => sizeofT * num_objects ≤ s.next
  | Op.dealloc => True

instance BumpAllocator.decExact (s : BumpAllocator) :
    (op : Op) → Decidable (BumpAllocator.exact s op)
  | Op.alloc _ _ _ => inferInstanceAs (Decidable (_ ∧ _))
  | Op.dealloc => inferInstanceAs (Decidable True)

instance BumpAllocatorDownwards.decExact (s : BumpAllocatorDownwards) :
    (op : Op) → Decidable (BumpAllocatorDownwards.exact s op)
  | Op.alloc _ _ _ => inferInstanceAs (Decidable (_ ≤ _))
  | Op.dealloc => inferInstanceAs (Decidable True)

/-- Every call of the sequence, made from state `s` on, has exact arithmetic (forward
arena). -/
def BumpAllocator.exactRun (s : BumpAllocator) : List Op → Prop
  | [] => True
  | op :: ops => BumpAllocator.exact s op ∧ BumpAllocator.exactRun (s.step op).2 ops

/-- Every call of the sequence, made from state `s` on, has exact arithmetic (backward
arena). -/
def BumpAllocatorDownwards.exactRun (s : BumpAllocatorDownwards) : List Op → Prop
  | [] => True
  | op :: ops =>
    BumpAllocatorDownwards.exact s op ∧ BumpAllocatorDownwards.exactRun (s.step op).2 ops

instance BumpAllocator.decExactRun : (s : BumpAllocator) → (ops : List Op) →
    Decidable (BumpAllocator.exactRun s ops)
  | _, [] => inferInstanceAs (Decidable True)
  | s, op :: ops =>
    @instDecidableAnd _ _ (BumpAllocator.decExact s op)
      (BumpAllocator.decExactRun (s.step op).2 ops)

instance BumpAllocatorDownwards.decExactRun : (s : BumpAllocatorDownwards) →
    (ops : List Op) → Decidable (BumpAllocatorDownwards.exactRun s ops)
  | _, [] => inferInstanceAs (Decidable True)
  | s, op :: ops =>
    @instDecidableAnd _ _ (BumpAllocatorDownwards.decExact s op)
      (BumpAllocatorDownwards.decExactRun (s.step op).2 ops)

/-- No call of the sequence is a `dealloc()` that brings `allocation_count` to zero (a reset),
forward arena. -/
def BumpAllocator.noReset (s : BumpAllocator) : List Op → Prop
  | [] => True
  | op :: ops =>
    (op = Op.dealloc → (s.step op).2.allocation_count ≠ 0)
      ∧ BumpAllocator.noReset (s.step op).2 ops

/-- No call of the sequence is a `dealloc()` that brings `allocation_count` to zero (a reset),
backward arena. -/
def BumpAllocatorDownwards.noReset (s : BumpAllocatorDownwards) : List Op → Prop
  | [] => True
  | op :: ops =>
    (op = Op.dealloc → (s.step op).2.allocation_count ≠ 0)
      ∧ BumpAllocatorDownwards.noReset (s.step op).2 ops

/-- A call whose alignment is a power of two that divides the element size, the base and the
limit of the buffer (`dealloc()` always qualifies). -/
def Op.alignedFor (base limit : Nat) : Op → Prop
  | Op.alloc sizeofT alignofT _ =>
    ∃ k, k < 64 ∧ alignofT = 2 ^ k ∧ alignofT ∣ sizeofT ∧ alignofT ∣ base ∧ alignofT ∣ limit
  | Op.dealloc => True

/-- A call whose alignment divides `A` (`dealloc()` always qualifies). -/
def Op.alignDivides (A : Nat) : Op → Prop
  | Op.alloc _ alignofT _ => alignofT ∣ A
  | Op.dealloc => True

/-- Cursor invariant of the forward arena over the buffer from `base` to `limit`. -/
def BumpAllocator.Inv (base limit : Nat) (s : BumpAllocator) : Prop :=
  s.heap = base ∧ s.heap_end = limit ∧ base ≤ s.next ∧ s.next ≤ limit ∧ limit < WORD

/-- Cursor invariant of the backward arena over the buffer from `base` to `limit`. -/
def BumpAllocatorDownwards.Inv (base limit : Nat) (s : BumpAllocatorDownwards) : Prop :=
  s.heap_start = base ∧ s.heap_end = limit ∧ base ≤ s.next ∧ s.next ≤ limit ∧ limit < WORD

/-! ## Word arithmetic -/

theorem wsub_eq_sub {a b : Nat} (hb : b ≤ a) (ha : a < WORD) : wsub a b = a - b := by
  unfold wsub WORD at *
  omega

theorem wadd_eq_add {a b : Nat} (h : a + b < WORD) : wadd a b = a + b := by
  unfold wadd
  exact Nat.mod_eq_of_lt h

theorem wmul_eq_mul {a b : Nat} (h : a * b < WORD) : wmul a b = a * b := by
  unfold wmul
  exact Nat.mod_eq_of_lt h

theorem two_pow_lt_WORD {k : Nat} (hk : k < 64) : 2 ^ k < WORD := by
  have h : 2 ^ k < 2 ^ 64 := Nat.pow_lt_pow_right (by norm_num) hk
  have e : (2 : Nat) ^ 64 = WORD := by norm_num [WORD]
  omega

theorem two_pow_dvd_WORD {k : Nat} (hk : k < 64) : 2 ^ k ∣ WORD := by
  have h : 2 ^ k ∣ 2 ^ 64 := Nat.pow_dvd_pow 2 (by omega)
  have e : (2 : Nat) ^ 64 = WORD := by norm_num [WORD]
  rwa [e] at h

/-- The mask `alignment - 1` of a power-of-two alignment selects the remainder. -/
theorem land_mask_pow (p : Nat) {k : Nat} (hk : k < 64) :
    p &&& wsub (2 ^ k) 1 = p % 2 ^ k := by
  have hlt := two_pow_lt_WORD hk
  have hpos : 0 < 2 ^ k := Nat.pos_pow_of_pos k (by norm_num)
  rw [wsub_eq_sub (by omega) hlt, Nat.and_pow_two_sub_one_eq_mod]

theorem round_up_mod (p a : Nat) (ha : 0 < a) : (p + (a - p % a)) % a = 0 := by
  have h1 : p % a ≤ p := Nat.mod_le p a
  have h2 : p % a < a := Nat.mod_lt p ha
  have e : p + (a - p % a) = (p - p % a) + a := by omega
  rw [e, Nat.add_mod_right]
  exact Nat.sub_mod_eq_zero_of_mod_eq (by simp)

theorem round_down_mod (p a : Nat) : (p - p % a) % a = 0 :=
  Nat.sub_mod_eq_zero_of_mod_eq (by simp)

theorem BumpAllocator.align_pointer_mod (p : Nat) {k : Nat} (hk : k < 64) :
    BumpAllocator.align_pointer p (2 ^ k) % 2 ^ k = 0 := by
  have hlt := two_pow_lt_WORD hk
  have hpos : 0 < 2 ^ k := Nat.pos_pow_of_pos k (by norm_num)
  have hm : p % 2 ^ k < 2 ^ k := Nat.mod_lt p hpos
  simp only [BumpAllocator.align_pointer, land_mask_pow p hk]
  split
  · rw [wsub_eq_sub (by omega) hlt, wadd, Nat.mod_mod_of_dvd _ (two_pow_dvd_WORD hk)]
    exact round_up_mod p (2 ^ k) hpos
  · omega

theorem BumpAllocatorDownwards.down_align_pointer_mod (p : Nat) (hp : p < WORD) {k : Nat}
    (hk : k < 64) : BumpAllocatorDownwards.align_pointer p (2 ^ k) % 2 ^ k = 0 := by
  have hm : p % 2 ^ k ≤ p := Nat.mod_le p _
  simp only [BumpAllocatorDownwards.align_pointer, land_mask_pow p hk]
  split
  · rw [wsub_eq_sub hm hp]
    exact round_down_mod p (2 ^ k)
  · omega

theorem wsub_lt (a b : Nat) : wsub a b < WORD := by
  unfold wsub
  exact Nat.mod_lt _ (by norm_num [WORD])

/-! ## C1, C2: alignment of the returned address -/

/-- C1: forward arena. In every state, for every element size and count and every power-of-two
alignment `2 ^ k` that fits a word, an `alloc` that succeeds returns an address that is a
multiple of the alignment. -/
theorem BumpAllocator.alloc_aligned (s : BumpAllocator) (sizeofT k num_objects addr : Nat)
    (hk : k < 64) (h : (s.alloc sizeofT (2 ^ k) num_objects).1 = some addr) :
    addr % 2 ^ k = 0 := by
  unfold BumpAllocator.alloc at h
  simp only [] at h
  split at h
  · simp only [Option.some.injEq] at h
    rw [← h]
    exact BumpAllocator.align_pointer_mod s.next hk
  · simp at h

theorem BumpAllocator.alloc_aligned_witness :
    3 < 64 ∧ ((BumpAllocator.create 4098 40 false).alloc 8 (2 ^ 3) 1).1 = some 4104
      ∧ 4104 % 2 ^ 3 = 0 :=
  ⟨by decide, by decide,
    BumpAllocator.alloc_aligned (BumpAllocator.create 4098 40 false) 8 3 1 4104
      (by decide) (by decide)⟩

/-- C2: backward arena. In every state, for every element size and count and every
power-of-two alignment `2 ^ k` that fits a word, an `alloc` that succeeds returns an address
that is a multiple of the alignment. -/
theorem BumpAllocatorDownwards.down_alloc_aligned (s : BumpAllocatorDownwards)
    (sizeofT k num_objects addr : Nat) (hk : k < 64)
    (h : (s.alloc sizeofT (2 ^ k) num_objects).1 = some addr) : addr % 2 ^ k = 0 := by
  unfold BumpAllocatorDownwards.alloc at h
  simp only [] at h
  split at h
  · simp only [Option.some.injEq] at h
    rw [← h]
    exact BumpAllocatorDownwards.down_align_pointer_mod _ (wsub_lt _ _) hk
  · simp at h

theorem BumpAllocatorDownwards.down_alloc_aligned_witness :
    3 < 64 ∧ ((BumpAllocatorDownwards.create 4098 40).alloc 8 (2 ^ 3) 1).1 = some 4128
      ∧ 4128 % 2 ^ 3 = 0 :=
  ⟨by decide, by decide,
    BumpAllocatorDownwards.down_alloc_aligned (BumpAllocatorDownwards.create 4098 40)
      8 3 1 4128 (by decide) (by decide)⟩

/-! ## The arenas on calls that do not wrap -/

theorem BumpAllocator.align_pointer_bounds (p a : Nat) (ha : 1 ≤ a) (hp : p + a ≤ WORD) :
    p ≤ BumpAllocator.align_pointer p a ∧ BumpAllocator.align_pointer p a < p + a := by
  have hmask : wsub a 1 = a - 1 := by
    unfold wsub WORD at *
    omega
  have hle : p &&& (a - 1) ≤ a - 1 := Nat.and_le_right
  simp only [BumpAllocator.align_pointer, hmask]
  split
  · rename_i hne
    have hs : wsub a (p &&& (a - 1)) = a - (p &&& (a - 1)) := by
      unfold wsub WORD at *
      omega
    have hadd : wadd p (a - (p &&& (a - 1))) = p + (a - (p &&& (a - 1))) := by
      apply wadd_eq_add
      omega
    rw [hs, hadd]
    omega
  · omega

/-- Forward `alloc` on a call that does not wrap, from a state with the cursor invariant: the
successful branch is taken exactly when the aligned block fits, the block lies in the buffer
and the cursor moves to its end. -/
theorem BumpAllocator.alloc_noWrap {base limit : Nat} {s : BumpAllocator}
    (hs : BumpAllocator.Inv base limit s) (sizeofT alignofT num_objects : Nat)
    (hw : BumpAllocator.noWrap limit (Op.alloc sizeofT alignofT num_objects)) :
    ((s.alloc sizeofT alignofT num_objects).1 = none
        ∧ limit < BumpAllocator.align_pointer s.next alignofT + sizeofT * num_objects
        ∧ (s.alloc sizeofT alignofT num_objects).2.next = s.next)
      ∨ (∃ addr, (s.alloc sizeofT alignofT num_objects).1 = some addr
        ∧ addr = BumpAllocator.align_pointer s.next alignofT
        ∧ s.next ≤ addr ∧ addr + sizeofT * num_objects ≤ limit
        ∧ (s.alloc sizeofT alignofT num_objects).2.next = addr + sizeofT * num_objects) := by
  obtain ⟨h1, h2, h3, h4, h5⟩ := hs
  obtain ⟨ha, hsum⟩ := hw
  have hb := BumpAllocator.align_pointer_bounds s.next alignofT ha (by omega)
  have hmul : wmul sizeofT num_objects = sizeofT * num_objects :=
    wmul_eq_mul (by omega)
  have hadd : wadd (BumpAllocator.align_pointer s.next alignofT) (sizeofT * num_objects)
      = BumpAllocator.align_pointer s.next alignofT + sizeofT * num_objects :=
    wadd_eq_add (by omega)
  unfold BumpAllocator.alloc
  simp only [hmul, hadd, h2]
  split
  · right
    exact ⟨_, rfl, rfl, hb.1, by assumption, rfl⟩
  · left
    exact ⟨rfl, by omega, rfl⟩

theorem BumpAllocator.alloc_heap (s : BumpAllocator) (sizeofT alignofT num_objects : Nat) :
    (s.alloc sizeofT alignofT num_objects).2.heap = s.heap
      ∧ (s.alloc sizeofT alignofT num_objects).2.heap_end = s.heap_end := by
  unfold BumpAllocator.alloc
  simp only []
  split <;> exact ⟨rfl, rfl⟩

theorem BumpAllocator.dealloc_heap (s : BumpAllocator) :
    s.dealloc.heap = s.heap ∧ s.dealloc.heap_end = s.heap_end := by
  unfold BumpAllocator.dealloc
  simp only []
  split <;> split <;> exact ⟨rfl, rfl⟩

theorem BumpAllocator.dealloc_next (s : BumpAllocator) :
    s.dealloc.next = s.heap ∨ s.dealloc.next = s.next := by
  unfold BumpAllocator.dealloc
  simp only []
  split <;> split <;> simp

theorem BumpAllocator.step_Inv {base limit : Nat} {s : BumpAllocator}
    (hs : BumpAllocator.Inv base limit s) (op : Op) (hw : BumpAllocator.noWrap limit op) :
    BumpAllocator.Inv base limit (s.step op).2 := by
  cases op with
  | alloc sizeofT alignofT num_objects =>
    have hh := BumpAllocator.alloc_heap s sizeofT alignofT num_objects
    have ha := BumpAllocator.alloc_noWrap hs sizeofT alignofT num_objects hw
    obtain ⟨h1, h2, h3, h4, h5⟩ := hs
    simp only [BumpAllocator.step]
    refine ⟨by rw [hh.1, h1], by rw [hh.2, h2], ?_, ?_, h5⟩
    · rcases ha with ⟨_, _, hn⟩ | ⟨addr, _, _, hle, _, hn⟩ <;> omega
    · rcases ha with ⟨_, _, hn⟩ | ⟨addr, _, _, _, hle, hn⟩ <;> omega
  | dealloc =>
    have hh := BumpAllocator.dealloc_heap s
    have hn := BumpAllocator.dealloc_next s
    obtain ⟨h1, h2, h3, h4, h5⟩ := hs
    simp only [BumpAllocator.step]
    refine ⟨by rw [hh.1, h1], by rw [hh.2, h2], ?_, ?_, h5⟩
    · rcases hn with hn | hn <;> omega
    · rcases hn with hn | hn <;> omega

theorem BumpAllocator.run_Inv {base limit : Nat} (ops : List Op) :
    ∀ s : BumpAllocator, BumpAllocator.Inv base limit s →
      (∀ op ∈ ops, BumpAllocator.noWrap limit op) →
      BumpAllocator.Inv base limit (s.run ops) := by
  induction ops with
  | nil => intro s hs _; exact hs
  | cons op ops ih =>
    intro s hs hw
    simp only [BumpAllocator.run]
    exact ih _ (BumpAllocator.step_Inv hs op (hw op (List.mem_cons_self _ _)))
      (fun o ho => hw o (List.mem_cons_of_mem _ ho))

theorem BumpAllocator.create_Inv (heap heap_size : Nat) (debug : Bool)
    (h : heap + heap_size < WORD) :
    BumpAllocator.Inv heap (heap + heap_size) (BumpAllocator.create heap heap_size debug) := by
  refine ⟨rfl, ?_, ?_, ?_, h⟩
  · exact wadd_eq_add h
  · exact Nat.le_refl _
  · exact Nat.le_add_right _ _

theorem BumpAllocatorDownwards.down_align_pointer_le (p a : Nat) (hp : p < WORD) :
    BumpAllocatorDownwards.align_pointer p a ≤ p := by
  have hle : p &&& wsub a 1 ≤ p := Nat.and_le_left
  simp only [BumpAllocatorDownwards.align_pointer]
  split
  · rw [wsub_eq_sub hle hp]
    omega
  · omega

/-- Backward `alloc` on a call that does not wrap, from a state with the cursor invariant: the
successful branch is taken exactly when the aligned block starts at or above the base, the
block lies in the buffer below the old cursor and the cursor moves to its start. -/
theorem BumpAllocatorDownwards.down_alloc_noWrap {base limit : Nat} {s : BumpAllocatorDownwards}
    (hs : BumpAllocatorDownwards.Inv base limit s) (sizeofT alignofT num_objects : Nat)
    (hw : BumpAllocatorDownwards.noWrap base (Op.alloc sizeofT alignofT num_objects)) :
    ((s.alloc sizeofT alignofT num_objects).1 = none
        ∧ BumpAllocatorDownwards.align_pointer (s.next - sizeofT * num_objects) alignofT < base
        ∧ (s.alloc sizeofT alignofT num_objects).2.next = s.next)
      ∨ (∃ addr, (s.alloc sizeofT alignofT num_objects).1 = some addr
        ∧ addr = BumpAllocatorDownwards.align_pointer (s.next - sizeofT * num_objects) alignofT
        ∧ base ≤ addr ∧ addr + sizeofT * num_objects ≤ s.next
        ∧ (s.alloc sizeofT alignofT num_objects).2.next = addr) := by
  obtain ⟨h1, h2, h3, h4, h5⟩ := hs
  have hreq : sizeofT * num_objects ≤ base := hw
  have hmul : wmul sizeofT num_objects = sizeofT * num_objects :=
    wmul_eq_mul (by omega)
  have hsub : wsub s.next (sizeofT * num_objects) = s.next - sizeofT * num_objects :=
    wsub_eq_sub (by omega) (by omega)
  have hb := BumpAllocatorDownwards.down_align_pointer_le (s.next - sizeofT * num_objects)
    alignofT (by omega)
  unfold BumpAllocatorDownwards.alloc
  simp only [hmul, hsub, h1]
  split
  · right
    exact ⟨_, rfl, rfl, by assumption, by omega, rfl⟩
  · left
    exact ⟨rfl, by omega, rfl⟩

theorem BumpAllocatorDownwards.down_alloc_heap (s : BumpAllocatorDownwards)
    (sizeofT alignofT num_objects : Nat) :
    (s.alloc sizeofT alignofT num_objects).2.heap_start = s.heap_start
      ∧ (s.alloc sizeofT alignofT num_objects).2.heap_end = s.heap_end := by
  unfold BumpAllocatorDownwards.alloc
  simp only []
  split <;> exact ⟨rfl, rfl⟩

theorem BumpAllocatorDownwards.down_dealloc_heap (s : BumpAllocatorDownwards) :
    s.dealloc.heap_start = s.heap_start ∧ s.dealloc.heap_end = s.heap_end := by
  unfold BumpAllocatorDownwards.dealloc
  simp only []
  split <;> split <;> exact ⟨rfl, rfl⟩

theorem BumpAllocatorDownwards.down_dealloc_next (s : BumpAllocatorDownwards) :
    s.dealloc.next = s.heap_end ∨ s.dealloc.next = s.next := by
  unfold BumpAllocatorDownwards.dealloc
  simp only []
  split <;> split <;> simp

theorem BumpAllocatorDownwards.down_step_Inv {base limit : Nat} {s : BumpAllocatorDownwards}
    (hs : BumpAllocatorDownwards.Inv base limit s) (op : Op)
    (hw : BumpAllocatorDownwards.noWrap base op) :
    BumpAllocatorDownwards.Inv base limit (s.step op).2 := by
  cases op with
  | alloc sizeofT alignofT num_objects =>
    have hh := BumpAllocatorDownwards.down_alloc_heap s sizeofT alignofT num_objects
    have ha := BumpAllocatorDownwards.down_alloc_noWrap hs sizeofT alignofT num_objects hw
    obtain ⟨h1, h2, h3, h4, h5⟩ := hs
    simp only [BumpAllocatorDownwards.step]
    refine ⟨by rw [hh.1, h1], by rw [hh.2, h2], ?_, ?_, h5⟩
    · rcases ha with ⟨_, _, hn⟩ | ⟨addr, _, _, hle, _, hn⟩ <;> omega
    · rcases ha with ⟨_, _, hn⟩ | ⟨addr, _, _, _, hle, hn⟩ <;> omega
  | dealloc =>
    have hh := BumpAllocatorDownwards.down_dealloc_heap s
    have hn := BumpAllocatorDownwards.down_dealloc_next s
    obtain ⟨h1, h2, h3, h4, h5⟩ := hs
    simp only [BumpAllocatorDownwards.step]
    refine ⟨by rw [hh.1, h1], by rw [hh.2, h2], ?_, ?_, h5⟩
    · rcases hn with hn | hn <;> omega
    · rcases hn with hn | hn <;> omega

theorem BumpAllocatorDownwards.down_run_Inv {base limit : Nat} (ops : List Op) :
    ∀ s : BumpAllocatorDownwards, BumpAllocatorDownwards.Inv base limit s →
      (∀ op ∈ ops, BumpAllocatorDownwards.noWrap base op) →
      BumpAllocatorDownwards.Inv base limit (s.run ops) := by
  induction ops with
  | nil => intro s hs _; exact hs
  | cons op ops ih =>
    intro s hs hw
    simp only [BumpAllocatorDownwards.run]
    exact ih _ (BumpAllocatorDownwards.down_step_Inv hs op (hw op (List.mem_cons_self _ _)))
      (fun o ho => hw o (List.mem_cons_of_mem _ ho))

theorem BumpAllocatorDownwards.down_create_Inv (heap heap_size : Nat)
    (h : heap + heap_size < WORD) :
    BumpAllocatorDownwards.Inv heap (heap + heap_size)
      (BumpAllocatorDownwards.create heap heap_size) := by
  refine ⟨rfl, ?_, ?_, ?_, h⟩
  · exact wadd_eq_add h
  · show heap ≤ wadd heap heap_size
    rw [wadd_eq_add h]
    exact Nat.le_add_right _ _
  · show wadd heap heap_size ≤ heap + heap_size
    rw [wadd_eq_add h]

/-! ## C3: the returned region and the buffer -/

/-- Both arenas, calls that do not wrap: from every state reached from construction by such
calls, a successful `alloc` returns a block of `sizeofT * num_objects` bytes that lies inside
the buffer from `heap` to `heap + heap_size`. -/
theorem alloc_region_in_buffer_of_noWrap (heap heap_size : Nat) (h : heap + heap_size < WORD)
    (sizeofT alignofT num_objects addr : Nat) :
    (∀ (debug : Bool) (ops : List Op),
      (∀ op ∈ ops, BumpAllocator.noWrap (heap + heap_size) op) →
      BumpAllocator.noWrap (heap + heap_size) (Op.alloc sizeofT alignofT num_objects) →
      (((BumpAllocator.create heap heap_size debug).run ops).alloc
        sizeofT alignofT num_objects).1 = some addr →
      heap ≤ addr ∧ addr + sizeofT * num_objects ≤ heap + heap_size)
    ∧ (∀ ops : List Op,
      (∀ op ∈ ops, BumpAllocatorDownwards.noWrap heap op) →
      BumpAllocatorDownwards.noWrap heap (Op.alloc sizeofT alignofT num_objects) →
      (((BumpAllocatorDownwards.create heap heap_size).run ops).alloc
        sizeofT alignofT num_objects).1 = some addr →
      heap ≤ addr ∧ addr + sizeofT * num_objects ≤ heap + heap_size) := by
  constructor
  · intro debug ops hops hw hres
    have hinv := BumpAllocator.run_Inv ops _ (BumpAllocator.create_Inv heap heap_size debug h)
      hops
    have ha := BumpAllocator.alloc_noWrap hinv sizeofT alignofT num_objects hw
    obtain ⟨_, _, h3, _, _⟩ := hinv
    rcases ha with ⟨hn, _, _⟩ | ⟨a, hsome, _, h6, h7, _⟩
    · rw [hn] at hres
      simp at hres
    · rw [hsome] at hres
      simp only [Option.some.injEq] at hres
      omega
  · intro ops hops hw hres
    have hinv := BumpAllocatorDownwards.down_run_Inv ops _
      (BumpAllocatorDownwards.down_create_Inv heap heap_size h) hops
    have ha := BumpAllocatorDownwards.down_alloc_noWrap hinv sizeofT alignofT num_objects hw
    obtain ⟨_, _, _, h4, _⟩ := hinv
    rcases ha with ⟨hn, _, _⟩ | ⟨a, hsome, _, h6, h7, _⟩
    · rw [hn] at hres
      simp at hres
    · rw [hsome] at hres
      simp only [Option.some.injEq] at hres
      omega

/-- C3: on a fresh 16-byte arena at address 4096 the bounds check of `alloc` passes for
requests whose arithmetic wraps, and the requested region then leaves the buffer. Forward:
`alloc<char>(2^64 - 1)` and `alloc<int>(2^62 + 1)` both return 4096. Backward:
`alloc<char>(2^64 - 1)` returns 4113, one past the limit 4112, and `alloc<int>(2^62 + 1)`
returns 4108 for `2^64 + 4` requested bytes. -/
theorem alloc_region_escapes_on_wrap :
    ((BumpAllocator.create 4096 16 false).alloc 1 1 18446744073709551615).1 = some 4096
      ∧ ¬ (4096 + 1 * 18446744073709551615 ≤ 4096 + 16)
      ∧ ((BumpAllocator.create 4096 16 false).alloc 4 4 4611686018427387905).1 = some 4096
      ∧ ¬ (4096 + 4 * 4611686018427387905 ≤ 4096 + 16)
      ∧ ((BumpAllocatorDownwards.create 4096 16).alloc 1 1 18446744073709551615).1
          = some 4113
      ∧ ¬ (4113 + 1 * 18446744073709551615 ≤ 4096 + 16)
      ∧ ((BumpAllocatorDownwards.create 4096 16).alloc 4 4 4611686018427387905).1
          = some 4108
      ∧ ¬ (4108 + 4 * 4611686018427387905 ≤ 4096 + 16) := by
  decide

/-! ## C4: disjointness of the returned regions -/

/-- C4: three successful allocations with no `dealloc()` between them, on a fresh 16-byte
arena at address 4096: `alloc<char>(4)`, `alloc<char>(2^64 - 2)`, `alloc<char>(1)`. In both
arenas the one byte returned by the third call lies inside the four bytes returned by the
first. Also, on the forward arena, `alloc<int>(2^62 + 1)` followed by `alloc<int>(1)`: the
second block starts 4 bytes into the `2^64 + 4` bytes the first call was asked for. -/
theorem alloc_regions_overlap_on_wrap :
    (BumpAllocator.create 4096 16 false).results
        [Op.alloc 1 1 4, Op.alloc 1 1 18446744073709551614, Op.alloc 1 1 1]
        = [some 4096, some 4100, some 4098]
      ∧ (4096 ≤ 4098 ∧ 4098 < 4096 + 1 * 4)
      ∧ (BumpAllocator.create 4096 16 false).results
        [Op.alloc 4 4 4611686018427387905, Op.alloc 4 4 1] = [some 4096, some 4100]
      ∧ (4096 ≤ 4100 ∧ 4100 < 4096 + 4 * 4611686018427387905)
      ∧ (BumpAllocatorDownwards.create 4096 16).results
        [Op.alloc 1 1 4, Op.alloc 1 1 18446744073709551614, Op.alloc 1 1 1]
        = [some 4108, some 4110, some 4109]
      ∧ (4108 ≤ 4109 ∧ 4109 < 4108 + 1 * 4) := by
  decide

/-! ## C5: the returned address and the half-open buffer -/

/-- C5, as stated, fails: a zero-byte request can return the limit itself. Backward: on a
fresh 16-byte arena at 4096, `alloc<char>(0)` returns 4112. Forward: after `alloc<char>(16)`
has filled the arena, `alloc<char>(0)` returns 4112. -/
theorem alloc_zero_returns_limit :
    ((BumpAllocatorDownwards.create 4096 16).alloc 1 1 0).1 = some 4112
      ∧ (((BumpAllocator.create 4096 16 false).run [Op.alloc 1 1 16]).alloc 1 1 0).1
          = some 4112
      ∧ ¬ (4112 < 4096 + 16) := by
  decide

/-- Forward `alloc` with exact arithmetic, from a state with the cursor invariant: either it
fails and the cursor stays, or it returns an address at or above the cursor whose block ends
at or below the limit, and the cursor moves to the end of the block. -/
theorem BumpAllocator.alloc_of_exact {base limit : Nat} {s : BumpAllocator}
    (hs : BumpAllocator.Inv base limit s) (sizeofT alignofT num_objects : Nat)
    (hw : BumpAllocator.exact s (Op.alloc sizeofT alignofT num_objects)) :
    ((s.alloc sizeofT alignofT num_objects).1 = none
        ∧ (s.alloc sizeofT alignofT num_objects).2.next = s.next)
      ∨ (∃ addr, (s.alloc sizeofT alignofT num_objects).1 = some addr
        ∧ s.next ≤ addr ∧ addr + sizeofT * num_objects ≤ limit
        ∧ (s.alloc sizeofT alignofT num_objects).2.next = addr + sizeofT * num_objects) := by
  obtain ⟨h1, h2, h3, h4, h5⟩ := hs
  obtain ⟨hup, hsum⟩ := hw
  have hmul : wmul sizeofT num_objects = sizeofT * num_objects :=
    wmul_eq_mul (by omega)
  have hadd : wadd (BumpAllocator.align_pointer s.next alignofT) (sizeofT * num_objects)
      = BumpAllocator.align_pointer s.next alignofT + sizeofT * num_objects :=
    wadd_eq_add hsum
  unfold BumpAllocator.alloc
  simp only [hmul, hadd, h2]
  split
  · right
    exact ⟨_, rfl, hup, by assumption, rfl⟩
  · left
    exact ⟨rfl, rfl⟩

theorem BumpAllocator.step_Inv_of_exact {base limit : Nat} {s : BumpAllocator}
    (hs : BumpAllocator.Inv base limit s) (op : Op) (hw : BumpAllocator.exact s op) :
    BumpAllocator.Inv base limit (s.step op).2 := by
  cases op with
  | alloc sizeofT alignofT num_objects =>
    have hh := BumpAllocator.alloc_heap s sizeofT alignofT num_objects
    have ha := BumpAllocator.alloc_of_exact hs sizeofT alignofT num_objects hw
    obtain ⟨h1, h2, h3, h4, h5⟩ := hs
    simp only [BumpAllocator.step]
    refine ⟨by rw [hh.1, h1], by rw [hh.2, h2], ?_, ?_, h5⟩
    · rcases ha with ⟨_, hn⟩ | ⟨addr, _, hle, _, hn⟩ <;> omega
    · rcases ha with ⟨_, hn⟩ | ⟨addr, _, _, hle, hn⟩ <;> omega
  | dealloc => exact BumpAllocator.step_Inv hs Op.dealloc trivial

theorem BumpAllocator.run_Inv_of_exact {base limit : Nat} (ops : List Op) :
    ∀ s : BumpAllocator, BumpAllocator.Inv base limit s → BumpAllocator.exactRun s ops →
      BumpAllocator.Inv base limit (s.run ops) := by
  induction ops with
  | nil => intro s hs _; exact hs
  | cons op ops ih =>
    intro s hs hw
    simp only [BumpAllocator.run]
    exact ih _ (BumpAllocator.step_Inv_of_exact hs op hw.1) hw.2

/-- Backward `alloc` with exact arithmetic, from a state with the cursor invariant: either it
fails and the cursor stays, or it returns an address at or above the base whose block ends at
or below the old cursor, and the cursor moves to the start of the block. -/
theorem BumpAllocatorDownwards.down_alloc_of_exact {base limit : Nat}
    {s : BumpAllocatorDownwards} (hs : BumpAllocatorDownwards.Inv base limit s)
    (sizeofT alignofT num_objects : Nat)
    (hw : BumpAllocatorDownwards.exact s (Op.alloc sizeofT alignofT num_objects)) :
    ((s.alloc sizeofT alignofT num_objects).1 = none
        ∧ (s.alloc sizeofT alignofT num_objects).2.next = s.next)
      ∨ (∃ addr, (s.alloc sizeofT alignofT num_objects).1 = some addr
        ∧ base ≤ addr ∧ addr + sizeofT * num_objects ≤ s.next
        ∧ (s.alloc sizeofT alignofT num_objects).2.next = addr) := by
  obtain ⟨h1, h2, h3, h4, h5⟩ := hs
  have hreq : sizeofT * num_objects ≤ s.next := hw
  have hmul : wmul sizeofT num_objects = sizeofT * num_objects :=
    wmul_eq_mul (by omega)
  have hsub : wsub s.next (sizeofT * num_objects) = s.next - sizeofT * num_objects :=
    wsub_eq_sub hreq (by omega)
  have hb := BumpAllocatorDownwards.down_align_pointer_le (s.next - sizeofT * num_objects)
    alignofT (by omega)
  unfold BumpAllocatorDownwards.alloc
  simp only [hmul, hsub, h1]
  split
  · right
    exact ⟨_, rfl, by assumption, by omega, rfl⟩
  · left
    exact ⟨rfl, rfl⟩

theorem BumpAllocatorDownwards.down_step_Inv_of_exact {base limit : Nat}
    {s : BumpAllocatorDownwards} (hs : BumpAllocatorDownwards.Inv base limit s) (op : Op)
    (hw : BumpAllocatorDownwards.exact s op) :
    BumpAllocatorDownwards.Inv base limit (s.step op).2 := by
  cases op with
  | alloc sizeofT alignofT num_objects =>
    have hh := BumpAllocatorDownwards.down_alloc_heap s sizeofT alignofT num_objects
    have ha := BumpAllocatorDownwards.down_alloc_of_exact hs sizeofT alignofT num_objects hw
    obtain ⟨h1, h2, h3, h4, h5⟩ := hs
    simp only [BumpAllocatorDownwards.step]
    refine ⟨by rw [hh.1, h1], by rw [hh.2, h2], ?_, ?_, h5⟩
    · rcases ha with ⟨_, hn⟩ | ⟨addr, _, hle, _, hn⟩ <;> omega
    · rcases ha with ⟨_, hn⟩ | ⟨addr, _, _, hle, hn⟩ <;> omega
  | dealloc => exact BumpAllocatorDownwards.down_step_Inv hs Op.dealloc trivial

theorem BumpAllocatorDownwards.down_run_Inv_of_exact {base limit : Nat} (ops : List Op) :
    ∀ s : BumpAllocatorDownwards, BumpAllocatorDownwards.Inv base limit s →
      BumpAllocatorDownwards.exactRun s ops →
      BumpAllocatorDownwards.Inv base limit (s.run ops) := by
  induction ops with
  | nil => intro s hs _; exact hs
  | cons op ops ih =>
    intro s hs hw
    simp only [BumpAllocatorDownwards.run]
    exact ih _ (BumpAllocatorDownwards.down_step_Inv_of_exact hs op hw.1) hw.2

/-- C5, amended: in both arenas, from every state reached from construction by calls whose
size and address arithmetic does not wrap, a successful `alloc` whose arithmetic does not wrap
returns an address between the base and the limit, both included, and strictly below the limit
when the byte count is positive. "Does not wrap" is the exact condition on each call in the
state it is made in: forward, the aligned address is not below the cursor and the aligned
address plus `sizeofT * num_objects` is below `2^64`; backward, `sizeofT * num_objects` is at
most the cursor. -/
theorem alloc_address_in_buffer (heap heap_size : Nat) (h : heap + heap_size < WORD)
    (sizeofT alignofT num_objects addr : Nat) :
    (∀ (debug : Bool) (ops : List Op),
      (BumpAllocator.create heap heap_size debug).exactRun ops →
      ((BumpAllocator.create heap heap_size debug).run ops).exact
        (Op.alloc sizeofT alignofT num_objects) →
      (((BumpAllocator.create heap heap_size debug).run ops).alloc
        sizeofT alignofT num_objects).1 = some addr →
      heap ≤ addr ∧ addr ≤ heap + heap_size
        ∧ (0 < sizeofT * num_objects → addr < heap + heap_size))
    ∧ (∀ ops : List Op,
      (BumpAllocatorDownwards.create heap heap_size).exactRun ops →
      ((BumpAllocatorDownwards.create heap heap_size).run ops).exact
        (Op.alloc sizeofT alignofT num_objects) →
      (((BumpAllocatorDownwards.create heap heap_size).run ops).alloc
        sizeofT alignofT num_objects).1 = some addr →
      heap ≤ addr ∧ addr ≤ heap + heap_size
        ∧ (0 < sizeofT * num_objects → addr < heap + heap_size)) := by
  constructor
  · intro debug ops hops hw hres
    have hinv := BumpAllocator.run_Inv_of_exact ops _
      (BumpAllocator.create_Inv heap heap_size debug h) hops
    have ha := BumpAllocator.alloc_of_exact hinv sizeofT alignofT num_objects hw
    obtain ⟨_, _, h3, h4, h5⟩ := hinv
    rcases ha with ⟨hn, _⟩ | ⟨a, ha1, ha2, ha3, _⟩
    · rw [hn] at hres
      simp at hres
    · rw [ha1] at hres
      simp only [Option.some.injEq] at hres
      subst hres
      omega
  · intro ops hops hw hres
    have hinv := BumpAllocatorDownwards.down_run_Inv_of_exact ops _
      (BumpAllocatorDownwards.down_create_Inv heap heap_size h) hops
    have ha := BumpAllocatorDownwards.down_alloc_of_exact hinv sizeofT alignofT num_objects hw
    obtain ⟨_, _, h3, h4, h5⟩ := hinv
    rcases ha with ⟨hn, _⟩ | ⟨a, ha1, ha2, ha3, _⟩
    · rw [hn] at hres
      simp at hres
    · rw [ha1] at hres
      simp only [Option.some.injEq] at hres
      subst hres
      omega

theorem alloc_address_in_buffer_witness :
    (18446744073709551552 + 56 < WORD
      ∧ (BumpAllocator.create 18446744073709551552 56 false).exactRun
          [Op.alloc 1 1 3, Op.dealloc, Op.alloc 4 4 1]
      ∧ ((BumpAllocator.create 18446744073709551552 56 false).run
          [Op.alloc 1 1 3, Op.dealloc, Op.alloc 4 4 1]).exact (Op.alloc 8 8 2)
      ∧ (((BumpAllocator.create 18446744073709551552 56 false).run
          [Op.alloc 1 1 3, Op.dealloc, Op.alloc 4 4 1]).alloc 8 8 2).1
          = some 18446744073709551560
      ∧ 18446744073709551552 ≤ 18446744073709551560
      ∧ 18446744073709551560 ≤ 18446744073709551552 + 56
      ∧ 18446744073709551560 < 18446744073709551552 + 56)
    ∧ (65536 + 1048576 < WORD
      ∧ (BumpAllocatorDownwards.create 65536 1048576).exactRun
          [Op.alloc 1 1 3, Op.dealloc, Op.alloc 4 4 1]
      ∧ ((BumpAllocatorDownwards.create 65536 1048576).run
          [Op.alloc 1 1 3, Op.dealloc, Op.alloc 4 4 1]).exact (Op.alloc 1 1 100000)
      ∧ (((BumpAllocatorDownwards.create 65536 1048576).run
          [Op.alloc 1 1 3, Op.dealloc, Op.alloc 4 4 1]).alloc 1 1 100000).1 = some 1014108
      ∧ 65536 ≤ 1014108 ∧ 1014108 ≤ 65536 + 1048576 ∧ 1014108 < 65536 + 1048576) :=
  ⟨⟨by decide, by decide, by decide, by decide,
      ((alloc_address_in_buffer 18446744073709551552 56 (by decide) 8 8 2
        18446744073709551560).1 false [Op.alloc 1 1 3, Op.dealloc, Op.alloc 4 4 1]
        (by decide) (by decide) (by decide)).1,
      ((alloc_address_in_buffer 18446744073709551552 56 (by decide) 8 8 2
        18446744073709551560).1 false [Op.alloc 1 1 3, Op.dealloc, Op.alloc 4 4 1]
        (by decide) (by decide) (by decide)).2.1,
      ((alloc_address_in_buffer 18446744073709551552 56 (by decide) 8 8 2
        18446744073709551560).1 false [Op.alloc 1 1 3, Op.dealloc, Op.alloc 4 4 1]
        (by decide) (by decide) (by decide)).2.2 (by decide)⟩,
    ⟨by decide, by decide, by decide, by decide,
      ((alloc_address_in_buffer 65536 1048576 (by decide) 1 1 100000 1014108).2
        [Op.alloc 1 1 3, Op.dealloc, Op.alloc 4 4 1]
        (by decide) (by decide) (by decide)).1,
      ((alloc_address_in_buffer 65536 1048576 (by decide) 1 1 100000 1014108).2
        [Op.alloc 1 1 3, Op.dealloc, Op.alloc 4 4 1]
        (by decide) (by decide) (by decide)).2.1,
      ((alloc_address_in_buffer 65536 1048576 (by decide) 1 1 100000 1014108).2
        [Op.alloc 1 1 3, Op.dealloc, Op.alloc 4 4 1]
        (by decide) (by decide) (by decide)).2.2 (by decide)⟩⟩

/-! ## C6: the cursor invariant -/

/-- Both arenas, calls that do not wrap: every state reached from construction by such calls
has its cursor between the base and the limit. -/
theorem cursor_in_buffer_of_noWrap (heap heap_size : Nat) (h : heap + heap_size < WORD)
    (ops : List Op) :
    (∀ debug : Bool, (∀ op ∈ ops, BumpAllocator.noWrap (heap + heap_size) op) →
      heap ≤ ((BumpAllocator.create heap heap_size debug).run ops).next
        ∧ ((BumpAllocator.create heap heap_size debug).run ops).next ≤ heap + heap_size)
    ∧ ((∀ op ∈ ops, BumpAllocatorDownwards.noWrap heap op) →
      heap ≤ ((BumpAllocatorDownwards.create heap heap_size).run ops).next
        ∧ ((BumpAllocatorDownwards.create heap heap_size).run ops).next
            ≤ heap + heap_size) := by
  constructor
  · intro debug hops
    have hinv := BumpAllocator.run_Inv ops _ (BumpAllocator.create_Inv heap heap_size debug h)
      hops
    exact ⟨hinv.2.2.1, hinv.2.2.2.1⟩
  · intro hops
    have hinv := BumpAllocatorDownwards.down_run_Inv ops _
      (BumpAllocatorDownwards.down_create_Inv heap heap_size h) hops
    exact ⟨hinv.2.2.1, hinv.2.2.2.1⟩

/-- C6: one successful call takes the cursor out of the buffer. On a fresh 16-byte arena at
address 4096 (limit 4112), `alloc<char>(2^64 - 1)` succeeds in both arenas; the forward cursor
is then 4095, below the base, and the backward cursor is 4113, above the limit. -/
theorem cursor_leaves_buffer_on_wrap :
    ((BumpAllocator.create 4096 16 false).results [Op.alloc 1 1 18446744073709551615]
        = [some 4096]
      ∧ ((BumpAllocator.create 4096 16 false).run [Op.alloc 1 1 18446744073709551615]).next
        = 4095
      ∧ ¬ (4096 ≤ 4095))
    ∧ ((BumpAllocatorDownwards.create 4096 16).results [Op.alloc 1 1 18446744073709551615]
        = [some 4113]
      ∧ ((BumpAllocatorDownwards.create 4096 16).run
          [Op.alloc 1 1 18446744073709551615]).next = 4113
      ∧ ¬ (4113 ≤ 4096 + 16)) := by
  decide

/-! ## C7: a failed `alloc` changes nothing but the diagnostic stream -/

theorem BumpAllocator.alloc_cases (s : BumpAllocator) (sizeofT alignofT num_objects : Nat) :
    ((s.alloc sizeofT alignofT num_objects).1 = none
        ∧ (s.alloc sizeofT alignofT num_objects).2.next = s.next
        ∧ (s.alloc sizeofT alignofT num_objects).2.allocation_count = s.allocation_count
        ∧ (s.alloc sizeofT alignofT num_objects).2.total_allocations = s.total_allocations)
      ∨ ((∃ addr, (s.alloc sizeofT alignofT num_objects).1 = some addr)
        ∧ (s.alloc sizeofT alignofT num_objects).2.allocation_count
            = wadd s.allocation_count 1
        ∧ (s.alloc sizeofT alignofT num_objects).2.total_allocations
            = wadd s.total_allocations 1) := by
  unfold BumpAllocator.alloc
  simp only []
  split
  · right
    exact ⟨⟨_, rfl⟩, rfl, rfl⟩
  · left
    exact ⟨rfl, rfl, rfl, rfl⟩

theorem BumpAllocatorDownwards.down_alloc_cases (s : BumpAllocatorDownwards)
    (sizeofT alignofT num_objects : Nat) :
    ((s.alloc sizeofT alignofT num_objects).1 = none
        ∧ (s.alloc sizeofT alignofT num_objects).2.next = s.next
        ∧ (s.alloc sizeofT alignofT num_objects).2.allocation_count = s.allocation_count
        ∧ (s.alloc sizeofT alignofT num_objects).2.total_allocations = s.total_allocations)
      ∨ ((∃ addr, (s.alloc sizeofT alignofT num_objects).1 = some addr)
        ∧ (s.alloc sizeofT alignofT num_objects).2.allocation_count
            = wadd s.allocation_count 1
        ∧ (s.alloc sizeofT alignofT num_objects).2.total_allocations
            = wadd s.total_allocations 1) := by
  unfold BumpAllocatorDownwards.alloc
  simp only []
  split
  · right
    exact ⟨⟨_, rfl⟩, rfl, rfl⟩
  · left
    exact ⟨rfl, rfl, rfl, rfl⟩

/-- C7: in both arenas and in every state, when `alloc` returns `nullptr` the cursor `next`,
`allocation_count` and `total_allocations` are what they were before the call, and so is
`remaining_memory()`. -/
theorem alloc_failure_changes_nothing (sizeofT alignofT num_objects : Nat) :
    (∀ s : BumpAllocator, (s.alloc sizeofT alignofT num_objects).1 = none →
      (s.alloc sizeofT alignofT num_objects).2.next = s.next
        ∧ (s.alloc sizeofT alignofT num_objects).2.allocation_count = s.allocation_count
        ∧ (s.alloc sizeofT alignofT num_objects).2.total_allocations = s.total_allocations
        ∧ (s.alloc sizeofT alignofT num_objects).2.remaining_memory = s.remaining_memory)
    ∧ (∀ s : BumpAllocatorDownwards, (s.alloc sizeofT alignofT num_objects).1 = none →
      (s.alloc sizeofT alignofT num_objects).2.next = s.next
        ∧ (s.alloc sizeofT alignofT num_objects).2.allocation_count = s.allocation_count
        ∧ (s.alloc sizeofT alignofT num_objects).2.total_allocations = s.total_allocations
        ∧ (s.alloc sizeofT alignofT num_objects).2.remaining_memory = s.remaining_memory) := by
  constructor
  · intro s hnone
    have hh := BumpAllocator.alloc_heap s sizeofT alignofT num_objects
    rcases BumpAllocator.alloc_cases s sizeofT alignofT num_objects with
      ⟨_, h1, h2, h3⟩ | ⟨⟨addr, hsome⟩, _⟩
    · refine ⟨h1, h2, h3, ?_⟩
      simp only [BumpAllocator.remaining_memory, h1, hh.2]
    · rw [hsome] at hnone
      simp at hnone
  · intro s hnone
    have hh := BumpAllocatorDownwards.down_alloc_heap s sizeofT alignofT num_objects
    rcases BumpAllocatorDownwards.down_alloc_cases s sizeofT alignofT num_objects with
      ⟨_, h1, h2, h3⟩ | ⟨⟨addr, hsome⟩, _⟩
    · refine ⟨h1, h2, h3, ?_⟩
      simp only [BumpAllocatorDownwards.remaining_memory, h1, hh.1]
    · rw [hsome] at hnone
      simp at hnone

theorem alloc_failure_changes_nothing_witness :
    (((BumpAllocator.create 4096 10 false).alloc 4 4 3).1 = none
      ∧ ((BumpAllocator.create 4096 10 false).alloc 4 4 3).2.remaining_memory
          = (BumpAllocator.create 4096 10 false).remaining_memory
      ∧ (BumpAllocator.create 4096 10 false).remaining_memory = 10)
    ∧ (((BumpAllocatorDownwards.create 4096 10).alloc 4 4 3).1 = none
      ∧ ((BumpAllocatorDownwards.create 4096 10).alloc 4 4 3).2.remaining_memory
          = (BumpAllocatorDownwards.create 4096 10).remaining_memory
      ∧ (BumpAllocatorDownwards.create 4096 10).remaining_memory = 10) :=
  ⟨⟨by decide,
      ((alloc_failure_changes_nothing 4 4 3).1 (BumpAllocator.create 4096 10 false)
        (by decide)).2.2.2, by decide⟩,
    ⟨by decide,
      ((alloc_failure_changes_nothing 4 4 3).2 (BumpAllocatorDownwards.create 4096 10)
        (by decide)).2.2.2, by decide⟩⟩

/-! ## C8: requests larger than the remaining memory -/

/-- Both arenas, calls that do not wrap: from every state reached from construction by such
calls, an `alloc` whose exact byte count exceeds `remaining_memory()` returns `nullptr`. -/
theorem alloc_rejects_oversize_of_noWrap (heap heap_size : Nat) (h : heap + heap_size < WORD)
    (sizeofT alignofT num_objects : Nat) :
    (∀ (debug : Bool) (ops : List Op),
      (∀ op ∈ ops, BumpAllocator.noWrap (heap + heap_size) op) →
      BumpAllocator.noWrap (heap + heap_size) (Op.alloc sizeofT alignofT num_objects) →
      ((BumpAllocator.create heap heap_size debug).run ops).remaining_memory
        < sizeofT * num_objects →
      (((BumpAllocator.create heap heap_size debug).run ops).alloc
        sizeofT alignofT num_objects).1 = none)
    ∧ (∀ ops : List Op,
      (∀ op ∈ ops, BumpAllocatorDownwards.noWrap heap op) →
      BumpAllocatorDownwards.noWrap heap (Op.alloc sizeofT alignofT num_objects) →
      ((BumpAllocatorDownwards.create heap heap_size).run ops).remaining_memory
        < sizeofT * num_objects →
      (((BumpAllocatorDownwards.create heap heap_size).run ops).alloc
        sizeofT alignofT num_objects).1 = none) := by
  constructor
  · intro debug ops hops hw hbig
    have hinv := BumpAllocator.run_Inv ops _ (BumpAllocator.create_Inv heap heap_size debug h)
      hops
    have ha := BumpAllocator.alloc_noWrap hinv sizeofT alignofT num_objects hw
    obtain ⟨_, h2, h3, h4, h5⟩ := hinv
    rw [BumpAllocator.remaining_memory, h2, wsub_eq_sub h4 h5] at hbig
    rcases ha with ⟨hn, _, _⟩ | ⟨a, _, _, h6, h7, _⟩
    · exact hn
    · omega
  · intro ops hops hw hbig
    have hinv := BumpAllocatorDownwards.down_run_Inv ops _
      (BumpAllocatorDownwards.down_create_Inv heap heap_size h) hops
    have ha := BumpAllocatorDownwards.down_alloc_noWrap hinv sizeofT alignofT num_objects hw
    obtain ⟨h1, _, h3, h4, h5⟩ := hinv
    rw [BumpAllocatorDownwards.remaining_memory, h1, wsub_eq_sub h3 (by omega)] at hbig
    rcases ha with ⟨hn, _, _⟩ | ⟨a, _, _, h6, h7, _⟩
    · exact hn
    · omega

/-- C8: on a fresh 50-byte arena at address 4096, `alloc<int>(2^62)` asks for `4 * 2^62 = 2^64`
bytes, far more than the 50 bytes of `remaining_memory()`, and `alloc<char>(2^64 - 1)` asks for
`2^64 - 1` bytes; both arenas return a non-null pointer for both requests. -/
theorem alloc_accepts_oversize_on_wrap :
    ((BumpAllocator.create 4096 50 false).remaining_memory = 50
      ∧ 50 < 4 * 4611686018427387904
      ∧ ((BumpAllocator.create 4096 50 false).alloc 4 4 4611686018427387904).1 = some 4096
      ∧ ((BumpAllocator.create 4096 50 false).alloc 1 1 18446744073709551615).1 = some 4096)
    ∧ ((BumpAllocatorDownwards.create 4096 50).remaining_memory = 50
      ∧ ((BumpAllocatorDownwards.create 4096 50).alloc 4 4 4611686018427387904).1
          = some 4144
      ∧ ((BumpAllocatorDownwards.create 4096 50).alloc 1 1 18446744073709551615).1
          = some 4147) := by
  decide

/-! ## C9: exact fit -/

theorem wsub_self {a : Nat} (ha : a < WORD) : wsub a a = 0 := by
  rw [wsub_eq_sub (Nat.le_refl a) ha]
  exact Nat.sub_self a

theorem BumpAllocator.align_pointer_one (p : Nat) : BumpAllocator.align_pointer p 1 = p := by
  have hmask : wsub 1 1 = 0 := by decide
  simp [BumpAllocator.align_pointer, hmask]

theorem BumpAllocatorDownwards.down_align_pointer_one (p : Nat) :
    BumpAllocatorDownwards.align_pointer p 1 = p := by
  have hmask : wsub 1 1 = 0 := by decide
  simp [BumpAllocatorDownwards.align_pointer, hmask]

/-- C9: for every capacity `heap_size` and every buffer address `heap` with the buffer inside
the address space, on a freshly constructed arena (forward, with either debug flag, and
backward) `alloc<char>(heap_size)` succeeds, returns the base, and leaves
`remaining_memory() == 0`. -/
theorem alloc_exact_fit (heap heap_size : Nat) (h : heap + heap_size < WORD) :
    (∀ debug : Bool,
      ((BumpAllocator.create heap heap_size debug).alloc 1 1 heap_size).1 = some heap
        ∧ ((BumpAllocator.create heap heap_size debug).alloc 1 1 heap_size).2.remaining_memory
            = 0)
    ∧ (((BumpAllocatorDownwards.create heap heap_size).alloc 1 1 heap_size).1 = some heap
      ∧ ((BumpAllocatorDownwards.create heap heap_size).alloc 1 1 heap_size).2.remaining_memory
          = 0) := by
  have hmul : wmul 1 heap_size = heap_size := by
    rw [wmul_eq_mul (by omega)]
    exact Nat.one_mul _
  have hadd : wadd heap heap_size = heap + heap_size := wadd_eq_add h
  constructor
  · intro debug
    simp only [BumpAllocator.alloc, BumpAllocator.create, hmul,
      BumpAllocator.align_pointer_one, hadd, le_refl, if_true,
      BumpAllocator.remaining_memory, wsub_self h, and_self]
  · have hsub : wsub (heap + heap_size) heap_size = heap := by
      rw [wsub_eq_sub (by omega) h]
      omega
    have hheap : wsub heap heap = 0 := wsub_self (by omega)
    simp only [BumpAllocatorDownwards.alloc, BumpAllocatorDownwards.create, hmul, hadd, hsub,
      BumpAllocatorDownwards.down_align_pointer_one, ge_iff_le, le_refl, if_true,
      BumpAllocatorDownwards.remaining_memory, hheap, and_self]

theorem alloc_exact_fit_witness :
    4097 + 37 < WORD
      ∧ (((BumpAllocator.create 4097 37 false).alloc 1 1 37).1 = some 4097
        ∧ ((BumpAllocator.create 4097 37 false).alloc 1 1 37).2.remaining_memory = 0)
      ∧ (((BumpAllocatorDownwards.create 4097 37).alloc 1 1 37).1 = some 4097
        ∧ ((BumpAllocatorDownwards.create 4097 37).alloc 1 1 37).2.remaining_memory = 0) :=
  ⟨by decide, (alloc_exact_fit 4097 37 (by decide)).1 false,
    (alloc_exact_fit 4097 37 (by decide)).2⟩

/-! ## C10: releasing every allocation rewinds the arena -/

theorem BumpAllocator.dealloc_cases (s : BumpAllocator) (hc : s.allocation_count < WORD) :
    s.dealloc.allocation_count = s.allocation_count - 1
      ∧ (s.dealloc.allocation_count = 0 → s.dealloc.next = s.heap)
      ∧ (s.dealloc.allocation_count ≠ 0 → s.dealloc.next = s.next) := by
  by_cases h0 : s.allocation_count > 0
  · have hs : wsub s.allocation_count 1 = s.allocation_count - 1 :=
      wsub_eq_sub (by omega) hc
    by_cases h1 : s.allocation_count - 1 = 0
    · simp [BumpAllocator.dealloc, h0, hs, h1]
    · simp [BumpAllocator.dealloc, h0, hs, h1]
  · have hz : s.allocation_count = 0 := by omega
    simp [BumpAllocator.dealloc, hz]

theorem BumpAllocatorDownwards.down_dealloc_cases (s : BumpAllocatorDownwards)
    (hc : s.allocation_count < WORD) :
    s.dealloc.allocation_count = s.allocation_count - 1
      ∧ (s.dealloc.allocation_count = 0 → s.dealloc.next = s.heap_end)
      ∧ (s.dealloc.allocation_count ≠ 0 → s.dealloc.next = s.next) := by
  by_cases h0 : s.allocation_count > 0
  · have hs : wsub s.allocation_count 1 = s.allocation_count - 1 :=
      wsub_eq_sub (by omega) hc
    by_cases h1 : s.allocation_count - 1 = 0
    · simp [BumpAllocatorDownwards.dealloc, h0, hs, h1]
    · simp [BumpAllocatorDownwards.dealloc, h0, hs, h1]
  · have hz : s.allocation_count = 0 := by omega
    simp [BumpAllocatorDownwards.dealloc, hz]

/-- One call keeps the forward arena "at rest whenever nothing is outstanding", as long as the
counter cannot wrap. -/
theorem BumpAllocator.step_rest (s : BumpAllocator) (op : Op) (m : Nat)
    (hm : s.allocation_count ≤ m) (hlt : m + 1 < WORD)
    (hz : s.allocation_count = 0 → s.next = s.heap) :
    (s.step op).2.allocation_count ≤ m + 1
      ∧ ((s.step op).2.allocation_count = 0 → (s.step op).2.next = (s.step op).2.heap)
      ∧ (s.step op).2.heap = s.heap ∧ (s.step op).2.heap_end = s.heap_end := by
  cases op with
  | alloc sizeofT alignofT num_objects =>
    have hh := BumpAllocator.alloc_heap s sizeofT alignofT num_objects
    simp only [BumpAllocator.step]
    rcases BumpAllocator.alloc_cases s sizeofT alignofT num_objects with
      ⟨_, h1, h2, _⟩ | ⟨_, h2, _⟩
    · refine ⟨by omega, ?_, hh.1, hh.2⟩
      intro h0
      rw [h1, hh.1]
      exact hz (by omega)
    · rw [wadd_eq_add (by omega)] at h2
      refine ⟨by omega, ?_, hh.1, hh.2⟩
      intro h0
      omega
  | dealloc =>
    have hh := BumpAllocator.dealloc_heap s
    have hd := BumpAllocator.dealloc_cases s (by omega)
    simp only [BumpAllocator.step]
    refine ⟨by omega, ?_, hh.1, hh.2⟩
    intro h0
    rw [hd.2.1 h0, hh.1]

theorem BumpAllocator.run_rest (ops : List Op) :
    ∀ (s : BumpAllocator) (m : Nat), s.allocation_count ≤ m → m + ops.length < WORD →
      (s.allocation_count = 0 → s.next = s.heap) →
      (s.run ops).allocation_count ≤ m + ops.length
        ∧ ((s.run ops).allocation_count = 0 → (s.run ops).next = (s.run ops).heap)
        ∧ (s.run ops).heap = s.heap ∧ (s.run ops).heap_end = s.heap_end := by
  induction ops with
  | nil => intro s m hm _ hz; exact ⟨hm, hz, rfl, rfl⟩
  | cons op ops ih =>
    intro s m hm hlt hz
    simp only [List.length_cons] at hlt
    have h1 := BumpAllocator.step_rest s op m hm (by omega) hz
    have h2 := ih (s.step op).2 (m + 1) h1.1 (by omega) h1.2.1
    simp only [BumpAllocator.run, List.length_cons]
    refine ⟨by omega, h2.2.1, ?_, ?_⟩
    · rw [h2.2.2.1, h1.2.2.1]
    · rw [h2.2.2.2, h1.2.2.2]

theorem BumpAllocator.deallocTimes_rest (k : Nat) :
    ∀ s : BumpAllocator, s.allocation_count = k → k < WORD →
      (s.allocation_count = 0 → s.next = s.heap) →
      (BumpAllocator.deallocTimes k s).allocation_count = 0
        ∧ (BumpAllocator.deallocTimes k s).next = s.heap
        ∧ (BumpAllocator.deallocTimes k s).heap_end = s.heap_end := by
  induction k with
  | zero => intro s hk _ hz; exact ⟨hk, hz hk, rfl⟩
  | succ k ih =>
    intro s hk hlt _
    have hh := BumpAllocator.dealloc_heap s
    have hd := BumpAllocator.dealloc_cases s (by omega)
    have h2 := ih s.dealloc (by omega) (by omega) (fun h0 => by rw [hd.2.1 h0, hh.1])
    simp only [BumpAllocator.deallocTimes]
    refine ⟨h2.1, ?_, ?_⟩
    · rw [h2.2.1, hh.1]
    · rw [h2.2.2, hh.2]

theorem BumpAllocator.run_count_successes (ops : List Op) :
    ∀ s : BumpAllocator, (∀ op ∈ ops, op ≠ Op.dealloc) →
      s.allocation_count + ops.length < WORD →
      (s.run ops).allocation_count = s.allocation_count + s.successes ops := by
  induction ops with
  | nil => intro s _ _; rfl
  | cons op ops ih =>
    intro s hall hlt
    simp only [List.length_cons] at hlt
    cases op with
    | dealloc => exact absurd rfl (hall Op.dealloc (List.mem_cons_self _ _))
    | alloc sizeofT alignofT num_objects =>
      have hrest : ∀ o ∈ ops, o ≠ Op.dealloc := fun o ho => hall o (List.mem_cons_of_mem _ ho)
      simp only [BumpAllocator.run, BumpAllocator.successes, BumpAllocator.step]
      rcases BumpAllocator.alloc_cases s sizeofT alignofT num_objects with
        ⟨hn, _, h2, _⟩ | ⟨⟨addr, hsome⟩, h2, _⟩
      · rw [ih _ hrest (by omega), hn]
        simp only []
        omega
      · rw [wadd_eq_add (by omega)] at h2
        rw [ih _ hrest (by omega), hsome]
        simp only []
        omega

/-- One call keeps the backward arena "at rest whenever nothing is outstanding", as long as
the counter cannot wrap. -/
theorem BumpAllocatorDownwards.down_step_rest (s : BumpAllocatorDownwards) (op : Op) (m : Nat)
    (hm : s.allocation_count ≤ m) (hlt : m + 1 < WORD)
    (hz : s.allocation_count = 0 → s.next = s.heap_end) :
    (s.step op).2.allocation_count ≤ m + 1
      ∧ ((s.step op).2.allocation_count = 0 → (s.step op).2.next = (s.step op).2.heap_end)
      ∧ (s.step op).2.heap_start = s.heap_start ∧ (s.step op).2.heap_end = s.heap_end := by
  cases op with
  | alloc sizeofT alignofT num_objects =>
    have hh := BumpAllocatorDownwards.down_alloc_heap s sizeofT alignofT num_objects
    simp only [BumpAllocatorDownwards.step]
    rcases BumpAllocatorDownwards.down_alloc_cases s sizeofT alignofT num_objects with
      ⟨_, h1, h2, _⟩ | ⟨_, h2, _⟩
    · refine ⟨by omega, ?_, hh.1, hh.2⟩
      intro h0
      rw [h1, hh.2]
      exact hz (by omega)
    · rw [wadd_eq_add (by omega)] at h2
      refine ⟨by omega, ?_, hh.1, hh.2⟩
      intro h0
      omega
  | dealloc =>
    have hh := BumpAllocatorDownwards.down_dealloc_heap s
    have hd := BumpAllocatorDownwards.down_dealloc_cases s (by omega)
    simp only [BumpAllocatorDownwards.step]
    refine ⟨by omega, ?_, hh.1, hh.2⟩
    intro h0
    rw [hd.2.1 h0, hh.2]

theorem BumpAllocatorDownwards.down_run_rest (ops : List Op) :
    ∀ (s : BumpAllocatorDownwards) (m : Nat), s.allocation_count ≤ m →
      m + ops.length < WORD → (s.allocation_count = 0 → s.next = s.heap_end) →
      (s.run ops).allocation_count ≤ m + ops.length
        ∧ ((s.run ops).allocation_count = 0 → (s.run ops).next = (s.run ops).heap_end)
        ∧ (s.run ops).heap_start = s.heap_start ∧ (s.run ops).heap_end = s.heap_end := by
  induction ops with
  | nil => intro s m hm _ hz; exact ⟨hm, hz, rfl, rfl⟩
  | cons op ops ih =>
    intro s m hm hlt hz
    simp only [List.length_cons] at hlt
    have h1 := BumpAllocatorDownwards.down_step_rest s op m hm (by omega) hz
    have h2 := ih (s.step op).2 (m + 1) h1.1 (by omega) h1.2.1
    simp only [BumpAllocatorDownwards.run, List.length_cons]
    refine ⟨by omega, h2.2.1, ?_, ?_⟩
    · rw [h2.2.2.1, h1.2.2.1]
    · rw [h2.2.2.2, h1.2.2.2]

theorem BumpAllocatorDownwards.down_deallocTimes_rest (k : Nat) :
    ∀ s : BumpAllocatorDownwards, s.allocation_count = k → k < WORD →
      (s.allocation_count = 0 → s.next = s.heap_end) →
      (BumpAllocatorDownwards.deallocTimes k s).allocation_count = 0
        ∧ (BumpAllocatorDownwards.deallocTimes k s).next = s.heap_end
        ∧ (BumpAllocatorDownwards.deallocTimes k s).heap_start = s.heap_start := by
  induction k with
  | zero => intro s hk _ hz; exact ⟨hk, hz hk, rfl⟩
  | succ k ih =>
    intro s hk hlt _
    have hh := BumpAllocatorDownwards.down_dealloc_heap s
    have hd := BumpAllocatorDownwards.down_dealloc_cases s (by omega)
    have h2 := ih s.dealloc (by omega) (by omega) (fun h0 => by rw [hd.2.1 h0, hh.2])
    simp only [BumpAllocatorDownwards.deallocTimes]
    refine ⟨h2.1, ?_, ?_⟩
    · rw [h2.2.1, hh.2]
    · rw [h2.2.2, hh.1]

theorem BumpAllocatorDownwards.down_run_count_successes (ops : List Op) :
    ∀ s : BumpAllocatorDownwards, (∀ op ∈ ops, op ≠ Op.dealloc) →
      s.allocation_count + ops.length < WORD →
      (s.run ops).allocation_count = s.allocation_count + s.successes ops := by
  induction ops with
  | nil => intro s _ _; rfl
  | cons op ops ih =>
    intro s hall hlt
    simp only [List.length_cons] at hlt
    cases op with
    | dealloc => exact absurd rfl (hall Op.dealloc (List.mem_cons_self _ _))
    | alloc sizeofT alignofT num_objects =>
      have hrest : ∀ o ∈ ops, o ≠ Op.dealloc := fun o ho => hall o (List.mem_cons_of_mem _ ho)
      simp only [BumpAllocatorDownwards.run, BumpAllocatorDownwards.successes,
        BumpAllocatorDownwards.step]
      rcases BumpAllocatorDownwards.down_alloc_cases s sizeofT alignofT num_objects with
        ⟨hn, _, h2, _⟩ | ⟨⟨addr, hsome⟩, h2, _⟩
      · rw [ih _ hrest (by omega), hn]
        simp only []
        omega
      · rw [wadd_eq_add (by omega)] at h2
        rw [ih _ hrest (by omega), hsome]
        simp only []
        omega

/-- C10: for every capacity `heap_size`, every buffer address `heap` with the buffer inside the
address space, and every sequence `ops` of fewer than `2^64` calls on a fresh arena (any
mixture of `alloc` and `dealloc`, with any sizes, alignments and counts), calling `dealloc()`
`allocation_count` times leaves `allocation_count == 0`, the cursor at its starting edge
(`heap` forward, `heap + heap_size` backward) and `remaining_memory() == heap_size`. When
`ops` holds only `alloc` calls, `allocation_count` is the number of successful ones, so this
is one `dealloc()` per successful `alloc`. -/
theorem dealloc_all_restores_capacity (heap heap_size : Nat) (h : heap + heap_size < WORD)
    (ops : List Op) (hlen : ops.length < WORD) :
    (∀ debug : Bool,
      (BumpAllocator.deallocTimes
          ((BumpAllocator.create heap heap_size debug).run ops).allocation_count
          ((BumpAllocator.create heap heap_size debug).run ops)).allocation_count = 0
        ∧ (BumpAllocator.deallocTimes
          ((BumpAllocator.create heap heap_size debug).run ops).allocation_count
          ((BumpAllocator.create heap heap_size debug).run ops)).next = heap
        ∧ (BumpAllocator.deallocTimes
          ((BumpAllocator.create heap heap_size debug).run ops).allocation_count
          ((BumpAllocator.create heap heap_size debug).run ops)).remaining_memory = heap_size
        ∧ ((∀ op ∈ ops, op ≠ Op.dealloc) →
          ((BumpAllocator.create heap heap_size debug).run ops).allocation_count
            = (BumpAllocator.create heap heap_size debug).successes ops))
    ∧ ((BumpAllocatorDownwards.deallocTimes
          ((BumpAllocatorDownwards.create heap heap_size).run ops).allocation_count
          ((BumpAllocatorDownwards.create heap heap_size).run ops)).allocation_count = 0
        ∧ (BumpAllocatorDownwards.deallocTimes
          ((BumpAllocatorDownwards.create heap heap_size).run ops).allocation_count
          ((BumpAllocatorDownwards.create heap heap_size).run ops)).next = heap + heap_size
        ∧ (BumpAllocatorDownwards.deallocTimes
          ((BumpAllocatorDownwards.create heap heap_size).run ops).allocation_count
          ((BumpAllocatorDownwards.create heap heap_size).run ops)).remaining_memory
            = heap_size
        ∧ ((∀ op ∈ ops, op ≠ Op.dealloc) →
          ((BumpAllocatorDownwards.create heap heap_size).run ops).allocation_count
            = (BumpAllocatorDownwards.create heap heap_size).successes ops)) := by
  have hadd : wadd heap heap_size = heap + heap_size := wadd_eq_add h
  have hrem : wsub (heap + heap_size) heap = heap_size := by
    rw [wsub_eq_sub (by omega) h]
    omega
  constructor
  · intro debug
    have hr := BumpAllocator.run_rest ops (BumpAllocator.create heap heap_size debug) 0
      (Nat.le_refl 0) (by omega) (fun _ => rfl)
    have hd := BumpAllocator.deallocTimes_rest _ _ rfl (by omega) hr.2.1
    have hheap : ((BumpAllocator.create heap heap_size debug).run ops).heap = heap := hr.2.2.1
    have hend : ((BumpAllocator.create heap heap_size debug).run ops).heap_end
        = heap + heap_size := by
      rw [hr.2.2.2]
      exact hadd
    refine ⟨hd.1, ?_, ?_, ?_⟩
    · rw [hd.2.1, hheap]
    · rw [BumpAllocator.remaining_memory, hd.2.2, hd.2.1, hheap, hend, hrem]
    · intro hall
      have hc := BumpAllocator.run_count_successes ops
        (BumpAllocator.create heap heap_size debug) hall
        (by show 0 + ops.length < WORD; omega)
      rw [hc]
      exact Nat.zero_add _
  · have hr := BumpAllocatorDownwards.down_run_rest ops
      (BumpAllocatorDownwards.create heap heap_size) 0 (Nat.le_refl 0) (by omega)
      (fun _ => rfl)
    have hd := BumpAllocatorDownwards.down_deallocTimes_rest _ _ rfl (by omega) hr.2.1
    have hstart : ((BumpAllocatorDownwards.create heap heap_size).run ops).heap_start
        = heap := hr.2.2.1
    have hend : ((BumpAllocatorDownwards.create heap heap_size).run ops).heap_end
        = heap + heap_size := by
      rw [hr.2.2.2]
      exact hadd
    refine ⟨hd.1, ?_, ?_, ?_⟩
    · rw [hd.2.1, hend]
    · rw [BumpAllocatorDownwards.remaining_memory, hd.2.2, hd.2.1, hstart, hend, hrem]
    · intro hall
      have hc := BumpAllocatorDownwards.down_run_count_successes ops
        (BumpAllocatorDownwards.create heap heap_size) hall
        (by show 0 + ops.length < WORD; omega)
      rw [hc]
      exact Nat.zero_add _

theorem dealloc_all_restores_capacity_witness :
    4096 + 100 < WORD
    ∧ [Op.alloc 1 1 3, Op.alloc 8 8 2, Op.alloc 4 4 50, Op.alloc 4 4 10].length < WORD
    ∧ (BumpAllocator.deallocTimes
        ((BumpAllocator.create 4096 100 false).run
          [Op.alloc 1 1 3, Op.alloc 8 8 2, Op.alloc 4 4 50, Op.alloc 4 4 10]).allocation_count
        ((BumpAllocator.create 4096 100 false).run
          [Op.alloc 1 1 3, Op.alloc 8 8 2, Op.alloc 4 4 50, Op.alloc 4 4 10])).remaining_memory
      = 100
    ∧ (BumpAllocatorDownwards.deallocTimes
        ((BumpAllocatorDownwards.create 4096 100).run
          [Op.alloc 1 1 3, Op.alloc 8 8 2, Op.alloc 4 4 50, Op.alloc 4 4 10]).allocation_count
        ((BumpAllocatorDownwards.create 4096 100).run
          [Op.alloc 1 1 3, Op.alloc 8 8 2, Op.alloc 4 4 50,
            Op.alloc 4 4 10])).remaining_memory
      = 100 :=
  ⟨by decide, by decide,
    ((dealloc_all_restores_capacity 4096 100 (by decide)
      [Op.alloc 1 1 3, Op.alloc 8 8 2, Op.alloc 4 4 50, Op.alloc 4 4 10]
      (by decide)).1 false).2.2.1,
    (dealloc_all_restores_capacity 4096 100 (by decide)
      [Op.alloc 1 1 3, Op.alloc 8 8 2, Op.alloc 4 4 50, Op.alloc 4 4 10]
      (by decide)).2.2.2.1⟩

/-! ## Disjoint blocks between resets, on calls that do not wrap -/

theorem BumpAllocator.dealloc_next_of_count_ne_zero (s : BumpAllocator)
    (h : s.dealloc.allocation_count ≠ 0) : s.dealloc.next = s.next := by
  unfold BumpAllocator.dealloc at h ⊢
  by_cases h0 : s.allocation_count > 0
  · by_cases h1 : wsub s.allocation_count 1 = 0
    · simp [h0, h1] at h
    · simp [h0, h1]
  · have hz : s.allocation_count = 0 := by omega
    simp [hz] at h

theorem BumpAllocatorDownwards.down_dealloc_next_of_count_ne_zero
    (s : BumpAllocatorDownwards) (h : s.dealloc.allocation_count ≠ 0) :
    s.dealloc.next = s.next := by
  unfold BumpAllocatorDownwards.dealloc at h ⊢
  by_cases h0 : s.allocation_count > 0
  · by_cases h1 : wsub s.allocation_count 1 = 0
    · simp [h0, h1] at h
    · simp [h0, h1]
  · have hz : s.allocation_count = 0 := by omega
    simp [hz] at h

/-- Between resets the forward cursor never moves back, on calls that do not wrap. -/
theorem BumpAllocator.run_next_mono {base limit : Nat} (ops : List Op) :
    ∀ s : BumpAllocator, BumpAllocator.Inv base limit s →
      (∀ op ∈ ops, BumpAllocator.noWrap limit op) → BumpAllocator.noReset s ops →
      s.next ≤ (s.run ops).next := by
  induction ops with
  | nil => intro s _ _ _; exact Nat.le_refl _
  | cons op ops ih =>
    intro s hs hw hr
    have hw1 := hw op (List.mem_cons_self _ _)
    have hstep := BumpAllocator.step_Inv hs op hw1
    have hrec := ih (s.step op).2 hstep (fun o ho => hw o (List.mem_cons_of_mem _ ho)) hr.2
    have hone : s.next ≤ (s.step op).2.next := by
      cases op with
      | alloc sizeofT alignofT num_objects =>
        simp only [BumpAllocator.step]
        rcases BumpAllocator.alloc_noWrap hs sizeofT alignofT num_objects hw1 with
          ⟨_, _, hn⟩ | ⟨addr, _, _, hle, _, hn⟩ <;> omega
      | dealloc =>
        have hne := hr.1 rfl
        simp only [BumpAllocator.step] at hne ⊢
        rw [BumpAllocator.dealloc_next_of_count_ne_zero s hne]
    simp only [BumpAllocator.run]
    omega

/-- Between resets the backward cursor never moves up, on calls that do not wrap. -/
theorem BumpAllocatorDownwards.down_run_next_mono {base limit : Nat} (ops : List Op) :
    ∀ s : BumpAllocatorDownwards, BumpAllocatorDownwards.Inv base limit s →
      (∀ op ∈ ops, BumpAllocatorDownwards.noWrap base op) →
      BumpAllocatorDownwards.noReset s ops → (s.run ops).next ≤ s.next := by
  induction ops with
  | nil => intro s _ _ _; exact Nat.le_refl _
  | cons op ops ih =>
    intro s hs hw hr
    have hw1 := hw op (List.mem_cons_self _ _)
    have hstep := BumpAllocatorDownwards.down_step_Inv hs op hw1
    have hrec := ih (s.step op).2 hstep (fun o ho => hw o (List.mem_cons_of_mem _ ho)) hr.2
    have hone : (s.step op).2.next ≤ s.next := by
      cases op with
      | alloc sizeofT alignofT num_objects =>
        simp only [BumpAllocatorDownwards.step]
        rcases BumpAllocatorDownwards.down_alloc_noWrap hs sizeofT alignofT num_objects hw1
          with ⟨_, _, hn⟩ | ⟨addr, _, _, _, hle, hn⟩ <;> omega
      | dealloc =>
        have hne := hr.1 rfl
        simp only [BumpAllocatorDownwards.step] at hne ⊢
        rw [BumpAllocatorDownwards.down_dealloc_next_of_count_ne_zero s hne]
    simp only [BumpAllocatorDownwards.run]
    omega

/-- Both arenas, calls that do not wrap: a successful `alloc` after the calls `pre`, then the
calls `mid` with no reset among them, then a second successful `alloc`. The two blocks are
disjoint: the second lies wholly above the first (forward) or wholly below it (backward). -/
theorem alloc_regions_disjoint_of_noWrap (heap heap_size : Nat) (h : heap + heap_size < WORD)
    (sizeof1 alignof1 num1 sizeof2 alignof2 num2 addr1 addr2 : Nat) (pre mid : List Op) :
    (∀ debug : Bool,
      (∀ op ∈ pre, BumpAllocator.noWrap (heap + heap_size) op) →
      BumpAllocator.noWrap (heap + heap_size) (Op.alloc sizeof1 alignof1 num1) →
      (∀ op ∈ mid, BumpAllocator.noWrap (heap + heap_size) op) →
      BumpAllocator.noWrap (heap + heap_size) (Op.alloc sizeof2 alignof2 num2) →
      (((BumpAllocator.create heap heap_size debug).run pre).alloc
        sizeof1 alignof1 num1).1 = some addr1 →
      BumpAllocator.noReset
        (((BumpAllocator.create heap heap_size debug).run pre).alloc
          sizeof1 alignof1 num1).2 mid →
      (((((BumpAllocator.create heap heap_size debug).run pre).alloc
        sizeof1 alignof1 num1).2.run mid).alloc sizeof2 alignof2 num2).1 = some addr2 →
      addr1 + sizeof1 * num1 ≤ addr2)
    ∧ ((∀ op ∈ pre, BumpAllocatorDownwards.noWrap heap op) →
      BumpAllocatorDownwards.noWrap heap (Op.alloc sizeof1 alignof1 num1) →
      (∀ op ∈ mid, BumpAllocatorDownwards.noWrap heap op) →
      BumpAllocatorDownwards.noWrap heap (Op.alloc sizeof2 alignof2 num2) →
      (((BumpAllocatorDownwards.create heap heap_size).run pre).alloc
        sizeof1 alignof1 num1).1 = some addr1 →
      BumpAllocatorDownwards.noReset
        (((BumpAllocatorDownwards.create heap heap_size).run pre).alloc
          sizeof1 alignof1 num1).2 mid →
      (((((BumpAllocatorDownwards.create heap heap_size).run pre).alloc
        sizeof1 alignof1 num1).2.run mid).alloc sizeof2 alignof2 num2).1 = some addr2 →
      addr2 + sizeof2 * num2 ≤ addr1) := by
  constructor
  · intro debug hpre hw1 hmid hw2 hres1 hnr hres2
    have hinv1 := BumpAllocator.run_Inv pre _
      (BumpAllocator.create_Inv heap heap_size debug h) hpre
    have hinv2 := BumpAllocator.step_Inv hinv1 (Op.alloc sizeof1 alignof1 num1) hw1
    simp only [BumpAllocator.step] at hinv2
    have hmono := BumpAllocator.run_next_mono mid _ hinv2 hmid hnr
    have hinv3 := BumpAllocator.run_Inv mid _ hinv2 hmid
    rcases BumpAllocator.alloc_noWrap hinv1 sizeof1 alignof1 num1 hw1 with
      ⟨hn, _, _⟩ | ⟨a, hsome, _, _, _, hnext1⟩
    · rw [hn] at hres1
      simp at hres1
    · rw [hsome] at hres1
      simp only [Option.some.injEq] at hres1
      rcases BumpAllocator.alloc_noWrap hinv3 sizeof2 alignof2 num2 hw2 with
        ⟨hn, _, _⟩ | ⟨b, hsome2, _, hle2, _, _⟩
      · rw [hn] at hres2
        simp at hres2
      · rw [hsome2] at hres2
        simp only [Option.some.injEq] at hres2
        omega
  · intro hpre hw1 hmid hw2 hres1 hnr hres2
    have hinv1 := BumpAllocatorDownwards.down_run_Inv pre _
      (BumpAllocatorDownwards.down_create_Inv heap heap_size h) hpre
    have hinv2 := BumpAllocatorDownwards.down_step_Inv hinv1
      (Op.alloc sizeof1 alignof1 num1) hw1
    simp only [BumpAllocatorDownwards.step] at hinv2
    have hmono := BumpAllocatorDownwards.down_run_next_mono mid _ hinv2 hmid hnr
    have hinv3 := BumpAllocatorDownwards.down_run_Inv mid _ hinv2 hmid
    rcases BumpAllocatorDownwards.down_alloc_noWrap hinv1 sizeof1 alignof1 num1 hw1 with
      ⟨hn, _, _⟩ | ⟨a, hsome, _, _, _, hnext1⟩
    · rw [hn] at hres1
      simp at hres1
    · rw [hsome] at hres1
      simp only [Option.some.injEq] at hres1
      rcases BumpAllocatorDownwards.down_alloc_noWrap hinv3 sizeof2 alignof2 num2 hw2 with
        ⟨hn, _, _⟩ | ⟨b, hsome2, _, _, hle2, _⟩
      · rw [hn] at hres2
        simp at hres2
      · rw [hsome2] at hres2
        simp only [Option.some.injEq] at hres2
        omega

/-! ## The wrap on every fresh arena -/

/-- On every fresh arena, whatever its address and capacity, `alloc<char>(2^64 - 1)` takes the
successful branch: the forward arena returns the base and moves the cursor one byte below it,
the backward arena returns the address one byte above the limit and moves the cursor there. -/
theorem alloc_size_max_succeeds (heap heap_size : Nat) (h1 : 1 ≤ heap)
    (h : heap + heap_size + 1 < WORD) :
    (∀ debug : Bool,
      ((BumpAllocator.create heap heap_size debug).alloc 1 1 (WORD - 1)).1 = some heap
        ∧ ((BumpAllocator.create heap heap_size debug).alloc 1 1 (WORD - 1)).2.next
            = heap - 1)
    ∧ (((BumpAllocatorDownwards.create heap heap_size).alloc 1 1 (WORD - 1)).1
          = some (heap + heap_size + 1)
      ∧ ((BumpAllocatorDownwards.create heap heap_size).alloc 1 1 (WORD - 1)).2.next
          = heap + heap_size + 1) := by
  have hmul : wmul 1 (WORD - 1) = WORD - 1 := by decide
  have hadd : wadd heap heap_size = heap + heap_size := wadd_eq_add (by omega)
  constructor
  · intro debug
    have hw : wadd heap (WORD - 1) = heap - 1 := by
      unfold wadd WORD at *
      omega
    have hle : heap - 1 ≤ heap + heap_size := by omega
    simp only [BumpAllocator.alloc, BumpAllocator.create, hmul,
      BumpAllocator.align_pointer_one, hadd, hw, hle, if_true, and_self]
  · have hw : wsub (heap + heap_size) (WORD - 1) = heap + heap_size + 1 := by
      unfold wsub WORD at *
      omega
    have hle : heap ≤ heap + heap_size + 1 := by omega
    simp only [BumpAllocatorDownwards.alloc, BumpAllocatorDownwards.create, hmul, hadd, hw,
      BumpAllocatorDownwards.down_align_pointer_one, ge_iff_le, hle, if_true, and_self]

/-! ## C11: exact accounting without padding (forward arena) -/

theorem BumpAllocator.align_pointer_of_aligned (p : Nat) {k : Nat} (hk : k < 64)
    (hp : 2 ^ k ∣ p) : BumpAllocator.align_pointer p (2 ^ k) = p := by
  have hmod : p % 2 ^ k = 0 := Nat.mod_eq_zero_of_dvd hp
  simp [BumpAllocator.align_pointer, land_mask_pow p hk, hmod]

/-- Calls `alloc<T>(n)` for the counts `n` of a list, one type `T` whose size is a multiple of
its power-of-two alignment, from a state with an aligned cursor and room for all of them: every
call succeeds and the cursor advances by exactly the bytes asked for. -/
theorem BumpAllocator.run_allocs_exact (sizeofT k : Nat) (hk : k < 64)
    (hsz : 2 ^ k ∣ sizeofT) (counts : List Nat) :
    ∀ s : BumpAllocator, 2 ^ k ∣ s.next → s.next + sizeofT * counts.sum ≤ s.heap_end →
      s.heap_end < WORD →
      (∀ r ∈ s.results (counts.map (Op.alloc sizeofT (2 ^ k))), ∃ addr, r = some addr)
        ∧ (s.run (counts.map (Op.alloc sizeofT (2 ^ k)))).next
            = s.next + sizeofT * counts.sum
        ∧ (s.run (counts.map (Op.alloc sizeofT (2 ^ k)))).heap_end = s.heap_end := by
  induction counts with
  | nil =>
    intro s _ _ _
    refine ⟨?_, ?_, rfl⟩
    · intro r hr
      simp [BumpAllocator.results] at hr
    · simp [BumpAllocator.run]
  | cons n counts ih =>
    intro s hal hfit hend
    rw [List.sum_cons, Nat.mul_add] at hfit
    have hmul : wmul sizeofT n = sizeofT * n := wmul_eq_mul (by omega)
    have hadd : wadd s.next (sizeofT * n) = s.next + sizeofT * n := wadd_eq_add (by omega)
    have hle : s.next + sizeofT * n ≤ s.heap_end := by omega
    have hres : (s.alloc sizeofT (2 ^ k) n).1 = some s.next := by
      simp only [BumpAllocator.alloc, BumpAllocator.align_pointer_of_aligned s.next hk hal,
        hmul, hadd, hle, if_true]
    have hnext : (s.alloc sizeofT (2 ^ k) n).2.next = s.next + sizeofT * n := by
      simp only [BumpAllocator.alloc, BumpAllocator.align_pointer_of_aligned s.next hk hal,
        hmul, hadd, hle, if_true]
    have hheap := (BumpAllocator.alloc_heap s sizeofT (2 ^ k) n).2
    have hal2 : 2 ^ k ∣ (s.alloc sizeofT (2 ^ k) n).2.next := by
      rw [hnext]
      exact Nat.dvd_add hal (Dvd.dvd.mul_right hsz n)
    have h2 := ih (s.alloc sizeofT (2 ^ k) n).2 hal2 (by rw [hnext, hheap]; omega)
      (by rw [hheap]; exact hend)
    simp only [List.map_cons, BumpAllocator.results, BumpAllocator.run, BumpAllocator.step,
      List.sum_cons, Nat.mul_add]
    refine ⟨?_, ?_, ?_⟩
    · intro r hr
      rcases List.mem_cons.mp hr with hr | hr
      · exact ⟨s.next, by rw [hr, hres]⟩
      · exact h2.1 r hr
    · rw [h2.2.1, hnext]
      omega
    · rw [h2.2.2, hheap]

/-- C11: forward arena. For every capacity `heap_size`, every element type whose size is a
multiple of its power-of-two alignment `2 ^ k`, every buffer address that is a multiple of the
alignment, and every list of counts with `sizeofT * (n_1 + ... + n_k) <= heap_size`, the calls
`alloc<T>(n_i)` on a fresh arena all succeed and afterwards
`remaining_memory() == heap_size - sizeofT * (n_1 + ... + n_k)`. -/
theorem alloc_exact_accounting (heap heap_size sizeofT k : Nat) (debug : Bool)
    (counts : List Nat) (hk : k < 64) (hheap : 2 ^ k ∣ heap) (hsz : 2 ^ k ∣ sizeofT)
    (h : heap + heap_size < WORD) (hfit : sizeofT * counts.sum ≤ heap_size) :
    (∀ r ∈ (BumpAllocator.create heap heap_size debug).results
        (counts.map (Op.alloc sizeofT (2 ^ k))), ∃ addr, r = some addr)
      ∧ ((BumpAllocator.create heap heap_size debug).run
          (counts.map (Op.alloc sizeofT (2 ^ k)))).remaining_memory
        = heap_size - sizeofT * counts.sum := by
  have hadd : wadd heap heap_size = heap + heap_size := wadd_eq_add h
  have key := BumpAllocator.run_allocs_exact sizeofT k hk hsz counts
    (BumpAllocator.create heap heap_size debug) hheap
    (by show heap + sizeofT * counts.sum ≤ wadd heap heap_size; omega)
    (by show wadd heap heap_size < WORD; omega)
  refine ⟨key.1, ?_⟩
  have hnext : ((BumpAllocator.create heap heap_size debug).run
      (counts.map (Op.alloc sizeofT (2 ^ k)))).next = heap + sizeofT * counts.sum := key.2.1
  have hend : ((BumpAllocator.create heap heap_size debug).run
      (counts.map (Op.alloc sizeofT (2 ^ k)))).heap_end = heap + heap_size := by
    rw [key.2.2]
    exact hadd
  rw [BumpAllocator.remaining_memory, hnext, hend, wsub_eq_sub (by omega) h]
  omega

theorem alloc_exact_accounting_witness :
    (2 < 64 ∧ 2 ^ 2 ∣ 4096 ∧ 2 ^ 2 ∣ 4 ∧ 4096 + 50 < WORD ∧ 4 * [1, 1, 1].sum ≤ 50
      ∧ (BumpAllocator.create 4096 50 false).results
          [Op.alloc 4 4 1, Op.alloc 4 4 1, Op.alloc 4 4 1]
        = [some 4096, some 4100, some 4104]
      ∧ ((BumpAllocator.create 4096 50 false).run
          ([1, 1, 1].map (Op.alloc 4 (2 ^ 2)))).remaining_memory = 50 - 4 * [1, 1, 1].sum
      ∧ 50 - 4 * [1, 1, 1].sum = 38)
    ∧ (4096 + 40 < WORD ∧ 4 * [10].sum ≤ 40
      ∧ ((BumpAllocator.create 4096 40 false).run
          ([10].map (Op.alloc 4 (2 ^ 2)))).remaining_memory = 40 - 4 * [10].sum
      ∧ 40 - 4 * [10].sum = 0) :=
  ⟨⟨by decide, by decide, by decide, by decide, by decide, by decide,
      (alloc_exact_accounting 4096 50 4 2 false [1, 1, 1] (by decide) (by decide) (by decide)
        (by decide) (by decide)).2, by decide⟩,
    ⟨by decide, by decide,
      (alloc_exact_accounting 4096 40 4 2 false [10] (by decide) (by decide) (by decide)
        (by decide) (by decide)).2, by decide⟩⟩

/-! ## C12: `remaining_memory()` between resets -/

/-- In both arenas and in every state, a `dealloc()` that does not bring `allocation_count`
to zero leaves `remaining_memory()` unchanged. -/
theorem dealloc_without_reset_keeps_remaining :
    (∀ s : BumpAllocator, s.dealloc.allocation_count ≠ 0 →
      s.dealloc.remaining_memory = s.remaining_memory)
    ∧ (∀ s : BumpAllocatorDownwards, s.dealloc.allocation_count ≠ 0 →
      s.dealloc.remaining_memory = s.remaining_memory) := by
  constructor
  · intro s h
    rw [BumpAllocator.remaining_memory, BumpAllocator.remaining_memory,
      BumpAllocator.dealloc_next_of_count_ne_zero s h, (BumpAllocator.dealloc_heap s).2]
  · intro s h
    rw [BumpAllocatorDownwards.remaining_memory, BumpAllocatorDownwards.remaining_memory,
      BumpAllocatorDownwards.down_dealloc_next_of_count_ne_zero s h,
      (BumpAllocatorDownwards.down_dealloc_heap s).1]

/-- Both arenas, calls that do not wrap: from every state reached from construction by such
calls, a successful `alloc` leaves `remaining_memory()` at most what it was. -/
theorem remaining_nonincreasing_of_noWrap (heap heap_size : Nat)
    (h : heap + heap_size < WORD) (sizeofT alignofT num_objects addr : Nat) :
    (∀ (debug : Bool) (ops : List Op),
      (∀ op ∈ ops, BumpAllocator.noWrap (heap + heap_size) op) →
      BumpAllocator.noWrap (heap + heap_size) (Op.alloc sizeofT alignofT num_objects) →
      (((BumpAllocator.create heap heap_size debug).run ops).alloc
        sizeofT alignofT num_objects).1 = some addr →
      (((BumpAllocator.create heap heap_size debug).run ops).alloc
        sizeofT alignofT num_objects).2.remaining_memory
        ≤ ((BumpAllocator.create heap heap_size debug).run ops).remaining_memory)
    ∧ (∀ ops : List Op,
      (∀ op ∈ ops, BumpAllocatorDownwards.noWrap heap op) →
      BumpAllocatorDownwards.noWrap heap (Op.alloc sizeofT alignofT num_objects) →
      (((BumpAllocatorDownwards.create heap heap_size).run ops).alloc
        sizeofT alignofT num_objects).1 = some addr →
      (((BumpAllocatorDownwards.create heap heap_size).run ops).alloc
        sizeofT alignofT num_objects).2.remaining_memory
        ≤ ((BumpAllocatorDownwards.create heap heap_size).run ops).remaining_memory) := by
  constructor
  · intro debug ops hops hw hres
    have hinv := BumpAllocator.run_Inv ops _ (BumpAllocator.create_Inv heap heap_size debug h)
      hops
    have ha := BumpAllocator.alloc_noWrap hinv sizeofT alignofT num_objects hw
    have hh := BumpAllocator.alloc_heap ((BumpAllocator.create heap heap_size debug).run ops)
      sizeofT alignofT num_objects
    obtain ⟨_, h2, h3, h4, h5⟩ := hinv
    rcases ha with ⟨hn, _, _⟩ | ⟨a, _, _, h6, h7, h8⟩
    · rw [hn] at hres
      simp at hres
    · rw [BumpAllocator.remaining_memory, BumpAllocator.remaining_memory, hh.2, h8, h2,
        wsub_eq_sub (by omega) h5, wsub_eq_sub h4 h5]
      omega
  · intro ops hops hw hres
    have hinv := BumpAllocatorDownwards.down_run_Inv ops _
      (BumpAllocatorDownwards.down_create_Inv heap heap_size h) hops
    have ha := BumpAllocatorDownwards.down_alloc_noWrap hinv sizeofT alignofT num_objects hw
    have hh := BumpAllocatorDownwards.down_alloc_heap
      ((BumpAllocatorDownwards.create heap heap_size).run ops) sizeofT alignofT num_objects
    obtain ⟨h1, _, h3, h4, h5⟩ := hinv
    rcases ha with ⟨hn, _, _⟩ | ⟨a, _, _, h6, h7, h8⟩
    · rw [hn] at hres
      simp at hres
    · rw [BumpAllocatorDownwards.remaining_memory, BumpAllocatorDownwards.remaining_memory,
        hh.1, h8, h1, wsub_eq_sub h6 (by omega), wsub_eq_sub h3 (by omega)]
      omega

/-- Both arenas, calls that do not wrap: over any further calls with no reset among them,
made from a state reached from construction, `remaining_memory()` does not increase. -/
theorem remaining_nonincreasing_between_resets_of_noWrap (heap heap_size : Nat)
    (h : heap + heap_size < WORD) (pre mid : List Op) :
    (∀ debug : Bool,
      (∀ op ∈ pre, BumpAllocator.noWrap (heap + heap_size) op) →
      (∀ op ∈ mid, BumpAllocator.noWrap (heap + heap_size) op) →
      BumpAllocator.noReset ((BumpAllocator.create heap heap_size debug).run pre) mid →
      (((BumpAllocator.create heap heap_size debug).run pre).run mid).remaining_memory
        ≤ ((BumpAllocator.create heap heap_size debug).run pre).remaining_memory)
    ∧ ((∀ op ∈ pre, BumpAllocatorDownwards.noWrap heap op) →
      (∀ op ∈ mid, BumpAllocatorDownwards.noWrap heap op) →
      BumpAllocatorDownwards.noReset ((BumpAllocatorDownwards.create heap heap_size).run pre)
        mid →
      (((BumpAllocatorDownwards.create heap heap_size).run pre).run mid).remaining_memory
        ≤ ((BumpAllocatorDownwards.create heap heap_size).run pre).remaining_memory) := by
  constructor
  · intro debug hpre hmid hnr
    have hinv1 := BumpAllocator.run_Inv pre _
      (BumpAllocator.create_Inv heap heap_size debug h) hpre
    have hinv2 := BumpAllocator.run_Inv mid _ hinv1 hmid
    have hmono := BumpAllocator.run_next_mono mid _ hinv1 hmid hnr
    obtain ⟨_, a2, _, a4, a5⟩ := hinv1
    obtain ⟨_, b2, _, b4, _⟩ := hinv2
    rw [BumpAllocator.remaining_memory, BumpAllocator.remaining_memory, a2, b2,
      wsub_eq_sub b4 a5, wsub_eq_sub a4 a5]
    omega
  · intro hpre hmid hnr
    have hinv1 := BumpAllocatorDownwards.down_run_Inv pre _
      (BumpAllocatorDownwards.down_create_Inv heap heap_size h) hpre
    have hinv2 := BumpAllocatorDownwards.down_run_Inv mid _ hinv1 hmid
    have hmono := BumpAllocatorDownwards.down_run_next_mono mid _ hinv1 hmid hnr
    obtain ⟨a1, _, a3, a4, a5⟩ := hinv1
    obtain ⟨b1, _, b3, b4, _⟩ := hinv2
    rw [BumpAllocatorDownwards.remaining_memory, BumpAllocatorDownwards.remaining_memory,
      a1, b1, wsub_eq_sub b3 (by omega), wsub_eq_sub a3 (by omega)]
    omega

/-- C12: a successful `alloc` can leave more `remaining_memory()` than before. On a fresh
16-byte arena at address 4096, `remaining_memory()` is 16; `alloc<char>(2^64 - 1)` succeeds in
both arenas and `remaining_memory()` is then 17. -/
theorem remaining_grows_on_wrap :
    ((BumpAllocator.create 4096 16 false).remaining_memory = 16
      ∧ ((BumpAllocator.create 4096 16 false).alloc 1 1 18446744073709551615).1 = some 4096
      ∧ ((BumpAllocator.create 4096 16 false).alloc 1 1
          18446744073709551615).2.remaining_memory = 17)
    ∧ ((BumpAllocatorDownwards.create 4096 16).remaining_memory = 16
      ∧ ((BumpAllocatorDownwards.create 4096 16).alloc 1 1 18446744073709551615).1
          = some 4113
      ∧ ((BumpAllocatorDownwards.create 4096 16).alloc 1 1
          18446744073709551615).2.remaining_memory = 17) := by
  decide

/-! ## C13: postcondition of the forward `alloc` -/

theorem multiple_le_of_window (a p x m : Nat) (hx : x % a = 0) (hlt : x < p + a)
    (hm : m % a = 0) (hpm : p ≤ m) : x ≤ m := by
  by_contra hcon
  have hd : a ∣ x - m :=
    Nat.dvd_sub' (Nat.dvd_of_mod_eq_zero hx) (Nat.dvd_of_mod_eq_zero hm)
  have hle : a ≤ x - m := Nat.le_of_dvd (by omega) hd
  omega

/-- Forward `alloc` on a call that does not wrap (cursor, alignment and exact byte count end
inside the address space, counters below their maximum), for a power-of-two alignment: the
aligned address is the least multiple of the alignment at or above the cursor, the call
succeeds exactly when the aligned block ends at or below `heap_end`, and on success it returns
the aligned address, moves the cursor to the end of the block and adds one to each counter. -/
theorem forward_alloc_postcondition_of_noWrap (s : BumpAllocator)
    (sizeofT k num_objects : Nat) (hk : k < 64)
    (hw : s.next + 2 ^ k + sizeofT * num_objects ≤ WORD)
    (hc : s.allocation_count + 1 < WORD) (ht : s.total_allocations + 1 < WORD) :
    (BumpAllocator.align_pointer s.next (2 ^ k) % 2 ^ k = 0
      ∧ s.next ≤ BumpAllocator.align_pointer s.next (2 ^ k)
      ∧ ∀ m, s.next ≤ m → m % 2 ^ k = 0 → BumpAllocator.align_pointer s.next (2 ^ k) ≤ m)
    ∧ ((∃ addr, (s.alloc sizeofT (2 ^ k) num_objects).1 = some addr)
      ↔ BumpAllocator.align_pointer s.next (2 ^ k) + sizeofT * num_objects ≤ s.heap_end)
    ∧ (BumpAllocator.align_pointer s.next (2 ^ k) + sizeofT * num_objects ≤ s.heap_end →
      (s.alloc sizeofT (2 ^ k) num_objects).1
          = some (BumpAllocator.align_pointer s.next (2 ^ k))
        ∧ (s.alloc sizeofT (2 ^ k) num_objects).2.next
          = BumpAllocator.align_pointer s.next (2 ^ k) + sizeofT * num_objects
        ∧ (s.alloc sizeofT (2 ^ k) num_objects).2.allocation_count = s.allocation_count + 1
        ∧ (s.alloc sizeofT (2 ^ k) num_objects).2.total_allocations
          = s.total_allocations + 1) := by
  have hpos : 0 < 2 ^ k := Nat.pos_pow_of_pos k (by norm_num)
  have hb := BumpAllocator.align_pointer_bounds s.next (2 ^ k) hpos (by omega)
  have hmod := BumpAllocator.align_pointer_mod s.next hk
  have hmul : wmul sizeofT num_objects = sizeofT * num_objects := wmul_eq_mul (by omega)
  have hadd : wadd (BumpAllocator.align_pointer s.next (2 ^ k)) (sizeofT * num_objects)
      = BumpAllocator.align_pointer s.next (2 ^ k) + sizeofT * num_objects :=
    wadd_eq_add (by omega)
  have hc1 : wadd s.allocation_count 1 = s.allocation_count + 1 := wadd_eq_add hc
  have ht1 : wadd s.total_allocations 1 = s.total_allocations + 1 := wadd_eq_add ht
  refine ⟨⟨hmod, hb.1, fun m hm1 hm2 =>
    multiple_le_of_window (2 ^ k) s.next _ m hmod hb.2 hm2 hm1⟩, ?_, ?_⟩
  · unfold BumpAllocator.alloc
    simp only [hmul, hadd]
    split
    · rename_i hfit
      exact ⟨fun _ => hfit, fun _ => ⟨_, rfl⟩⟩
    · rename_i hfit
      constructor
      · rintro ⟨addr, hsome⟩
        simp at hsome
      · intro hle
        exact absurd hle hfit
  · intro hfit
    unfold BumpAllocator.alloc
    simp only [hmul, hadd, hfit, if_true, hc1, ht1, and_self]

/-- C13: on a fresh 16-byte forward arena at address 4096 (limit 4112) the aligned address for
`char` is 4096. `alloc<char>(2^64 - 1)` succeeds although `aligned + required > limit`, and
sets the cursor to 4095, not to `aligned + required`; `alloc<int>(2^62 + 1)` succeeds although
`aligned + required > limit`, and sets the cursor to 4100. -/
theorem forward_alloc_postcondition_fails_on_wrap :
    (BumpAllocator.align_pointer (BumpAllocator.create 4096 16 false).next 1 = 4096
      ∧ ¬ (4096 + 1 * 18446744073709551615 ≤ (BumpAllocator.create 4096 16 false).heap_end)
      ∧ ((BumpAllocator.create 4096 16 false).alloc 1 1 18446744073709551615).1 = some 4096
      ∧ ((BumpAllocator.create 4096 16 false).alloc 1 1 18446744073709551615).2.next = 4095
      ∧ 4095 ≠ 4096 + 1 * 18446744073709551615)
    ∧ (BumpAllocator.align_pointer (BumpAllocator.create 4096 16 false).next 4 = 4096
      ∧ ¬ (4096 + 4 * 4611686018427387905 ≤ (BumpAllocator.create 4096 16 false).heap_end)
      ∧ ((BumpAllocator.create 4096 16 false).alloc 4 4 4611686018427387905).1 = some 4096
      ∧ ((BumpAllocator.create 4096 16 false).alloc 4 4 4611686018427387905).2.next = 4100
      ∧ 4100 ≠ 4096 + 4 * 4611686018427387905) := by
  decide

/-! ## C14: postcondition of the backward `alloc` -/

theorem multiple_ge_of_window (a p x m : Nat) (hx : x % a = 0) (hlt : p < x + a)
    (hm : m % a = 0) (hmp : m ≤ p) : m ≤ x := by
  by_contra hcon
  have hd : a ∣ m - x :=
    Nat.dvd_sub' (Nat.dvd_of_mod_eq_zero hm) (Nat.dvd_of_mod_eq_zero hx)
  have hle : a ≤ m - x := Nat.le_of_dvd (by omega) hd
  omega

theorem BumpAllocatorDownwards.down_align_pointer_eq (p : Nat) (hp : p < WORD) {k : Nat}
    (hk : k < 64) : BumpAllocatorDownwards.align_pointer p (2 ^ k) = p - p % 2 ^ k := by
  have hm : p % 2 ^ k ≤ p := Nat.mod_le p _
  simp only [BumpAllocatorDownwards.align_pointer, land_mask_pow p hk]
  split
  · exact wsub_eq_sub hm hp
  · omega

/-- Backward `alloc` on a call that does not wrap (the exact byte count is at most the cursor,
counters below their maximum), for a power-of-two alignment: the aligned address is the
greatest multiple of the alignment at or below `next - required`, the call succeeds exactly
when the aligned address is at or above `heap_start`, and on success it returns the aligned
address, moves the cursor there and adds one to each counter. -/
theorem backward_alloc_postcondition_of_noWrap (s : BumpAllocatorDownwards)
    (sizeofT k num_objects : Nat) (hk : k < 64) (hn : s.next < WORD)
    (hw : sizeofT * num_objects ≤ s.next)
    (hc : s.allocation_count + 1 < WORD) (ht : s.total_allocations + 1 < WORD) :
    (BumpAllocatorDownwards.align_pointer (s.next - sizeofT * num_objects) (2 ^ k) % 2 ^ k = 0
      ∧ BumpAllocatorDownwards.align_pointer (s.next - sizeofT * num_objects) (2 ^ k)
          ≤ s.next - sizeofT * num_objects
      ∧ ∀ m, m ≤ s.next - sizeofT * num_objects → m % 2 ^ k = 0 →
          m ≤ BumpAllocatorDownwards.align_pointer (s.next - sizeofT * num_objects) (2 ^ k))
    ∧ ((∃ addr, (s.alloc sizeofT (2 ^ k) num_objects).1 = some addr)
      ↔ s.heap_start
          ≤ BumpAllocatorDownwards.align_pointer (s.next - sizeofT * num_objects) (2 ^ k))
    ∧ (s.heap_start
          ≤ BumpAllocatorDownwards.align_pointer (s.next - sizeofT * num_objects) (2 ^ k) →
      (s.alloc sizeofT (2 ^ k) num_objects).1
          = some (BumpAllocatorDownwards.align_pointer
              (s.next - sizeofT * num_objects) (2 ^ k))
        ∧ (s.alloc sizeofT (2 ^ k) num_objects).2.next
          = BumpAllocatorDownwards.align_pointer (s.next - sizeofT * num_objects) (2 ^ k)
        ∧ (s.alloc sizeofT (2 ^ k) num_objects).2.allocation_count = s.allocation_count + 1
        ∧ (s.alloc sizeofT (2 ^ k) num_objects).2.total_allocations
          = s.total_allocations + 1) := by
  have hpos : 0 < 2 ^ k := Nat.pos_pow_of_pos k (by norm_num)
  have hp : s.next - sizeofT * num_objects < WORD := by omega
  have heq := BumpAllocatorDownwards.down_align_pointer_eq _ hp hk
  have hmod := BumpAllocatorDownwards.down_align_pointer_mod _ hp hk
  have hle := BumpAllocatorDownwards.down_align_pointer_le (s.next - sizeofT * num_objects)
    (2 ^ k) hp
  have hrem : (s.next - sizeofT * num_objects) % 2 ^ k < 2 ^ k := Nat.mod_lt _ hpos
  have hmul : wmul sizeofT num_objects = sizeofT * num_objects := wmul_eq_mul (by omega)
  have hsub : wsub s.next (sizeofT * num_objects) = s.next - sizeofT * num_objects :=
    wsub_eq_sub hw hn
  have hc1 : wadd s.allocation_count 1 = s.allocation_count + 1 := wadd_eq_add hc
  have ht1 : wadd s.total_allocations 1 = s.total_allocations + 1 := wadd_eq_add ht
  refine ⟨⟨hmod, hle, fun m hm1 hm2 =>
    multiple_ge_of_window (2 ^ k) (s.next - sizeofT * num_objects) _ m hmod
      (by rw [heq]; omega) hm2 hm1⟩, ?_, ?_⟩
  · unfold BumpAllocatorDownwards.alloc
    simp only [hmul, hsub]
    split
    · rename_i hfit
      exact ⟨fun _ => hfit, fun _ => ⟨_, rfl⟩⟩
    · rename_i hfit
      constructor
      · rintro ⟨addr, hsome⟩
        simp at hsome
      · intro hle2
        exact absurd hle2 hfit
  · intro hfit
    have hfit2 : BumpAllocatorDownwards.align_pointer (s.next - sizeofT * num_objects) (2 ^ k)
        ≥ s.heap_start := hfit
    unfold BumpAllocatorDownwards.alloc
    simp only [hmul, hsub, hfit2, if_true, hc1, ht1, and_self]

/-- C14: on a fresh 16-byte backward arena at address 4096 (cursor 4112) no multiple of the
alignment lies at or below `cursor - required` when `required` exceeds the cursor, so the call
must fail; yet `alloc<char>(2^64 - 1)` succeeds, returns 4113 and sets the cursor to 4113, and
`alloc<int>(2^62 + 1)` succeeds, returns 4108 and sets the cursor to 4108. -/
theorem backward_alloc_postcondition_fails_on_wrap :
    ((BumpAllocatorDownwards.create 4096 16).next = 4112
      ∧ (BumpAllocatorDownwards.create 4096 16).next < 1 * 18446744073709551615
      ∧ ((BumpAllocatorDownwards.create 4096 16).alloc 1 1 18446744073709551615).1
          = some 4113
      ∧ ((BumpAllocatorDownwards.create 4096 16).alloc 1 1 18446744073709551615).2.next
          = 4113)
    ∧ ((BumpAllocatorDownwards.create 4096 16).next < 4 * 4611686018427387905
      ∧ ((BumpAllocatorDownwards.create 4096 16).alloc 4 4 4611686018427387905).1
          = some 4108
      ∧ ((BumpAllocatorDownwards.create 4096 16).alloc 4 4 4611686018427387905).2.next
          = 4108) := by
  decide

/-! ## C15: postcondition of `dealloc` -/

theorem BumpAllocator.dealloc_total (s : BumpAllocator) :
    s.dealloc.total_allocations = s.total_allocations
      ∧ s.dealloc.total_size = s.total_size := by
  unfold BumpAllocator.dealloc
  simp only []
  split <;> split <;> exact ⟨rfl, rfl⟩

theorem BumpAllocatorDownwards.down_dealloc_total (s : BumpAllocatorDownwards) :
    s.dealloc.total_allocations = s.total_allocations ∧ s.dealloc.heap = s.heap := by
  unfold BumpAllocatorDownwards.dealloc
  simp only []
  split <;> split <;> exact ⟨rfl, rfl⟩

/-- C15: in both arenas and in every state (the counter being a 64-bit word), `dealloc()` sets
`allocation_count` to `allocation_count - 1` floored at zero; when the new count is zero the
cursor is set to the growth-start edge (`heap` forward, `heap_end` backward), otherwise the
cursor is unchanged; `total_allocations`, the base and the limit are unchanged. -/
theorem dealloc_postcondition :
    (∀ s : BumpAllocator, s.allocation_count < WORD →
      s.dealloc.allocation_count = max (s.allocation_count - 1) 0
        ∧ (s.dealloc.allocation_count = 0 → s.dealloc.next = s.heap)
        ∧ (s.dealloc.allocation_count ≠ 0 → s.dealloc.next = s.next)
        ∧ s.dealloc.total_allocations = s.total_allocations
        ∧ s.dealloc.heap = s.heap ∧ s.dealloc.heap_end = s.heap_end)
    ∧ (∀ s : BumpAllocatorDownwards, s.allocation_count < WORD →
      s.dealloc.allocation_count = max (s.allocation_count - 1) 0
        ∧ (s.dealloc.allocation_count = 0 → s.dealloc.next = s.heap_end)
        ∧ (s.dealloc.allocation_count ≠ 0 → s.dealloc.next = s.next)
        ∧ s.dealloc.total_allocations = s.total_allocations
        ∧ s.dealloc.heap_start = s.heap_start ∧ s.dealloc.heap_end = s.heap_end) := by
  constructor
  · intro s hc
    have hd := BumpAllocator.dealloc_cases s hc
    have hh := BumpAllocator.dealloc_heap s
    exact ⟨by rw [hd.1]; simp, hd.2.1, hd.2.2, (BumpAllocator.dealloc_total s).1, hh.1, hh.2⟩
  · intro s hc
    have hd := BumpAllocatorDownwards.down_dealloc_cases s hc
    have hh := BumpAllocatorDownwards.down_dealloc_heap s
    exact ⟨by rw [hd.1]; simp, hd.2.1, hd.2.2,
      (BumpAllocatorDownwards.down_dealloc_total s).1, hh.1, hh.2⟩

theorem dealloc_postcondition_witness :
    (((BumpAllocator.create 4096 40 false).run
        [Op.alloc 4 4 1, Op.alloc 4 4 1]).allocation_count < WORD
      ∧ ((BumpAllocator.create 4096 40 false).run
          [Op.alloc 4 4 1, Op.alloc 4 4 1]).dealloc.allocation_count = max (2 - 1) 0
      ∧ ((BumpAllocator.create 4096 40 false).run
          [Op.alloc 4 4 1, Op.alloc 4 4 1]).dealloc.total_allocations = 2)
    ∧ (((BumpAllocatorDownwards.create 4096 40).run
        [Op.alloc 4 4 1]).allocation_count < WORD
      ∧ ((BumpAllocatorDownwards.create 4096 40).run
          [Op.alloc 4 4 1]).dealloc.allocation_count = max (1 - 1) 0
      ∧ ((BumpAllocatorDownwards.create 4096 40).run
          [Op.alloc 4 4 1]).dealloc.next = 4136) :=
  ⟨⟨by decide,
      (dealloc_postcondition.1 ((BumpAllocator.create 4096 40 false).run
        [Op.alloc 4 4 1, Op.alloc 4 4 1]) (by decide)).1,
      (dealloc_postcondition.1 ((BumpAllocator.create 4096 40 false).run
        [Op.alloc 4 4 1, Op.alloc 4 4 1]) (by decide)).2.2.2.1⟩,
    ⟨by decide,
      (dealloc_postcondition.2 ((BumpAllocatorDownwards.create 4096 40).run
        [Op.alloc 4 4 1]) (by decide)).1,
      (dealloc_postcondition.2 ((BumpAllocatorDownwards.create 4096 40).run
        [Op.alloc 4 4 1]) (by decide)).2.1 (by decide)⟩⟩

/-! ## C18: nothing outstanding means at rest -/

/-- C18: in both arenas, in every state reached from construction by fewer than `2^64` calls
of `alloc` and `dealloc` (any sizes, alignments and counts), `allocation_count == 0` implies
that the cursor is at the growth-start edge (`next == heap` forward, `next == heap_end`
backward) and `remaining_memory()` is the capacity. -/
theorem count_zero_implies_at_rest (heap heap_size : Nat) (h : heap + heap_size < WORD)
    (ops : List Op) (hlen : ops.length < WORD) :
    (∀ debug : Bool,
      ((BumpAllocator.create heap heap_size debug).run ops).allocation_count = 0 →
      ((BumpAllocator.create heap heap_size debug).run ops).next
          = ((BumpAllocator.create heap heap_size debug).run ops).heap
        ∧ ((BumpAllocator.create heap heap_size debug).run ops).next = heap
        ∧ ((BumpAllocator.create heap heap_size debug).run ops).remaining_memory = heap_size)
    ∧ (((BumpAllocatorDownwards.create heap heap_size).run ops).allocation_count = 0 →
      ((BumpAllocatorDownwards.create heap heap_size).run ops).next
          = ((BumpAllocatorDownwards.create heap heap_size).run ops).heap_end
        ∧ ((BumpAllocatorDownwards.create heap heap_size).run ops).next = heap + heap_size
        ∧ ((BumpAllocatorDownwards.create heap heap_size).run ops).remaining_memory
            = heap_size) := by
  have hadd : wadd heap heap_size = heap + heap_size := wadd_eq_add h
  have hrem : wsub (heap + heap_size) heap = heap_size := by
    rw [wsub_eq_sub (by omega) h]
    omega
  constructor
  · intro debug h0
    have hr := BumpAllocator.run_rest ops (BumpAllocator.create heap heap_size debug) 0
      (Nat.le_refl 0) (by omega) (fun _ => rfl)
    have hnext := hr.2.1 h0
    have hheap : ((BumpAllocator.create heap heap_size debug).run ops).heap = heap := hr.2.2.1
    have hend : ((BumpAllocator.create heap heap_size debug).run ops).heap_end
        = heap + heap_size := by
      rw [hr.2.2.2]
      exact hadd
    refine ⟨hnext, by rw [hnext, hheap], ?_⟩
    rw [BumpAllocator.remaining_memory, hnext, hheap, hend, hrem]
  · intro h0
    have hr := BumpAllocatorDownwards.down_run_rest ops
      (BumpAllocatorDownwards.create heap heap_size) 0 (Nat.le_refl 0) (by omega)
      (fun _ => rfl)
    have hnext := hr.2.1 h0
    have hstart : ((BumpAllocatorDownwards.create heap heap_size).run ops).heap_start
        = heap := hr.2.2.1
    have hend : ((BumpAllocatorDownwards.create heap heap_size).run ops).heap_end
        = heap + heap_size := by
      rw [hr.2.2.2]
      exact hadd
    refine ⟨hnext, by rw [hnext, hend], ?_⟩
    rw [BumpAllocatorDownwards.remaining_memory, hnext, hstart, hend, hrem]

theorem count_zero_implies_at_rest_witness :
    4096 + 40 < WORD
    ∧ [Op.alloc 4 4 1, Op.alloc 8 8 1, Op.dealloc, Op.dealloc].length < WORD
    ∧ (((BumpAllocator.create 4096 40 true).run
          [Op.alloc 4 4 1, Op.alloc 8 8 1, Op.dealloc, Op.dealloc]).allocation_count = 0
      ∧ ((BumpAllocator.create 4096 40 true).run
          [Op.alloc 4 4 1, Op.alloc 8 8 1, Op.dealloc, Op.dealloc]).next = 4096)
    ∧ (((BumpAllocatorDownwards.create 4096 40).run
          [Op.alloc 4 4 1, Op.alloc 8 8 1, Op.dealloc, Op.dealloc]).allocation_count = 0
      ∧ ((BumpAllocatorDownwards.create 4096 40).run
          [Op.alloc 4 4 1, Op.alloc 8 8 1, Op.dealloc, Op.dealloc]).next = 4096 + 40) :=
  ⟨by decide, by decide,
    ⟨by decide,
      ((count_zero_implies_at_rest 4096 40 (by decide)
        [Op.alloc 4 4 1, Op.alloc 8 8 1, Op.dealloc, Op.dealloc] (by decide)).1 true
        (by decide)).2.1⟩,
    ⟨by decide,
      ((count_zero_implies_at_rest 4096 40 (by decide)
        [Op.alloc 4 4 1, Op.alloc 8 8 1, Op.dealloc, Op.dealloc] (by decide)).2
        (by decide)).2.1⟩⟩

/-! ## C16: `dealloc()` with nothing outstanding -/

theorem BumpAllocator.dealloc_of_count_zero (s : BumpAllocator)
    (h0 : s.allocation_count = 0) :
    s.dealloc.allocation_count = 0 ∧ s.dealloc.next = s.heap
      ∧ s.dealloc.cout
        = if s.debug_mode then s.cout ++ ["Allocator reset."] else s.cout := by
  simp [BumpAllocator.dealloc, h0]

theorem BumpAllocatorDownwards.down_dealloc_of_count_zero (s : BumpAllocatorDownwards)
    (h0 : s.allocation_count = 0) :
    s.dealloc.allocation_count = 0 ∧ s.dealloc.next = s.heap_end
      ∧ s.dealloc.cout = s.cout ++ ["Allocator reset."] := by
  simp [BumpAllocatorDownwards.dealloc, h0]

/-- C16: in both arenas, in every state reached from construction by fewer than `2^64` calls
in which `allocation_count == 0`, `dealloc()` leaves the cursor, `allocation_count` and
`total_allocations` unchanged, and `remaining_memory()` is the capacity before and after. -/
theorem dealloc_at_rest_changes_nothing (heap heap_size : Nat) (h : heap + heap_size < WORD)
    (ops : List Op) (hlen : ops.length < WORD) :
    (∀ debug : Bool,
      ((BumpAllocator.create heap heap_size debug).run ops).allocation_count = 0 →
      ((BumpAllocator.create heap heap_size debug).run ops).dealloc.next
          = ((BumpAllocator.create heap heap_size debug).run ops).next
        ∧ ((BumpAllocator.create heap heap_size debug).run ops).dealloc.allocation_count
          = ((BumpAllocator.create heap heap_size debug).run ops).allocation_count
        ∧ ((BumpAllocator.create heap heap_size debug).run ops).dealloc.total_allocations
          = ((BumpAllocator.create heap heap_size debug).run ops).total_allocations
        ∧ ((BumpAllocator.create heap heap_size debug).run ops).remaining_memory = heap_size
        ∧ ((BumpAllocator.create heap heap_size debug).run ops).dealloc.remaining_memory
          = heap_size)
    ∧ (((BumpAllocatorDownwards.create heap heap_size).run ops).allocation_count = 0 →
      ((BumpAllocatorDownwards.create heap heap_size).run ops).dealloc.next
          = ((BumpAllocatorDownwards.create heap heap_size).run ops).next
        ∧ ((BumpAllocatorDownwards.create heap heap_size).run ops).dealloc.allocation_count
          = ((BumpAllocatorDownwards.create heap heap_size).run ops).allocation_count
        ∧ ((BumpAllocatorDownwards.create heap heap_size).run ops).dealloc.total_allocations
          = ((BumpAllocatorDownwards.create heap heap_size).run ops).total_allocations
        ∧ ((BumpAllocatorDownwards.create heap heap_size).run ops).remaining_memory
          = heap_size
        ∧ ((BumpAllocatorDownwards.create heap heap_size).run ops).dealloc.remaining_memory
          = heap_size) := by
  have hadd : wadd heap heap_size = heap + heap_size := wadd_eq_add h
  have hrem : wsub (heap + heap_size) heap = heap_size := by
    rw [wsub_eq_sub (by omega) h]
    omega
  constructor
  · intro debug h0
    have hr := BumpAllocator.run_rest ops (BumpAllocator.create heap heap_size debug) 0
      (Nat.le_refl 0) (by omega) (fun _ => rfl)
    have hnext := hr.2.1 h0
    have hheap : ((BumpAllocator.create heap heap_size debug).run ops).heap = heap := hr.2.2.1
    have hend : ((BumpAllocator.create heap heap_size debug).run ops).heap_end
        = heap + heap_size := by
      rw [hr.2.2.2]
      exact hadd
    have hd := BumpAllocator.dealloc_of_count_zero _ h0
    have hh := BumpAllocator.dealloc_heap
      ((BumpAllocator.create heap heap_size debug).run ops)
    refine ⟨by rw [hd.2.1, hnext], by rw [hd.1, h0], (BumpAllocator.dealloc_total _).1, ?_, ?_⟩
    · rw [BumpAllocator.remaining_memory, hnext, hheap, hend, hrem]
    · rw [BumpAllocator.remaining_memory, hd.2.1, hh.2, hheap, hend, hrem]
  · intro h0
    have hr := BumpAllocatorDownwards.down_run_rest ops
      (BumpAllocatorDownwards.create heap heap_size) 0 (Nat.le_refl 0) (by omega)
      (fun _ => rfl)
    have hnext := hr.2.1 h0
    have hstart : ((BumpAllocatorDownwards.create heap heap_size).run ops).heap_start
        = heap := hr.2.2.1
    have hend : ((BumpAllocatorDownwards.create heap heap_size).run ops).heap_end
        = heap + heap_size := by
      rw [hr.2.2.2]
      exact hadd
    have hd := BumpAllocatorDownwards.down_dealloc_of_count_zero _ h0
    have hh := BumpAllocatorDownwards.down_dealloc_heap
      ((BumpAllocatorDownwards.create heap heap_size).run ops)
    refine ⟨by rw [hd.2.1, hnext], by rw [hd.1, h0],
      (BumpAllocatorDownwards.down_dealloc_total _).1, ?_, ?_⟩
    · rw [BumpAllocatorDownwards.remaining_memory, hnext, hstart, hend, hrem]
    · rw [BumpAllocatorDownwards.remaining_memory, hd.2.1, hh.1, hstart, hend, hrem]

theorem dealloc_at_rest_changes_nothing_witness :
    4096 + 40 < WORD ∧ [Op.alloc 4 4 1, Op.dealloc].length < WORD
    ∧ (((BumpAllocator.create 4096 40 true).run
          [Op.alloc 4 4 1, Op.dealloc]).allocation_count = 0
      ∧ ((BumpAllocator.create 4096 40 true).run
          [Op.alloc 4 4 1, Op.dealloc]).dealloc.remaining_memory = 40)
    ∧ (((BumpAllocatorDownwards.create 4096 40).run
          [Op.alloc 4 4 1, Op.dealloc]).allocation_count = 0
      ∧ ((BumpAllocatorDownwards.create 4096 40).run
          [Op.alloc 4 4 1, Op.dealloc]).dealloc.remaining_memory = 40) :=
  ⟨by decide, by decide,
    ⟨by decide,
      ((dealloc_at_rest_changes_nothing 4096 40 (by decide) [Op.alloc 4 4 1, Op.dealloc]
        (by decide)).1 true (by decide)).2.2.2.2⟩,
    ⟨by decide,
      ((dealloc_at_rest_changes_nothing 4096 40 (by decide) [Op.alloc 4 4 1, Op.dealloc]
        (by decide)).2 (by decide)).2.2.2.2⟩⟩

/-! ## C17: the reset branch with nothing outstanding -/

/-- C17, as stated, fails: `dealloc()` on an arena whose `allocation_count` is already zero
takes the reset branch and writes "Allocator reset." again. Forward with debug enabled: a
fresh arena has written one line, and after `dealloc()` the line "Allocator reset." follows
it. Backward: after `alloc<int>(1)`, `dealloc()`, `dealloc()` the stream holds the line
twice, the second time from a call made with `allocation_count == 0`. -/
theorem dealloc_at_zero_resets_again :
    ((BumpAllocator.create 4096 16 true).allocation_count = 0
      ∧ (BumpAllocator.create 4096 16 true).dealloc.cout
          = (BumpAllocator.create 4096 16 true).cout ++ ["Allocator reset."])
    ∧ (((BumpAllocatorDownwards.create 4096 16).run
          [Op.alloc 4 4 1, Op.dealloc]).allocation_count = 0
      ∧ ((BumpAllocatorDownwards.create 4096 16).run [Op.alloc 4 4 1, Op.dealloc]).cout
          = ["Allocator reset."]
      ∧ ((BumpAllocatorDownwards.create 4096 16).run
          [Op.alloc 4 4 1, Op.dealloc, Op.dealloc]).cout
          = ["Allocator reset.", "Allocator reset."]) := by
  refine ⟨⟨rfl, rfl⟩, ⟨by decide, rfl, rfl⟩⟩

/-- C17, amended: in both arenas and in every state with `allocation_count == 0`, `dealloc()`
takes the reset branch again: it sets the cursor to the growth-start edge, keeps
`allocation_count` at zero, and writes the line "Allocator reset." once more (forward arena
with debug enabled, backward arena always); the forward arena with debug disabled writes
nothing. -/
theorem dealloc_at_zero_takes_reset_branch :
    (∀ s : BumpAllocator, s.allocation_count = 0 →
      s.dealloc.allocation_count = 0 ∧ s.dealloc.next = s.heap
        ∧ (s.debug_mode = true → s.dealloc.cout = s.cout ++ ["Allocator reset."])
        ∧ (s.debug_mode = false → s.dealloc.cout = s.cout))
    ∧ (∀ s : BumpAllocatorDownwards, s.allocation_count = 0 →
      s.dealloc.allocation_count = 0 ∧ s.dealloc.next = s.heap_end
        ∧ s.dealloc.cout = s.cout ++ ["Allocator reset."]) := by
  constructor
  · intro s h0
    have hd := BumpAllocator.dealloc_of_count_zero s h0
    refine ⟨hd.1, hd.2.1, ?_, ?_⟩
    · intro hdbg
      rw [hd.2.2, hdbg]
      rfl
    · intro hdbg
      rw [hd.2.2, hdbg]
      rfl
  · intro s h0
    exact BumpAllocatorDownwards.down_dealloc_of_count_zero s h0

theorem dealloc_at_zero_takes_reset_branch_witness :
    ((BumpAllocator.create 4096 16 true).allocation_count = 0
      ∧ (BumpAllocator.create 4096 16 true).debug_mode = true
      ∧ (BumpAllocator.create 4096 16 true).dealloc.cout
          = (BumpAllocator.create 4096 16 true).cout ++ ["Allocator reset."])
    ∧ ((BumpAllocatorDownwards.create 4096 16).allocation_count = 0
      ∧ (BumpAllocatorDownwards.create 4096 16).dealloc.cout
          = (BumpAllocatorDownwards.create 4096 16).cout ++ ["Allocator reset."]) :=
  ⟨⟨rfl, rfl,
      (dealloc_at_zero_takes_reset_branch.1 (BumpAllocator.create 4096 16 true) rfl).2.2.1
        rfl⟩,
    ⟨rfl, (dealloc_at_zero_takes_reset_branch.2 (BumpAllocatorDownwards.create 4096 16)
      rfl).2.2⟩⟩

/-! ## C19: the lifetime counter -/

theorem BumpAllocator.run_append (pre post : List Op) :
    ∀ s : BumpAllocator, s.run (pre ++ post) = (s.run pre).run post := by
  induction pre with
  | nil => intro s; rfl
  | cons op pre ih =>
    intro s
    simp only [List.cons_append, BumpAllocator.run]
    exact ih _

theorem BumpAllocatorDownwards.down_run_append (pre post : List Op) :
    ∀ s : BumpAllocatorDownwards, s.run (pre ++ post) = (s.run pre).run post := by
  induction pre with
  | nil => intro s; rfl
  | cons op pre ih =>
    intro s
    simp only [List.cons_append, BumpAllocatorDownwards.run]
    exact ih _

/-- Forward arena, fewer calls than the counter can hold: `total_allocations` grows by the
number of successful `alloc` calls, and `allocation_count` stays at most
`total_allocations`. -/
theorem BumpAllocator.run_total (ops : List Op) :
    ∀ s : BumpAllocator, s.total_allocations + ops.length < WORD →
      s.allocation_count ≤ s.total_allocations →
      (s.run ops).total_allocations = s.total_allocations + s.successes ops
        ∧ (s.run ops).allocation_count ≤ (s.run ops).total_allocations := by
  induction ops with
  | nil => intro s _ hle; exact ⟨rfl, hle⟩
  | cons op ops ih =>
    intro s hlt hle
    simp only [List.length_cons] at hlt
    cases op with
    | alloc sizeofT alignofT num_objects =>
      simp only [BumpAllocator.run, BumpAllocator.successes, BumpAllocator.step]
      rcases BumpAllocator.alloc_cases s sizeofT alignofT num_objects with
        ⟨hn, _, h2, h3⟩ | ⟨⟨addr, hsome⟩, h2, h3⟩
      · have hi := ih (s.alloc sizeofT alignofT num_objects).2 (by omega) (by omega)
        refine ⟨?_, hi.2⟩
        rw [hi.1, hn, h3]
        simp only []
        omega
      · rw [wadd_eq_add (by omega)] at h2 h3
        have hi := ih (s.alloc sizeofT alignofT num_objects).2 (by omega) (by omega)
        refine ⟨?_, hi.2⟩
        rw [hi.1, hsome, h3]
        simp only []
        omega
    | dealloc =>
      simp only [BumpAllocator.run, BumpAllocator.successes, BumpAllocator.step]
      have hd := BumpAllocator.dealloc_cases s (by omega)
      have ht := (BumpAllocator.dealloc_total s).1
      have hi := ih s.dealloc (by omega) (by omega)
      refine ⟨?_, hi.2⟩
      rw [hi.1, ht]
      omega

/-- Backward arena, fewer calls than the counter can hold: `total_allocations` grows by the
number of successful `alloc` calls, and `allocation_count` stays at most
`total_allocations`. -/
theorem BumpAllocatorDownwards.down_run_total (ops : List Op) :
    ∀ s : BumpAllocatorDownwards, s.total_allocations + ops.length < WORD →
      s.allocation_count ≤ s.total_allocations →
      (s.run ops).total_allocations = s.total_allocations + s.successes ops
        ∧ (s.run ops).allocation_count ≤ (s.run ops).total_allocations := by
  induction ops with
  | nil => intro s _ hle; exact ⟨rfl, hle⟩
  | cons op ops ih =>
    intro s hlt hle
    simp only [List.length_cons] at hlt
    cases op with
    | alloc sizeofT alignofT num_objects =>
      simp only [BumpAllocatorDownwards.run, BumpAllocatorDownwards.successes,
        BumpAllocatorDownwards.step]
      rcases BumpAllocatorDownwards.down_alloc_cases s sizeofT alignofT num_objects with
        ⟨hn, _, h2, h3⟩ | ⟨⟨addr, hsome⟩, h2, h3⟩
      · have hi := ih (s.alloc sizeofT alignofT num_objects).2 (by omega) (by omega)
        refine ⟨?_, hi.2⟩
        rw [hi.1, hn, h3]
        simp only []
        omega
      · rw [wadd_eq_add (by omega)] at h2 h3
        have hi := ih (s.alloc sizeofT alignofT num_objects).2 (by omega) (by omega)
        refine ⟨?_, hi.2⟩
        rw [hi.1, hsome, h3]
        simp only []
        omega
    | dealloc =>
      simp only [BumpAllocatorDownwards.run, BumpAllocatorDownwards.successes,
        BumpAllocatorDownwards.step]
      have hd := BumpAllocatorDownwards.down_dealloc_cases s (by omega)
      have ht := (BumpAllocatorDownwards.down_dealloc_total s).1
      have hi := ih s.dealloc (by omega) (by omega)
      refine ⟨?_, hi.2⟩
      rw [hi.1, ht]
      omega

theorem BumpAllocator.successes_le (ops : List Op) :
    ∀ s : BumpAllocator, s.successes ops ≤ ops.length := by
  induction ops with
  | nil => intro s; exact Nat.le_refl 0
  | cons op ops ih =>
    intro s
    have hi := ih (s.step op).2
    simp only [BumpAllocator.successes, List.length_cons]
    split <;> omega

theorem BumpAllocatorDownwards.down_successes_le (ops : List Op) :
    ∀ s : BumpAllocatorDownwards, s.successes ops ≤ ops.length := by
  induction ops with
  | nil => intro s; exact Nat.le_refl 0
  | cons op ops ih =>
    intro s
    have hi := ih (s.step op).2
    simp only [BumpAllocatorDownwards.successes, List.length_cons]
    split <;> omega

/-- C19: in both arenas, for every sequence of fewer than `2^64` calls on a fresh arena, split
anywhere into `pre` and `post`: after `pre`, `total_allocations` equals the number of
successful `alloc` calls made since construction and `allocation_count <= total_allocations`;
after the further calls `post` it has not decreased. In every state `dealloc()` and a failed
`alloc` leave `total_allocations` unchanged. -/
theorem total_allocations_counts_successes (heap heap_size : Nat) (pre post : List Op)
    (hlen : (pre ++ post).length < WORD) :
    (∀ debug : Bool,
      ((BumpAllocator.create heap heap_size debug).run pre).total_allocations
          = (BumpAllocator.create heap heap_size debug).successes pre
        ∧ ((BumpAllocator.create heap heap_size debug).run pre).allocation_count
          ≤ ((BumpAllocator.create heap heap_size debug).run pre).total_allocations
        ∧ ((BumpAllocator.create heap heap_size debug).run pre).total_allocations
          ≤ ((BumpAllocator.create heap heap_size debug).run (pre ++ post)).total_allocations)
    ∧ (((BumpAllocatorDownwards.create heap heap_size).run pre).total_allocations
          = (BumpAllocatorDownwards.create heap heap_size).successes pre
        ∧ ((BumpAllocatorDownwards.create heap heap_size).run pre).allocation_count
          ≤ ((BumpAllocatorDownwards.create heap heap_size).run pre).total_allocations
        ∧ ((BumpAllocatorDownwards.create heap heap_size).run pre).total_allocations
          ≤ ((BumpAllocatorDownwards.create heap heap_size).run
              (pre ++ post)).total_allocations)
    ∧ (∀ s : BumpAllocator, s.dealloc.total_allocations = s.total_allocations)
    ∧ (∀ (s : BumpAllocator) (sizeofT alignofT num_objects : Nat),
        (s.alloc sizeofT alignofT num_objects).1 = none →
        (s.alloc sizeofT alignofT num_objects).2.total_allocations = s.total_allocations)
    ∧ (∀ s : BumpAllocatorDownwards, s.dealloc.total_allocations = s.total_allocations)
    ∧ (∀ (s : BumpAllocatorDownwards) (sizeofT alignofT num_objects : Nat),
        (s.alloc sizeofT alignofT num_objects).1 = none →
        (s.alloc sizeofT alignofT num_objects).2.total_allocations
          = s.total_allocations) := by
  simp only [List.length_append] at hlen
  refine ⟨?_, ?_, fun s => (BumpAllocator.dealloc_total s).1, ?_,
    fun s => (BumpAllocatorDownwards.down_dealloc_total s).1, ?_⟩
  · intro debug
    have h1 := BumpAllocator.run_total pre (BumpAllocator.create heap heap_size debug)
      (by show 0 + pre.length < WORD; omega) (Nat.le_refl 0)
    have htot : ((BumpAllocator.create heap heap_size debug).run pre).total_allocations
        = (BumpAllocator.create heap heap_size debug).successes pre := by
      rw [h1.1]
      exact Nat.zero_add _
    have hs := BumpAllocator.successes_le pre (BumpAllocator.create heap heap_size debug)
    have h2 := BumpAllocator.run_total post
      ((BumpAllocator.create heap heap_size debug).run pre) (by omega) h1.2
    refine ⟨htot, h1.2, ?_⟩
    rw [BumpAllocator.run_append, h2.1]
    omega
  · have h1 := BumpAllocatorDownwards.down_run_total pre
      (BumpAllocatorDownwards.create heap heap_size)
      (by show 0 + pre.length < WORD; omega) (Nat.le_refl 0)
    have htot : ((BumpAllocatorDownwards.create heap heap_size).run pre).total_allocations
        = (BumpAllocatorDownwards.create heap heap_size).successes pre := by
      rw [h1.1]
      exact Nat.zero_add _
    have hs := BumpAllocatorDownwards.down_successes_le pre
      (BumpAllocatorDownwards.create heap heap_size)
    have h2 := BumpAllocatorDownwards.down_run_total post
      ((BumpAllocatorDownwards.create heap heap_size).run pre) (by omega) h1.2
    refine ⟨htot, h1.2, ?_⟩
    rw [BumpAllocatorDownwards.down_run_append, h2.1]
    omega
  · intro s sizeofT alignofT num_objects hnone
    rcases BumpAllocator.alloc_cases s sizeofT alignofT num_objects with
      ⟨_, _, _, h3⟩ | ⟨⟨addr, hsome⟩, _⟩
    · exact h3
    · rw [hsome] at hnone
      simp at hnone
  · intro s sizeofT alignofT num_objects hnone
    rcases BumpAllocatorDownwards.down_alloc_cases s sizeofT alignofT num_objects with
      ⟨_, _, _, h3⟩ | ⟨⟨addr, hsome⟩, _⟩
    · exact h3
    · rw [hsome] at hnone
      simp at hnone

theorem total_allocations_counts_successes_witness :
    ([Op.alloc 4 4 1, Op.alloc 4 4 100, Op.dealloc] ++ [Op.alloc 8 8 1]).length < WORD
    ∧ (((BumpAllocator.create 4096 40 false).run
          [Op.alloc 4 4 1, Op.alloc 4 4 100, Op.dealloc]).total_allocations
        = (BumpAllocator.create 4096 40 false).successes
          [Op.alloc 4 4 1, Op.alloc 4 4 100, Op.dealloc]
      ∧ (BumpAllocator.create 4096 40 false).successes
          [Op.alloc 4 4 1, Op.alloc 4 4 100, Op.dealloc] = 1)
    ∧ (((BumpAllocatorDownwards.create 4096 40).run
          [Op.alloc 4 4 1, Op.alloc 4 4 100, Op.dealloc]).total_allocations
        = (BumpAllocatorDownwards.create 4096 40).successes
          [Op.alloc 4 4 1, Op.alloc 4 4 100, Op.dealloc]
      ∧ ((BumpAllocatorDownwards.create 4096 40).run
          ([Op.alloc 4 4 1, Op.alloc 4 4 100, Op.dealloc]
            ++ [Op.alloc 8 8 1])).total_allocations = 2)
    ∧ (((BumpAllocator.create 4096 40 false).alloc 4 4 100).1 = none
      ∧ ((BumpAllocator.create 4096 40 false).alloc 4 4 100).2.total_allocations
        = (BumpAllocator.create 4096 40 false).total_allocations) :=
  ⟨by decide,
    ⟨((total_allocations_counts_successes 4096 40
        [Op.alloc 4 4 1, Op.alloc 4 4 100, Op.dealloc] [Op.alloc 8 8 1] (by decide)).1
        false).1, by decide⟩,
    ⟨(total_allocations_counts_successes 4096 40
        [Op.alloc 4 4 1, Op.alloc 4 4 100, Op.dealloc] [Op.alloc 8 8 1] (by decide)).2.1.1,
      by decide⟩,
    ⟨by decide,
      (total_allocations_counts_successes 4096 40
        [Op.alloc 4 4 1, Op.alloc 4 4 100, Op.dealloc] [Op.alloc 8 8 1]
        (by decide)).2.2.2.1 (BumpAllocator.create 4096 40 false) 4 4 100 (by decide)⟩⟩

/-! ## C20: one `dealloc()` after a workload -/

/-- Both arenas: after a sequence of `alloc` calls on a fresh arena of which at least two
succeeded, one `dealloc()` only lowers `allocation_count` by one; the cursor and
`remaining_memory()` stay where the allocations left them. -/
theorem single_dealloc_keeps_cursor (heap heap_size : Nat) (ops : List Op)
    (hlen : ops.length < WORD) (hall : ∀ op ∈ ops, op ≠ Op.dealloc) :
    (∀ debug : Bool, 2 ≤ (BumpAllocator.create heap heap_size debug).successes ops →
      ((BumpAllocator.create heap heap_size debug).run ops).dealloc.allocation_count
          = (BumpAllocator.create heap heap_size debug).successes ops - 1
        ∧ ((BumpAllocator.create heap heap_size debug).run ops).dealloc.next
          = ((BumpAllocator.create heap heap_size debug).run ops).next
        ∧ ((BumpAllocator.create heap heap_size debug).run ops).dealloc.remaining_memory
          = ((BumpAllocator.create heap heap_size debug).run ops).remaining_memory)
    ∧ (2 ≤ (BumpAllocatorDownwards.create heap heap_size).successes ops →
      ((BumpAllocatorDownwards.create heap heap_size).run ops).dealloc.allocation_count
          = (BumpAllocatorDownwards.create heap heap_size).successes ops - 1
        ∧ ((BumpAllocatorDownwards.create heap heap_size).run ops).dealloc.next
          = ((BumpAllocatorDownwards.create heap heap_size).run ops).next
        ∧ ((BumpAllocatorDownwards.create heap heap_size).run ops).dealloc.remaining_memory
          = ((BumpAllocatorDownwards.create heap heap_size).run ops).remaining_memory) := by
  constructor
  · intro debug h2
    have hc := BumpAllocator.run_count_successes ops
      (BumpAllocator.create heap heap_size debug) hall
      (by show 0 + ops.length < WORD; omega)
    have hc2 : ((BumpAllocator.create heap heap_size debug).run ops).allocation_count
        = (BumpAllocator.create heap heap_size debug).successes ops := by
      rw [hc]
      exact Nat.zero_add _
    have hs := BumpAllocator.successes_le ops (BumpAllocator.create heap heap_size debug)
    have hd := BumpAllocator.dealloc_cases
      ((BumpAllocator.create heap heap_size debug).run ops) (by omega)
    have hne : ((BumpAllocator.create heap heap_size debug).run ops).dealloc.allocation_count
        ≠ 0 := by omega
    exact ⟨by omega, hd.2.2 hne, dealloc_without_reset_keeps_remaining.1 _ hne⟩
  · intro h2
    have hc := BumpAllocatorDownwards.down_run_count_successes ops
      (BumpAllocatorDownwards.create heap heap_size) hall
      (by show 0 + ops.length < WORD; omega)
    have hc2 : ((BumpAllocatorDownwards.create heap heap_size).run ops).allocation_count
        = (BumpAllocatorDownwards.create heap heap_size).successes ops := by
      rw [hc]
      exact Nat.zero_add _
    have hs := BumpAllocatorDownwards.down_successes_le ops
      (BumpAllocatorDownwards.create heap heap_size)
    have hd := BumpAllocatorDownwards.down_dealloc_cases
      ((BumpAllocatorDownwards.create heap heap_size).run ops) (by omega)
    have hne : ((BumpAllocatorDownwards.create heap heap_size).run ops).dealloc.allocation_count
        ≠ 0 := by omega
    exact ⟨by omega, hd.2.2 hne, dealloc_without_reset_keeps_remaining.2 _ hne⟩

set_option maxRecDepth 100000 in
/-- C20: one `dealloc()` after two or more successful allocations does not reset. The Task1
demo on a 1024-byte arena at address 4096: `alloc<int>(10)` and `alloc<float>(20)` succeed,
`alloc<double>(200)` fails, then `dealloc()` leaves `allocation_count == 1` and
`remaining_memory() == 904`, and the next `alloc<int>(5)` returns 4216, not the base. The
workload `small_allocations` on a 1 MiB backward arena at address 1048576: after 1000
`alloc<int>(1)` and one `dealloc()`, `allocation_count == 999` and
`remaining_memory() == 1044576`, not 1048576. -/
theorem single_dealloc_does_not_reset :
    ((Task1.BumpAllocator.create 4096 1024).results
        [Op.alloc 4 4 10, Op.alloc 4 4 20, Op.alloc 8 8 200, Op.dealloc, Op.alloc 4 4 5]
        = [some 4096, some 4136, none, none, some 4216]
      ∧ ((Task1.BumpAllocator.create 4096 1024).run
          [Op.alloc 4 4 10, Op.alloc 4 4 20, Op.alloc 8 8 200, Op.dealloc]).allocation_count
        = 1
      ∧ ((Task1.BumpAllocator.create 4096 1024).run
          [Op.alloc 4 4 10, Op.alloc 4 4 20, Op.alloc 8 8 200, Op.dealloc]).remaining_memory
        = 904)
    ∧ (((BumpAllocatorDownwards.create 1048576 1048576).run
          (List.replicate 1000 (Op.alloc 4 4 1) ++ [Op.dealloc])).allocation_count = 999
      ∧ ((BumpAllocatorDownwards.create 1048576 1048576).run
          (List.replicate 1000 (Op.alloc 4 4 1) ++ [Op.dealloc])).remaining_memory
        = 1044576) := by
  refine ⟨by decide, by decide!⟩

/-! ## C21: the forward arena with the debug flag off -/

theorem BumpAllocator.step_silent (s : BumpAllocator) (op : Op)
    (hd : s.debug_mode = false) (hc : s.cout = []) :
    (s.step op).2.debug_mode = false ∧ (s.step op).2.cout = [] := by
  cases op with
  | alloc sizeofT alignofT num_objects =>
    simp only [BumpAllocator.step, BumpAllocator.alloc]
    split <;> simp [hd, hc]
  | dealloc =>
    simp only [BumpAllocator.step, BumpAllocator.dealloc]
    split <;> split <;> simp [hd, hc]

theorem BumpAllocator.run_silent (ops : List Op) :
    ∀ s : BumpAllocator, s.debug_mode = false → s.cout = [] →
      (s.run ops).debug_mode = false ∧ (s.run ops).cout = [] := by
  induction ops with
  | nil => intro s hd hc; exact ⟨hd, hc⟩
  | cons op ops ih =>
    intro s hd hc
    have h1 := BumpAllocator.step_silent s op hd hc
    exact ih _ h1.1 h1.2

/-- C21: the Task2 forward arena constructed with `debug == false` writes nothing: for every
buffer address, capacity and sequence of `alloc` and `dealloc` calls (successful or failed,
with or without reset), `std::cout` is empty after construction, after every prefix of the
calls, and after the destructor. -/
theorem debug_off_is_silent (heap heap_size : Nat) (pre post : List Op) :
    (BumpAllocator.create heap heap_size false).cout = []
      ∧ ((BumpAllocator.create heap heap_size false).run pre).cout = []
      ∧ ((BumpAllocator.create heap heap_size false).run (pre ++ post)).cout = []
      ∧ ((BumpAllocator.create heap heap_size false).run (pre ++ post)).destroy = [] := by
  have h1 := BumpAllocator.run_silent pre (BumpAllocator.create heap heap_size false) rfl rfl
  have h2 := BumpAllocator.run_silent (pre ++ post)
    (BumpAllocator.create heap heap_size false) rfl rfl
  refine ⟨rfl, h1.2, h2.2, ?_⟩
  simp [BumpAllocator.destroy, h2.1, h2.2]

/-! ## C30: the Task2 arena against the Task1 arena -/

/-- The Task2 arena `t` stands in the same state as the Task1 arena `s`: equal data members,
and equal diagnostic stream when the debug flag is on. -/
theorem task2_step_refines_task1 (s : Task1.BumpAllocator) (t : BumpAllocator)
    (op : Op)
    (h : t.heap = s.heap ∧ t.next = s.next ∧ t.heap_end = s.heap_end
      ∧ t.total_size = s.total_size ∧ t.allocation_count = s.allocation_count
      ∧ t.total_allocations = s.total_allocations
      ∧ (t.debug_mode = true → t.cout = s.cout)) :
    (t.step op).1 = (s.step op).1
      ∧ (t.step op).2.heap = (s.step op).2.heap
      ∧ (t.step op).2.next = (s.step op).2.next
      ∧ (t.step op).2.heap_end = (s.step op).2.heap_end
      ∧ (t.step op).2.total_size = (s.step op).2.total_size
      ∧ (t.step op).2.allocation_count = (s.step op).2.allocation_count
      ∧ (t.step op).2.total_allocations = (s.step op).2.total_allocations
      ∧ ((t.step op).2.debug_mode = true → (t.step op).2.cout = (s.step op).2.cout)
      ∧ (t.step op).2.debug_mode = t.debug_mode := by
  obtain ⟨sheap, snext, send, ssize, scount, stotal, scout⟩ := s
  obtain ⟨theap, tnext, tend, tsize, tcount, ttotal, tdebug, tcout⟩ := t
  simp only at h
  obtain ⟨rfl, rfl, rfl, rfl, rfl, rfl, h7⟩ := h
  have hal : ∀ p a, Task1.BumpAllocator.align_pointer p a = BumpAllocator.align_pointer p a :=
    fun _ _ => rfl
  cases op with
  | alloc sizeofT alignofT num_objects =>
    by_cases hfit : wadd (BumpAllocator.align_pointer tnext alignofT)
        (wmul sizeofT num_objects) ≤ tend
    · simp only [BumpAllocator.step, BumpAllocator.alloc, Task1.BumpAllocator.step,
        Task1.BumpAllocator.alloc, hal, if_pos hfit]
      cases tdebug <;> simp_all
    · simp only [BumpAllocator.step, BumpAllocator.alloc, Task1.BumpAllocator.step,
        Task1.BumpAllocator.alloc, hal, if_neg hfit]
      cases tdebug <;> simp_all
  | dealloc =>
    by_cases hpos : tcount > 0
    · by_cases hz : wsub tcount 1 = 0
      · cases tdebug <;>
          simp_all [BumpAllocator.step, BumpAllocator.dealloc, Task1.BumpAllocator.step,
            Task1.BumpAllocator.dealloc]
      · cases tdebug <;>
          simp_all [BumpAllocator.step, BumpAllocator.dealloc, Task1.BumpAllocator.step,
            Task1.BumpAllocator.dealloc]
    · have h0 : tcount = 0 := by omega
      subst h0
      cases tdebug <;>
        simp_all [BumpAllocator.step, BumpAllocator.dealloc, Task1.BumpAllocator.step,
          Task1.BumpAllocator.dealloc]

theorem task2_run_refines_task1 (ops : List Op) :
    ∀ (s : Task1.BumpAllocator) (t : BumpAllocator),
      (t.heap = s.heap ∧ t.next = s.next ∧ t.heap_end = s.heap_end
        ∧ t.total_size = s.total_size ∧ t.allocation_count = s.allocation_count
        ∧ t.total_allocations = s.total_allocations
        ∧ (t.debug_mode = true → t.cout = s.cout)) →
      t.results ops = s.results ops
        ∧ (t.run ops).next = (s.run ops).next
        ∧ (t.run ops).allocation_count = (s.run ops).allocation_count
        ∧ (t.run ops).total_allocations = (s.run ops).total_allocations
        ∧ (t.run ops).debug_mode = t.debug_mode
        ∧ (t.debug_mode = true → (t.run ops).cout = (s.run ops).cout) := by
  induction ops with
  | nil =>
    intro s t h
    exact ⟨rfl, h.2.1, h.2.2.2.2.1, h.2.2.2.2.2.1, rfl, h.2.2.2.2.2.2⟩
  | cons op ops ih =>
    intro s t h
    obtain ⟨h0, h1, h2, h3, h4, h5, h6, h7, h8⟩ := task2_step_refines_task1 s t op h
    obtain ⟨i1, i2, i3, i4, i5, i6⟩ := ih (s.step op).2 (t.step op).2
      ⟨h1, h2, h3, h4, h5, h6, h7⟩
    simp only [BumpAllocator.results, BumpAllocator.run, Task1.BumpAllocator.results,
      Task1.BumpAllocator.run]
    refine ⟨by rw [h0, i1], i2, i3, i4, by rw [i5, h8], ?_⟩
    intro hd
    exact i6 (by rw [h8]; exact hd)

/-- C30: for every buffer address, capacity and sequence of `alloc` and `dealloc` calls, the
Task2 arena, with either value of `debug`, returns the same pointers as the Task1 arena and
reaches the same cursor, `allocation_count` and `total_allocations`; with `debug == true` it
has written the same lines to `std::cout`, after the calls and after the destructor. -/
theorem task2_refines_task1 (heap heap_size : Nat) (ops : List Op) :
    (∀ debug : Bool,
      (BumpAllocator.create heap heap_size debug).results ops
          = (Task1.BumpAllocator.create heap heap_size).results ops
        ∧ ((BumpAllocator.create heap heap_size debug).run ops).next
          = ((Task1.BumpAllocator.create heap heap_size).run ops).next
        ∧ ((BumpAllocator.create heap heap_size debug).run ops).allocation_count
          = ((Task1.BumpAllocator.create heap heap_size).run ops).allocation_count
        ∧ ((BumpAllocator.create heap heap_size debug).run ops).total_allocations
          = ((Task1.BumpAllocator.create heap heap_size).run ops).total_allocations)
    ∧ ((BumpAllocator.create heap heap_size true).run ops).cout
        = ((Task1.BumpAllocator.create heap heap_size).run ops).cout
    ∧ ((BumpAllocator.create heap heap_size true).run ops).destroy
        = ((Task1.BumpAllocator.create heap heap_size).run ops).destroy := by
  have key : ∀ debug : Bool, _ := fun debug =>
    task2_run_refines_task1 ops (Task1.BumpAllocator.create heap heap_size)
      (BumpAllocator.create heap heap_size debug)
      ⟨rfl, rfl, rfl, rfl, rfl, rfl, fun hd => by
        have hd2 : debug = true := hd
        subst hd2
        rfl⟩
  refine ⟨fun debug => ⟨(key debug).1, (key debug).2.1, (key debug).2.2.1,
    (key debug).2.2.2.1⟩, (key true).2.2.2.2.2 rfl, ?_⟩
  have hc := (key true).2.2.2.2.2 rfl
  have hm : ((BumpAllocator.create heap heap_size true).run ops).debug_mode = true :=
    (key true).2.2.2.2.1
  have ht := (key true).2.2.2.1
  simp only [BumpAllocator.destroy, Task1.BumpAllocator.destroy, hm, if_true, hc, ht]

/-! ## C25: the forward alignment helper -/

/-- C25, as stated, fails: the helper works on the mask `alignment - 1`, which selects the
remainder only for a power of two. For alignment 3 the address 4 is returned unchanged
although 4 is not a multiple of 3; for alignment 6 the address 3 is moved to 8, not to 6. -/
theorem align_pointer_not_multiple :
    BumpAllocator.align_pointer 4 3 = 4 ∧ 4 % 3 ≠ 0
      ∧ BumpAllocator.align_pointer 3 6 = 8 ∧ 8 % 6 ≠ 0 := by
  decide

/-- C25, amended: for every power-of-two alignment `2 ^ k` (`k < 64`) and every address `p`
with `p + 2 ^ k` inside the address space, `align_pointer(p, 2 ^ k)` is the least multiple of
the alignment at or above `p`. -/
theorem align_pointer_least_multiple (p k : Nat) (hk : k < 64) (hp : p + 2 ^ k ≤ WORD) :
    BumpAllocator.align_pointer p (2 ^ k) % 2 ^ k = 0
      ∧ p ≤ BumpAllocator.align_pointer p (2 ^ k)
      ∧ ∀ m, p ≤ m → m % 2 ^ k = 0 → BumpAllocator.align_pointer p (2 ^ k) ≤ m := by
  have hpos : 0 < 2 ^ k := Nat.pos_pow_of_pos k (by norm_num)
  have hb := BumpAllocator.align_pointer_bounds p (2 ^ k) hpos hp
  have hmod := BumpAllocator.align_pointer_mod p hk
  exact ⟨hmod, hb.1, fun m hm1 hm2 =>
    multiple_le_of_window (2 ^ k) p _ m hmod hb.2 hm2 hm1⟩

theorem align_pointer_least_multiple_witness :
    3 < 64 ∧ 4098 + 2 ^ 3 ≤ WORD
      ∧ BumpAllocator.align_pointer 4098 (2 ^ 3) = 4104
      ∧ BumpAllocator.align_pointer 4098 (2 ^ 3) % 2 ^ 3 = 0
      ∧ 4098 ≤ BumpAllocator.align_pointer 4098 (2 ^ 3)
      ∧ BumpAllocator.align_pointer 4098 (2 ^ 3) ≤ 4112 :=
  ⟨by decide, by decide, by decide,
    (align_pointer_least_multiple 4098 3 (by decide) (by decide)).1,
    (align_pointer_least_multiple 4098 3 (by decide) (by decide)).2.1,
    (align_pointer_least_multiple 4098 3 (by decide) (by decide)).2.2 4112
      (by decide) (by decide)⟩

/-! ## C26: padding of the backward arena -/

/-- C26: there are a capacity, a buffer address and a request for which the backward arena
claims more than the forward arena. On fresh 50-byte arenas at any address that is a multiple
of 4, `alloc<int>(1)` succeeds in both; the forward arena then has 46 bytes remaining and the
backward arena 44. -/
theorem backward_claims_extra_padding :
    (∀ heap : Nat, 4 ∣ heap → heap + 50 < WORD →
      (∀ debug : Bool,
        ((BumpAllocator.create heap 50 debug).alloc 4 4 1).1 = some heap
          ∧ ((BumpAllocator.create heap 50 debug).alloc 4 4 1).2.remaining_memory = 46)
      ∧ ((BumpAllocatorDownwards.create heap 50).alloc 4 4 1).1 = some (heap + 44)
      ∧ ((BumpAllocatorDownwards.create heap 50).alloc 4 4 1).2.remaining_memory = 44)
    ∧ (∃ heap heap_size sizeofT alignofT num_objects a b,
      ((BumpAllocator.create heap heap_size false).alloc sizeofT alignofT num_objects).1
          = some a
        ∧ ((BumpAllocatorDownwards.create heap heap_size).alloc
            sizeofT alignofT num_objects).1 = some b
        ∧ ((BumpAllocatorDownwards.create heap heap_size).alloc
            sizeofT alignofT num_objects).2.remaining_memory
          < ((BumpAllocator.create heap heap_size false).alloc
            sizeofT alignofT num_objects).2.remaining_memory) := by
  constructor
  · intro heap hdiv h
    have hadd : wadd heap 50 = heap + 50 := wadd_eq_add h
    have hmul : wmul 4 1 = 4 := by decide
    have hmask : wsub 4 1 = 3 := by decide
    have hmod : heap % 4 = 0 := Nat.mod_eq_zero_of_dvd hdiv
    have hl3 : ∀ x : Nat, x &&& 3 = x % 4 := fun x =>
      Nat.and_pow_two_sub_one_eq_mod x 2
    refine ⟨?_, ?_⟩
    · intro debug
      have hal : BumpAllocator.align_pointer heap 4 = heap := by
        simp [BumpAllocator.align_pointer, hmask, hl3, hmod]
      have h4 : wadd heap 4 = heap + 4 := wadd_eq_add (by omega)
      have hle : heap + 4 ≤ heap + 50 := by omega
      have hrem : wsub (heap + 50) (heap + 4) = 46 := by
        rw [wsub_eq_sub (by omega) h]
        omega
      simp only [BumpAllocator.alloc, BumpAllocator.create, hmul, hal, hadd, h4, hle, if_true,
        BumpAllocator.remaining_memory, hrem, and_self]
    · have hs : wsub (heap + 50) 4 = heap + 46 := by
        rw [wsub_eq_sub (by omega) h]
        omega
      have hmis : (heap + 46) % 4 = 2 := by omega
      have hs2 : wsub (heap + 46) 2 = heap + 44 := by
        rw [wsub_eq_sub (by omega) (by omega)]
        omega
      have hal : BumpAllocatorDownwards.align_pointer (heap + 46) 4 = heap + 44 := by
        simp [BumpAllocatorDownwards.align_pointer, hmask, hl3, hmis, hs2]
      have hge : heap + 44 ≥ heap := by omega
      have hrem : wsub (heap + 44) heap = 44 := by
        rw [wsub_eq_sub (by omega) (by omega)]
        omega
      simp only [BumpAllocatorDownwards.alloc, BumpAllocatorDownwards.create, hmul, hadd, hs,
        hal, hge, if_true, BumpAllocatorDownwards.remaining_memory, hrem, and_self]
  · exact ⟨4096, 50, 4, 4, 1, 4096, 4140, by decide, by decide, by decide⟩

theorem backward_claims_extra_padding_witness :
    4 ∣ 4096 ∧ 4096 + 50 < WORD
      ∧ ((BumpAllocator.create 4096 50 false).alloc 4 4 1).2.remaining_memory = 46
      ∧ ((BumpAllocatorDownwards.create 4096 50).alloc 4 4 1).2.remaining_memory = 44 :=
  ⟨by decide, by decide,
    ((backward_claims_extra_padding.1 4096 (by decide) (by decide)).1 false).2,
    (backward_claims_extra_padding.1 4096 (by decide) (by decide)).2.2⟩

/-! ## C27: alignment padding per allocation -/

/-- Both arenas, calls that do not wrap, power-of-two alignment `2 ^ k`: from every state
reached from construction by such calls, a successful `alloc` of `sizeofT * num_objects` bytes
lowers `remaining_memory()` by at least that many bytes and by fewer than that plus the
alignment. -/
theorem padding_bound_of_noWrap (heap heap_size : Nat) (h : heap + heap_size < WORD)
    (sizeofT k num_objects addr : Nat) (hk : k < 64) :
    (∀ (debug : Bool) (ops : List Op),
      (∀ op ∈ ops, BumpAllocator.noWrap (heap + heap_size) op) →
      BumpAllocator.noWrap (heap + heap_size) (Op.alloc sizeofT (2 ^ k) num_objects) →
      (((BumpAllocator.create heap heap_size debug).run ops).alloc
        sizeofT (2 ^ k) num_objects).1 = some addr →
      (((BumpAllocator.create heap heap_size debug).run ops).alloc
          sizeofT (2 ^ k) num_objects).2.remaining_memory + sizeofT * num_objects
          ≤ ((BumpAllocator.create heap heap_size debug).run ops).remaining_memory
        ∧ ((BumpAllocator.create heap heap_size debug).run ops).remaining_memory
          < (((BumpAllocator.create heap heap_size debug).run ops).alloc
              sizeofT (2 ^ k) num_objects).2.remaining_memory
            + sizeofT * num_objects + 2 ^ k)
    ∧ (∀ ops : List Op,
      (∀ op ∈ ops, BumpAllocatorDownwards.noWrap heap op) →
      BumpAllocatorDownwards.noWrap heap (Op.alloc sizeofT (2 ^ k) num_objects) →
      (((BumpAllocatorDownwards.create heap heap_size).run ops).alloc
        sizeofT (2 ^ k) num_objects).1 = some addr →
      (((BumpAllocatorDownwards.create heap heap_size).run ops).alloc
          sizeofT (2 ^ k) num_objects).2.remaining_memory + sizeofT * num_objects
          ≤ ((BumpAllocatorDownwards.create heap heap_size).run ops).remaining_memory
        ∧ ((BumpAllocatorDownwards.create heap heap_size).run ops).remaining_memory
          < (((BumpAllocatorDownwards.create heap heap_size).run ops).alloc
              sizeofT (2 ^ k) num_objects).2.remaining_memory
            + sizeofT * num_objects + 2 ^ k) := by
  have hpos : 0 < 2 ^ k := Nat.pos_pow_of_pos k (by norm_num)
  constructor
  · intro debug ops hops hw hres
    have hinv := BumpAllocator.run_Inv ops _ (BumpAllocator.create_Inv heap heap_size debug h)
      hops
    have ha := BumpAllocator.alloc_noWrap hinv sizeofT (2 ^ k) num_objects hw
    have hh := BumpAllocator.alloc_heap ((BumpAllocator.create heap heap_size debug).run ops)
      sizeofT (2 ^ k) num_objects
    obtain ⟨_, h2, h3, h4, h5⟩ := hinv
    have hb := BumpAllocator.align_pointer_bounds
      ((BumpAllocator.create heap heap_size debug).run ops).next (2 ^ k) hpos
      (by have := hw.2; omega)
    rcases ha with ⟨hn, _, _⟩ | ⟨a, _, ha2, h6, h7, h8⟩
    · rw [hn] at hres
      simp at hres
    · rw [← ha2] at hb
      rw [BumpAllocator.remaining_memory, BumpAllocator.remaining_memory, hh.2, h8, h2,
        wsub_eq_sub (by omega) h5, wsub_eq_sub h4 h5]
      omega
  · intro ops hops hw hres
    have hinv := BumpAllocatorDownwards.down_run_Inv ops _
      (BumpAllocatorDownwards.down_create_Inv heap heap_size h) hops
    have ha := BumpAllocatorDownwards.down_alloc_noWrap hinv sizeofT (2 ^ k) num_objects hw
    have hh := BumpAllocatorDownwards.down_alloc_heap
      ((BumpAllocatorDownwards.create heap heap_size).run ops) sizeofT (2 ^ k) num_objects
    obtain ⟨h1, _, h3, h4, h5⟩ := hinv
    have hreq : sizeofT * num_objects ≤ heap := hw
    have heq := BumpAllocatorDownwards.down_align_pointer_eq
      (((BumpAllocatorDownwards.create heap heap_size).run ops).next
        - sizeofT * num_objects) (by omega) hk
    have hrem := Nat.mod_lt (((BumpAllocatorDownwards.create heap heap_size).run ops).next
      - sizeofT * num_objects) hpos
    rcases ha with ⟨hn, _, _⟩ | ⟨a, _, ha2, h6, h7, h8⟩
    · rw [hn] at hres
      simp at hres
    · rw [← ha2] at heq
      rw [BumpAllocatorDownwards.remaining_memory, BumpAllocatorDownwards.remaining_memory,
        hh.1, h8, h1, wsub_eq_sub h6 (by omega), wsub_eq_sub h3 (by omega)]
      omega

/-- C27: on a fresh 16-byte arena at address 4096, `alloc<int>(2^62 + 1)` succeeds in both
arenas and lowers `remaining_memory()` from 16 to 12, by 4 bytes, although `2^64 + 4` bytes
were required; `alloc<char>(2^64 - 1)` succeeds and raises `remaining_memory()` to 17. -/
theorem padding_bound_fails_on_wrap :
    ((BumpAllocator.create 4096 16 false).remaining_memory = 16
      ∧ ((BumpAllocator.create 4096 16 false).alloc 4 4 4611686018427387905).1 = some 4096
      ∧ ((BumpAllocator.create 4096 16 false).alloc 4 4
          4611686018427387905).2.remaining_memory = 12
      ∧ ¬ (4 * 4611686018427387905 ≤ 16 - 12)
      ∧ ((BumpAllocator.create 4096 16 false).alloc 1 1 18446744073709551615).1 = some 4096
      ∧ ((BumpAllocator.create 4096 16 false).alloc 1 1
          18446744073709551615).2.remaining_memory = 17)
    ∧ ((BumpAllocatorDownwards.create 4096 16).remaining_memory = 16
      ∧ ((BumpAllocatorDownwards.create 4096 16).alloc 4 4 4611686018427387905).1
          = some 4108
      ∧ ((BumpAllocatorDownwards.create 4096 16).alloc 4 4
          4611686018427387905).2.remaining_memory = 12
      ∧ ((BumpAllocatorDownwards.create 4096 16).alloc 1 1 18446744073709551615).1
          = some 4113
      ∧ ((BumpAllocatorDownwards.create 4096 16).alloc 1 1
          18446744073709551615).2.remaining_memory = 17) := by
  decide

/-! ## C29: success through wrap-around -/

/-- C29: `alloc` does succeed through wrap-around. On a fresh 16-byte arena at address 4096
(`remaining_memory() == 16`) `alloc<char>(2^64 - 1)` succeeds in both arenas although the
exact product `1 * (2^64 - 1)` exceeds 16, and afterwards the forward cursor is 4095, below
the base, and the backward cursor is 4113, above the limit 4112. `alloc<int>(2^62)`, whose
exact product is `2^64`, succeeds as well. -/
theorem alloc_succeeds_through_wrap :
    ((BumpAllocator.create 4096 16 false).remaining_memory = 16
      ∧ ((BumpAllocator.create 4096 16 false).alloc 1 1 18446744073709551615).1 = some 4096
      ∧ ¬ (1 * 18446744073709551615 ≤ (BumpAllocator.create 4096 16 false).remaining_memory)
      ∧ ((BumpAllocator.create 4096 16 false).alloc 1 1 18446744073709551615).2.next = 4095
      ∧ ¬ ((BumpAllocator.create 4096 16 false).heap ≤ 4095)
      ∧ ((BumpAllocator.create 4096 16 false).alloc 4 4 4611686018427387904).1 = some 4096
      ∧ ¬ (4 * 4611686018427387904 ≤ (BumpAllocator.create 4096 16 false).remaining_memory))
    ∧ ((BumpAllocatorDownwards.create 4096 16).remaining_memory = 16
      ∧ ((BumpAllocatorDownwards.create 4096 16).alloc 1 1 18446744073709551615).1
          = some 4113
      ∧ ¬ (1 * 18446744073709551615
          ≤ (BumpAllocatorDownwards.create 4096 16).remaining_memory)
      ∧ ((BumpAllocatorDownwards.create 4096 16).alloc 1 1 18446744073709551615).2.next
          = 4113
      ∧ ¬ (4113 ≤ (BumpAllocatorDownwards.create 4096 16).heap_end)
      ∧ ((BumpAllocatorDownwards.create 4096 16).alloc 4 4 4611686018427387904).1
          = some 4112
      ∧ ¬ (4 * 4611686018427387904
          ≤ (BumpAllocatorDownwards.create 4096 16).remaining_memory)) := by
  decide

/-! ## C28: forward against backward arena with both ends aligned -/

/-- C28: the two arenas disagree on a request larger than the cursor address. Fresh 16-byte
arenas at address 4096 (base and limit are multiples of the alignment 1 of `char`):
`alloc<char>(5000)` fails on the forward arena and succeeds on the backward arena, which
returns `2^64 - 888`; afterwards `allocation_count` is 0 forward and 1 backward. The same
happens at address `2^40` with `alloc<char>(2^41)`. -/
theorem arenas_disagree_on_wrap :
    (((BumpAllocator.create 4096 16 false).alloc 1 1 5000).1 = none
      ∧ ((BumpAllocatorDownwards.create 4096 16).alloc 1 1 5000).1
          = some 18446744073709550728
      ∧ ((BumpAllocator.create 4096 16 false).alloc 1 1 5000).2.allocation_count = 0
      ∧ ((BumpAllocatorDownwards.create 4096 16).alloc 1 1 5000).2.allocation_count = 1
      ∧ ((BumpAllocator.create 4096 16 false).alloc 1 1 5000).2.remaining_memory = 16
      ∧ ((BumpAllocatorDownwards.create 4096 16).alloc 1 1 5000).2.remaining_memory
          = 18446744073709546632)
    ∧ (((BumpAllocator.create 1099511627776 16 false).alloc 1 1 2199023255552).1 = none
      ∧ ((BumpAllocatorDownwards.create 1099511627776 16).alloc 1 1 2199023255552).1
          = some 18446742974197923856) := by
  decide

theorem BumpAllocator.dealloc_count_next (s : BumpAllocator) :
    s.dealloc.allocation_count
        = (if s.allocation_count > 0 then wsub s.allocation_count 1 else s.allocation_count)
      ∧ (s.dealloc.allocation_count = 0 → s.dealloc.next = s.heap) := by
  by_cases h0 : s.allocation_count > 0
  · by_cases h1 : wsub s.allocation_count 1 = 0
    · simp [BumpAllocator.dealloc, h0, h1]
    · simp [BumpAllocator.dealloc, h0, h1]
  · have hz : s.allocation_count = 0 := by omega
    simp [BumpAllocator.dealloc, hz]

theorem BumpAllocatorDownwards.down_dealloc_count_next (s : BumpAllocatorDownwards) :
    s.dealloc.allocation_count
        = (if s.allocation_count > 0 then wsub s.allocation_count 1 else s.allocation_count)
      ∧ (s.dealloc.allocation_count = 0 → s.dealloc.next = s.heap_end) := by
  by_cases h0 : s.allocation_count > 0
  · by_cases h1 : wsub s.allocation_count 1 = 0
    · simp [BumpAllocatorDownwards.dealloc, h0, h1]
    · simp [BumpAllocatorDownwards.dealloc, h0, h1]
  · have hz : s.allocation_count = 0 := by omega
    simp [BumpAllocatorDownwards.dealloc, hz]

/-- With base and limit multiples of the alignment and the byte count a multiple of it, the
block the forward arena places after `u` used bytes and the block the backward arena places
before `u` used bytes mirror each other. -/
theorem mirrored_blocks (a base limit fnext dnext r A B : Nat)
    (hb : a ∣ base) (hl : a ∣ limit) (hr : a ∣ r)
    (hsum : fnext + dnext = base + limit) (hrd : r ≤ dnext)
    (hA : A % a = 0) (hA1 : fnext ≤ A) (hA2 : A < fnext + a)
    (hB : B % a = 0) (hB1 : B ≤ dnext - r) (hB2 : dnext - r < B + a) :
    (A + r ≤ limit ↔ base ≤ B) ∧ (A + r ≤ limit → A + r + B = base + limit) := by
  have hAd : a ∣ A := Nat.dvd_of_mod_eq_zero hA
  have hBd : a ∣ B := Nat.dvd_of_mod_eq_zero hB
  have key : A + r ≤ limit → A + r + B = base + limit := by
    intro hfit
    have hd : a ∣ (base + limit) - (A + r) :=
      Nat.dvd_sub' (Nat.dvd_add hb hl) (Nat.dvd_add hAd hr)
    have hm : ((base + limit) - (A + r)) % a = 0 := Nat.mod_eq_zero_of_dvd hd
    have h1 := multiple_ge_of_window a (dnext - r) B ((base + limit) - (A + r)) hB hB2 hm
      (by omega)
    have h2 := multiple_ge_of_window a (dnext - r) ((base + limit) - (A + r)) B hm
      (by omega) hB hB1
    omega
  refine ⟨⟨fun hfit => ?_, fun hge => ?_⟩, key⟩
  · have := key hfit
    omega
  · have hd : a ∣ (base + limit) - (r + B) :=
      Nat.dvd_sub' (Nat.dvd_add hb hl) (Nat.dvd_add hr hBd)
    have hm : ((base + limit) - (r + B)) % a = 0 := Nat.mod_eq_zero_of_dvd hd
    have h1 := multiple_le_of_window a fnext A ((base + limit) - (r + B)) hA hA2 hm
      (by omega)
    omega

theorem BumpAllocator.alloc_counters (s : BumpAllocator) (sizeofT alignofT num_objects : Nat) :
    ((s.alloc sizeofT alignofT num_objects).1 = none →
      (s.alloc sizeofT alignofT num_objects).2.allocation_count = s.allocation_count
        ∧ (s.alloc sizeofT alignofT num_objects).2.total_allocations = s.total_allocations)
    ∧ (∀ addr, (s.alloc sizeofT alignofT num_objects).1 = some addr →
      (s.alloc sizeofT alignofT num_objects).2.allocation_count = wadd s.allocation_count 1
        ∧ (s.alloc sizeofT alignofT num_objects).2.total_allocations
          = wadd s.total_allocations 1) := by
  rcases BumpAllocator.alloc_cases s sizeofT alignofT num_objects with
    ⟨hn, _, h2, h3⟩ | ⟨⟨a, hsome⟩, h2, h3⟩
  · refine ⟨fun _ => ⟨h2, h3⟩, fun addr h => ?_⟩
    rw [hn] at h
    simp at h
  · refine ⟨fun h => ?_, fun _ _ => ⟨h2, h3⟩⟩
    rw [hsome] at h
    simp at h

theorem BumpAllocatorDownwards.down_alloc_counters (s : BumpAllocatorDownwards)
    (sizeofT alignofT num_objects : Nat) :
    ((s.alloc sizeofT alignofT num_objects).1 = none →
      (s.alloc sizeofT alignofT num_objects).2.allocation_count = s.allocation_count
        ∧ (s.alloc sizeofT alignofT num_objects).2.total_allocations = s.total_allocations)
    ∧ (∀ addr, (s.alloc sizeofT alignofT num_objects).1 = some addr →
      (s.alloc sizeofT alignofT num_objects).2.allocation_count = wadd s.allocation_count 1
        ∧ (s.alloc sizeofT alignofT num_objects).2.total_allocations
          = wadd s.total_allocations 1) := by
  rcases BumpAllocatorDownwards.down_alloc_cases s sizeofT alignofT num_objects with
    ⟨hn, _, h2, h3⟩ | ⟨⟨a, hsome⟩, h2, h3⟩
  · refine ⟨fun _ => ⟨h2, h3⟩, fun addr h => ?_⟩
    rw [hn] at h
    simp at h
  · refine ⟨fun h => ?_, fun _ _ => ⟨h2, h3⟩⟩
    rw [hsome] at h
    simp at h

/-- One call keeps the two arenas mirrored: same outcome, used bytes equal on both sides,
equal counters. -/
theorem arenas_step_agree {base limit : Nat} (f : BumpAllocator) (d : BumpAllocatorDownwards)
    (op : Op) (hf : BumpAllocator.Inv base limit f)
    (hd : BumpAllocatorDownwards.Inv base limit d)
    (hsum : f.next + d.next = base + limit)
    (hc : f.allocation_count = d.allocation_count)
    (ht : f.total_allocations = d.total_allocations)
    (hwf : BumpAllocator.noWrap limit op) (hwd : BumpAllocatorDownwards.noWrap base op)
    (hal : op.alignedFor base limit) :
    (f.step op).1.isSome = (d.step op).1.isSome
      ∧ (f.step op).2.next + (d.step op).2.next = base + limit
      ∧ (f.step op).2.allocation_count = (d.step op).2.allocation_count
      ∧ (f.step op).2.total_allocations = (d.step op).2.total_allocations := by
  cases op with
  | alloc sizeofT alignofT num_objects =>
    obtain ⟨k, hk, rfl, hdsz, hdb, hdl⟩ := hal
    have hpos : 0 < 2 ^ k := Nat.pos_pow_of_pos k (by norm_num)
    have hr : 2 ^ k ∣ sizeofT * num_objects := Dvd.dvd.mul_right hdsz num_objects
    have hreq : sizeofT * num_objects ≤ base := hwd
    have hfa := BumpAllocator.alloc_noWrap hf sizeofT (2 ^ k) num_objects hwf
    have hda := BumpAllocatorDownwards.down_alloc_noWrap hd sizeofT (2 ^ k) num_objects hwd
    have hfc := BumpAllocator.alloc_counters f sizeofT (2 ^ k) num_objects
    have hdc := BumpAllocatorDownwards.down_alloc_counters d sizeofT (2 ^ k) num_objects
    obtain ⟨_, _, f3, f4, f5⟩ := hf
    obtain ⟨_, _, d3, d4, d5⟩ := hd
    have hA := BumpAllocator.align_pointer_mod f.next hk
    have hAb := BumpAllocator.align_pointer_bounds f.next (2 ^ k) hpos
      (by have := hwf.2; omega)
    have hp : d.next - sizeofT * num_objects < WORD := by omega
    have hB := BumpAllocatorDownwards.down_align_pointer_mod
      (d.next - sizeofT * num_objects) hp hk
    have hBe := BumpAllocatorDownwards.down_align_pointer_eq
      (d.next - sizeofT * num_objects) hp hk
    have hBm := Nat.mod_lt (d.next - sizeofT * num_objects) hpos
    have hBl := Nat.mod_le (d.next - sizeofT * num_objects) (2 ^ k)
    have hmir := mirrored_blocks (2 ^ k) base limit f.next d.next (sizeofT * num_objects)
      (BumpAllocator.align_pointer f.next (2 ^ k))
      (BumpAllocatorDownwards.align_pointer (d.next - sizeofT * num_objects) (2 ^ k))
      hdb hdl hr hsum (by omega) hA hAb.1 hAb.2 hB (by rw [hBe]; omega) (by rw [hBe]; omega)
    simp only [BumpAllocator.step, BumpAllocatorDownwards.step]
    rcases hfa with ⟨fn, ffail, fnext⟩ | ⟨a, fs, fa, _, ffit, fnext⟩
    · rcases hda with ⟨dn, dfail, dnext⟩ | ⟨b, ds, db, dge, _, dnext⟩
      · refine ⟨by rw [fn, dn], by rw [fnext, dnext]; exact hsum, ?_, ?_⟩
        · rw [(hfc.1 fn).1, (hdc.1 dn).1, hc]
        · rw [(hfc.1 fn).2, (hdc.1 dn).2, ht]
      · exfalso
        rw [db] at dge
        have := hmir.1.2 dge
        omega
    · rcases hda with ⟨dn, dfail, dnext⟩ | ⟨b, ds, db, dge, _, dnext⟩
      · exfalso
        rw [fa] at ffit
        have := hmir.1.1 ffit
        omega
      · refine ⟨by rw [fs, ds]; rfl, ?_, ?_, ?_⟩
        · rw [fa] at ffit
          have := hmir.2 ffit
          rw [fnext, dnext, fa, db]
          omega
        · rw [(hfc.2 a fs).1, (hdc.2 b ds).1, hc]
        · rw [(hfc.2 a fs).2, (hdc.2 b ds).2, ht]
  | dealloc =>
    have hfd := BumpAllocator.dealloc_count_next f
    have hdd := BumpAllocatorDownwards.down_dealloc_count_next d
    have hfn := BumpAllocator.dealloc_next_of_count_ne_zero f
    have hdn := BumpAllocatorDownwards.down_dealloc_next_of_count_ne_zero d
    have hceq : f.dealloc.allocation_count = d.dealloc.allocation_count := by
      rw [hfd.1, hdd.1, hc]
    obtain ⟨f1, _, _, _, _⟩ := hf
    obtain ⟨_, d2, _, _, _⟩ := hd
    simp only [BumpAllocator.step, BumpAllocatorDownwards.step]
    refine ⟨trivial, ?_, hceq, ?_⟩
    · by_cases h0 : f.dealloc.allocation_count = 0
      · rw [hfd.2 h0, hdd.2 (hceq ▸ h0), f1, d2]
      · rw [hfn h0, hdn (hceq ▸ h0)]
        exact hsum
    · rw [(BumpAllocator.dealloc_total f).1, (BumpAllocatorDownwards.down_dealloc_total d).1, ht]

theorem arenas_run_agree {base limit : Nat} (ops : List Op) :
    ∀ (f : BumpAllocator) (d : BumpAllocatorDownwards),
      BumpAllocator.Inv base limit f → BumpAllocatorDownwards.Inv base limit d →
      f.next + d.next = base + limit →
      f.allocation_count = d.allocation_count →
      f.total_allocations = d.total_allocations →
      (∀ op ∈ ops, BumpAllocator.noWrap limit op ∧ BumpAllocatorDownwards.noWrap base op
        ∧ op.alignedFor base limit) →
      (f.results ops).map Option.isSome = (d.results ops).map Option.isSome
        ∧ (f.run ops).remaining_memory = (d.run ops).remaining_memory
        ∧ (f.run ops).allocation_count = (d.run ops).allocation_count
        ∧ (f.run ops).total_allocations = (d.run ops).total_allocations := by
  induction ops with
  | nil =>
    intro f d hf hd hsum hc ht _
    obtain ⟨_, f2, f3, f4, f5⟩ := hf
    obtain ⟨d1, _, d3, d4, d5⟩ := hd
    refine ⟨rfl, ?_, hc, ht⟩
    simp only [BumpAllocator.run, BumpAllocatorDownwards.run, BumpAllocator.remaining_memory,
      BumpAllocatorDownwards.remaining_memory]
    rw [f2, d1, wsub_eq_sub f4 f5, wsub_eq_sub d3 (by omega)]
    omega
  | cons op ops ih =>
    intro f d hf hd hsum hc ht hall
    obtain ⟨hwf, hwd, hal⟩ := hall op (List.mem_cons_self _ _)
    have hstep := arenas_step_agree f d op hf hd hsum hc ht hwf hwd hal
    have hf2 := BumpAllocator.step_Inv hf op hwf
    have hd2 := BumpAllocatorDownwards.down_step_Inv hd op hwd
    have hrec := ih (f.step op).2 (d.step op).2 hf2 hd2 hstep.2.1 hstep.2.2.1 hstep.2.2.2
      (fun o ho => hall o (List.mem_cons_of_mem _ ho))
    simp only [BumpAllocator.results, BumpAllocatorDownwards.results, BumpAllocator.run,
      BumpAllocatorDownwards.run, List.map_cons]
    exact ⟨by rw [hstep.1, hrec.1], hrec.2.1, hrec.2.2.1, hrec.2.2.2⟩

/-- Both arenas on calls that do not wrap, with base and limit multiples of every alignment
used and every element size a multiple of its power-of-two alignment: the forward and the
backward arena succeed and fail on the same calls and end with equal `remaining_memory()`,
`allocation_count` and `total_allocations`. -/
theorem arenas_agree_of_noWrap (heap heap_size : Nat) (h : heap + heap_size < WORD)
    (debug : Bool) (ops : List Op)
    (hall : ∀ op ∈ ops, BumpAllocator.noWrap (heap + heap_size) op
      ∧ BumpAllocatorDownwards.noWrap heap op ∧ op.alignedFor heap (heap + heap_size)) :
    ((BumpAllocator.create heap heap_size debug).results ops).map Option.isSome
        = ((BumpAllocatorDownwards.create heap heap_size).results ops).map Option.isSome
      ∧ ((BumpAllocator.create heap heap_size debug).run ops).remaining_memory
        = ((BumpAllocatorDownwards.create heap heap_size).run ops).remaining_memory
      ∧ ((BumpAllocator.create heap heap_size debug).run ops).allocation_count
        = ((BumpAllocatorDownwards.create heap heap_size).run ops).allocation_count
      ∧ ((BumpAllocator.create heap heap_size debug).run ops).total_allocations
        = ((BumpAllocatorDownwards.create heap heap_size).run ops).total_allocations := by
  have hadd : wadd heap heap_size = heap + heap_size := wadd_eq_add h
  exact arenas_run_agree ops (BumpAllocator.create heap heap_size debug)
    (BumpAllocatorDownwards.create heap heap_size)
    (BumpAllocator.create_Inv heap heap_size debug h)
    (BumpAllocatorDownwards.down_create_Inv heap heap_size h)
    (by show heap + wadd heap heap_size = heap + (heap + heap_size); rw [hadd])
    rfl rfl hall

/-! ## C24: bounds-checked character access of `my_string` -/

theorem Worksheet1.strlen_le_length (buf : List Char) : Worksheet1.strlen buf ≤ buf.length :=
  (List.takeWhile_sublist (fun c => c != Worksheet1.NUL)).length_le

/-- C24: `my_string` of Task1 and of Task3, every heap, index `i` and character `c`. For the
null string `getChar(i)` returns `NUL` and `setChar(i, c)` changes nothing. For a string with
live buffer `buf`: when `i < 0` or `i >= strlen(buf)` (in particular for the empty string)
`getChar(i)` returns `NUL` and `setChar(i, c)` changes nothing; when `0 <= i < strlen(buf)`
`getChar(i)` returns the character at index `i` of the buffer. -/
theorem getChar_setChar_bounds (chars : Nat → Option (List Char)) (i : Int) (c : Char) :
    ((∀ o : Worksheet1.Task1.my_string, o.str = none →
        o.getChar chars i = some Worksheet1.NUL ∧ o.setChar chars i c = some chars)
      ∧ (∀ (o : Worksheet1.Task1.my_string) (a : Nat) (buf : List Char),
        o.str = some a → chars a = some buf →
        ((i < 0 ∨ (Worksheet1.strlen buf : Int) ≤ i) →
          o.getChar chars i = some Worksheet1.NUL ∧ o.setChar chars i c = some chars)
        ∧ (0 ≤ i → i < (Worksheet1.strlen buf : Int) →
          i.toNat < buf.length
            ∧ o.getChar chars i = some (buf.getD i.toNat Worksheet1.NUL))))
    ∧ ((∀ o : Worksheet1.Task3.my_string, o.str = none →
        o.getChar chars i = some Worksheet1.NUL ∧ o.setChar chars i c = some chars)
      ∧ (∀ (o : Worksheet1.Task3.my_string) (a : Nat) (buf : List Char),
        o.str = some a → chars a = some buf →
        ((i < 0 ∨ (Worksheet1.strlen buf : Int) ≤ i) →
          o.getChar chars i = some Worksheet1.NUL ∧ o.setChar chars i c = some chars)
        ∧ (0 ≤ i → i < (Worksheet1.strlen buf : Int) →
          i.toNat < buf.length
            ∧ o.getChar chars i = some (buf.getD i.toNat Worksheet1.NUL)))) := by
  refine ⟨⟨?_, ?_⟩, ⟨?_, ?_⟩⟩
  · intro o hn
    simp [Worksheet1.Task1.my_string.getChar, Worksheet1.Task1.my_string.setChar, hn]
  · intro o a buf hs hb
    have hlen := Worksheet1.strlen_le_length buf
    refine ⟨fun hout => ?_, fun h0 hlt => ?_⟩
    · by_cases h0 : 0 ≤ i
      · have hnot : ¬ i.toNat < Worksheet1.strlen buf := by omega
        simp [Worksheet1.Task1.my_string.getChar, Worksheet1.Task1.my_string.setChar, hs, hb,
          h0, hnot]
      · simp [Worksheet1.Task1.my_string.getChar, Worksheet1.Task1.my_string.setChar, hs, h0]
    · have hin : i.toNat < Worksheet1.strlen buf := by omega
      refine ⟨by omega, ?_⟩
      simp [Worksheet1.Task1.my_string.getChar, hs, hb, h0, hin]
  · intro o hn
    simp [Worksheet1.Task3.my_string.getChar, Worksheet1.Task3.my_string.setChar, hn]
  · intro o a buf hs hb
    have hlen := Worksheet1.strlen_le_length buf
    refine ⟨fun hout => ?_, fun h0 hlt => ?_⟩
    · by_cases h0 : 0 ≤ i
      · have hnot : ¬ i.toNat < Worksheet1.strlen buf := by omega
        simp [Worksheet1.Task3.my_string.getChar, Worksheet1.Task3.my_string.setChar, hs, hb,
          h0, hnot]
      · simp [Worksheet1.Task3.my_string.getChar, Worksheet1.Task3.my_string.setChar, hs, h0]
    · have hin : i.toNat < Worksheet1.strlen buf := by omega
      refine ⟨by omega, ?_⟩
      simp [Worksheet1.Task3.my_string.getChar, hs, hb, h0, hin]

/-! ## C23: the reference count of `my_string` (Task3) -/

namespace Worksheet1.Task3

theorem Store.handles_cons (w w1 : Store) (x : Nat) (o : my_string)
    (hl : w1.live = x :: w.live)
    (ho : w1.objs = fun z => if z = x then o else w.objs z) (hx : x ∉ w.live) (rc : Nat) :
    w1.handles rc = w.handles rc + (if o.ref_count = some rc then 1 else 0) := by
  unfold Store.handles
  rw [hl, ho, List.countP_cons]
  have hcongr : List.countP
      (fun y => decide (((fun z => if z = x then o else w.objs z) y).ref_count = some rc))
      w.live
      = List.countP (fun y => decide ((w.objs y).ref_count = some rc)) w.live := by
    apply List.countP_congr
    intro y hy
    have hne : y ≠ x := fun h => hx (h ▸ hy)
    simp [hne]
  rw [hcongr]
  simp

theorem Store.handles_erase (w w1 : Store) (x : Nat) (hl : w1.live = w.live.erase x)
    (ho : w1.objs = w.objs) (hx : x ∈ w.live) (rc : Nat) :
    w1.handles rc + (if (w.objs x).ref_count = some rc then 1 else 0) = w.handles rc := by
  unfold Store.handles
  rw [hl, ho, List.Perm.countP_eq _ (List.perm_cons_erase hx), List.countP_cons]
  simp

theorem Store.handles_perm (w w1 : Store) (hl : w1.live.Perm w.live) (ho : w1.objs = w.objs)
    (rc : Nat) : w1.handles rc = w.handles rc := by
  unfold Store.handles
  rw [ho]
  exact List.Perm.countP_eq _ hl

theorem Store.handles_le_length (w : Store) (rc : Nat) : w.handles rc ≤ w.live.length :=
  List.countP_le_length _

theorem Store.handles_pos (w : Store) (x rc : Nat) (hx : x ∈ w.live)
    (hr : (w.objs x).ref_count = some rc) : 0 < w.handles rc := by
  unfold Store.handles
  rw [List.countP_pos_iff]
  exact ⟨x, hx, by simp [hr]⟩

theorem Store.handles_eq_zero (w : Store) (rc : Nat)
    (h : ∀ x ∈ w.live, (w.objs x).ref_count ≠ some rc) : w.handles rc = 0 := by
  unfold Store.handles
  rw [List.countP_eq_zero]
  intro x hx
  simp [h x hx]

theorem Store.handles_fresh (w : Store) (hw : w.Inv) (rc : Nat) (hrc : w.fresh ≤ rc) :
    w.handles rc = 0 := by
  apply Store.handles_eq_zero
  intro x hx hr
  obtain ⟨a, _, _, hlt, _⟩ := hw.2.2.1 x hx rc hr
  omega

theorem Store.construct_Inv (w : Store) (hw : w.Inv) (x : Nat) (s : Option (List Char))
    (hx : x ∉ w.live) : (w.construct x s).Inv := by
  obtain ⟨i1, i2, i3, i4, i5⟩ := hw
  cases s with
  | none =>
    have hh : ∀ rc, (w.construct x none).handles rc = w.handles rc := by
      intro rc
      have := Store.handles_cons w (w.construct x none) x { str := none, ref_count := none }
        rfl rfl hx rc
      simpa using this
    refine ⟨List.nodup_cons.mpr ⟨hx, i1⟩, ?_, ?_, ?_, ?_⟩
    · intro rc
      rw [hh rc]
      exact i2 rc
    · intro y hy rc hr
      rcases List.mem_cons.mp hy with rfl | hy
      · simp [Store.construct] at hr
      · have hne : y ≠ x := fun h => hx (h ▸ hy)
        simp only [Store.construct, hne, if_false] at hr ⊢
        exact i3 y hy rc hr
    · intro y hy hr
      rcases List.mem_cons.mp hy with rfl | hy
      · simp [Store.construct]
      · have hne : y ≠ x := fun h => hx (h ▸ hy)
        simp only [Store.construct, hne, if_false] at hr ⊢
        exact i4 y hy hr
    · intro a buf hb
      rw [hh]
      exact i5 a buf hb
  | some cs =>
    have hh : ∀ rc, (w.construct x (some cs)).handles rc
        = w.handles rc + (if rc = w.fresh + 1 then 1 else 0) := by
      intro rc
      have := Store.handles_cons w (w.construct x (some cs)) x
        { str := some w.fresh, ref_count := some (w.fresh + 1) } rfl rfl hx rc
      rw [this]
      by_cases hrc : rc = w.fresh + 1
      · simp [hrc]
      · have hrc2 : ¬ (w.fresh + 1 = rc) := fun h => hrc h.symm
        simp [hrc, hrc2]
    have hfresh : w.handles (w.fresh + 1) = 0 :=
      Store.handles_fresh w ⟨i1, i2, i3, i4, i5⟩ _ (by omega)
    refine ⟨List.nodup_cons.mpr ⟨hx, i1⟩, ?_, ?_, ?_, ?_⟩
    · intro rc
      rw [hh rc]
      by_cases hrc : rc = w.fresh + 1
      · subst hrc
        simp [Store.construct, hfresh]
      · simp only [Store.construct, hrc, if_false, Nat.add_zero]
        exact i2 rc
    · intro y hy rc hr
      rcases List.mem_cons.mp hy with rfl | hy
      · simp only [Store.construct, if_true] at hr ⊢
        have hrc : w.fresh + 1 = rc := by simpa using hr
        exact ⟨w.fresh, rfl, hrc.symm, by omega, _, if_pos rfl⟩
      · have hne : y ≠ x := fun h => hx (h ▸ hy)
        simp only [Store.construct, hne, if_false] at hr ⊢
        obtain ⟨a, h1, h2, h3, buf, h4⟩ := i3 y hy rc hr
        have hane : a ≠ w.fresh := by omega
        exact ⟨a, h1, h2, by omega, buf, by simp [hane, h4]⟩
    · intro y hy hr
      rcases List.mem_cons.mp hy with rfl | hy
      · simp [Store.construct] at hr
      · have hne : y ≠ x := fun h => hx (h ▸ hy)
        simp only [Store.construct, hne, if_false] at hr ⊢
        exact i4 y hy hr
    · intro a buf hb
      rw [hh]
      by_cases ha : a = w.fresh
      · subst ha
        simp
      · simp only [Store.construct, ha, if_false] at hb
        have := i5 a buf hb
        omega

theorem Store.ints_of_handle (w : Store) (hw : w.Inv) (x rc : Nat) (hx : x ∈ w.live)
    (hr : (w.objs x).ref_count = some rc) :
    w.ints rc = some (w.handles rc : Int) ∧ 0 < w.handles rc := by
  have hpos := Store.handles_pos w x rc hx hr
  have h2 := hw.2.1 rc
  have hne : w.handles rc ≠ 0 := by omega
  rw [if_neg hne] at h2
  exact ⟨h2, hpos⟩

theorem Store.copy_construct_Inv (w : Store) (hw : w.Inv) (x y : Nat) (hx : x ∉ w.live)
    (hy : y ∈ w.live) (hroom : w.room w.live (w.objs y).ref_count) :
    ∃ w1, w.copy_construct x y = some w1 ∧ w1.Inv ∧ w1.live = x :: w.live := by
  obtain ⟨i1, i2, i3, i4, i5⟩ := hw
  cases hr : (w.objs y).ref_count with
  | none =>
    refine ⟨{ w with
      objs := fun z => if z = x then w.objs y else w.objs z
      live := x :: w.live }, by simp [Store.copy_construct, hr], ?_, rfl⟩
    have hh : ∀ rc, Store.handles { w with
        objs := fun z => if z = x then w.objs y else w.objs z
        live := x :: w.live } rc = w.handles rc := by
      intro rc
      have := Store.handles_cons w { w with
        objs := fun z => if z = x then w.objs y else w.objs z
        live := x :: w.live } x (w.objs y) rfl rfl hx rc
      rw [this, hr]
      simp
    refine ⟨List.nodup_cons.mpr ⟨hx, i1⟩, ?_, ?_, ?_, ?_⟩
    · intro rc
      rw [hh rc]
      exact i2 rc
    · intro z hz rc hrz
      rcases List.mem_cons.mp hz with rfl | hz
      · simp only [if_true] at hrz ⊢
        exact i3 y hy rc hrz
      · have hne : z ≠ x := fun h => hx (h ▸ hz)
        simp only [hne, if_false] at hrz ⊢
        exact i3 z hz rc hrz
    · intro z hz hrz
      rcases List.mem_cons.mp hz with rfl | hz
      · simp only [if_true] at hrz ⊢
        exact i4 y hy hrz
      · have hne : z ≠ x := fun h => hx (h ▸ hz)
        simp only [hne, if_false] at hrz ⊢
        exact i4 z hz hrz
    · intro a buf hb
      rw [hh]
      exact i5 a buf hb
  | some rc0 =>
    obtain ⟨hint, hpos⟩ := Store.ints_of_handle w ⟨i1, i2, i3, i4, i5⟩ y rc0 hy hr
    have hle : w.handles rc0 < 2147483647 := by
      rw [hr] at hroom
      exact hroom
    have hmax : ¬ ((w.handles rc0 : Int) = INT_MAX) := by
      unfold INT_MAX
      omega
    refine ⟨{ w with
      ints := fun c => if c = rc0 then some ((w.handles rc0 : Int) + 1) else w.ints c
      objs := fun z => if z = x then w.objs y else w.objs z
      live := x :: w.live }, by simp [Store.copy_construct, hr, hint, hmax], ?_, rfl⟩
    have hh : ∀ rc, Store.handles { w with
        ints := fun c => if c = rc0 then some ((w.handles rc0 : Int) + 1) else w.ints c
        objs := fun z => if z = x then w.objs y else w.objs z
        live := x :: w.live } rc = w.handles rc + (if rc = rc0 then 1 else 0) := by
      intro rc
      have := Store.handles_cons w { w with
        ints := fun c => if c = rc0 then some ((w.handles rc0 : Int) + 1) else w.ints c
        objs := fun z => if z = x then w.objs y else w.objs z
        live := x :: w.live } x (w.objs y) rfl rfl hx rc
      rw [this, hr]
      by_cases hrc : rc = rc0
      · simp [hrc]
      · have hrc2 : ¬ (rc0 = rc) := fun h => hrc h.symm
        simp [hrc, hrc2]
    refine ⟨List.nodup_cons.mpr ⟨hx, i1⟩, ?_, ?_, ?_, ?_⟩
    · intro rc
      rw [hh rc]
      by_cases hrc : rc = rc0
      · subst hrc
        simp
      · simp only [hrc, if_false, Nat.add_zero]
        exact i2 rc
    · intro z hz rc hrz
      rcases List.mem_cons.mp hz with rfl | hz
      · simp only [if_true] at hrz ⊢
        exact i3 y hy rc hrz
      · have hne : z ≠ x := fun h => hx (h ▸ hz)
        simp only [hne, if_false] at hrz ⊢
        exact i3 z hz rc hrz
    · intro z hz hrz
      rcases List.mem_cons.mp hz with rfl | hz
      · simp only [if_true] at hrz ⊢
        exact i4 y hy hrz
      · have hne : z ≠ x := fun h => hx (h ▸ hz)
        simp only [hne, if_false] at hrz ⊢
        exact i4 z hz hrz
    · intro a buf hb
      rw [hh]
      have := i5 a buf hb
      omega

/-- For a live object `release()` is defined, touches neither the objects nor the names, and
once the object is taken off the live names the invariant holds again. -/
theorem Store.release_Inv (w : Store) (hw : w.Inv) (x : Nat) (hx : x ∈ w.live) :
    ∃ r, w.release x = some r ∧ r.live = w.live ∧ r.objs = w.objs
      ∧ Store.Inv { r with live := r.live.erase x } := by
  obtain ⟨i1, i2, i3, i4, i5⟩ := hw
  have hmem : ∀ z, z ∈ w.live.erase x → z ≠ x ∧ z ∈ w.live := fun z hz =>
    (List.Nodup.mem_erase_iff i1).mp hz
  cases hr : (w.objs x).ref_count with
  | none =>
    refine ⟨w, by simp [Store.release, hr], rfl, rfl, ?_⟩
    have hh : ∀ rc, Store.handles { w with live := w.live.erase x } rc = w.handles rc := by
      intro rc
      have := Store.handles_erase w { w with live := w.live.erase x } x rfl rfl hx rc
      rw [hr] at this
      simpa using this
    refine ⟨List.Nodup.erase x i1, ?_, ?_, ?_, ?_⟩
    · intro rc
      rw [hh rc]
      exact i2 rc
    · intro z hz rc hrz
      exact i3 z (hmem z hz).2 rc hrz
    · intro z hz hrz
      exact i4 z (hmem z hz).2 hrz
    · intro a buf hb
      rw [hh]
      exact i5 a buf hb
  | some rc0 =>
    obtain ⟨hint, hpos⟩ := Store.ints_of_handle w ⟨i1, i2, i3, i4, i5⟩ x rc0 hx hr
    obtain ⟨a, hstr, hrc0, hlt, buf, hbuf⟩ := i3 x hx rc0 hr
    have hmin : ¬ ((w.handles rc0 : Int) = INT_MIN) := by
      unfold INT_MIN
      omega
    by_cases hone : (w.handles rc0 : Int) - 1 = 0
    · refine ⟨{ w with
        cout := w.cout ++ [cstring buf ++ " [" ++ toString ((w.handles rc0 : Int) - 1) ++ "]"]
        chars := fun b => if b = a then none else w.chars b
        ints := fun c => if c = rc0 then none else w.ints c },
        by simp [Store.release, hr, hint, hmin, hone, hstr, hbuf], rfl, rfl, ?_⟩
      have hh : ∀ rc, Store.handles { w with
          cout := w.cout
            ++ [cstring buf ++ " [" ++ toString ((w.handles rc0 : Int) - 1) ++ "]"]
          chars := fun b => if b = a then none else w.chars b
          ints := fun c => if c = rc0 then none else w.ints c
          live := w.live.erase x } rc + (if rc = rc0 then 1 else 0) = w.handles rc := by
        intro rc
        have := Store.handles_erase w { w with
          cout := w.cout
            ++ [cstring buf ++ " [" ++ toString ((w.handles rc0 : Int) - 1) ++ "]"]
          chars := fun b => if b = a then none else w.chars b
          ints := fun c => if c = rc0 then none else w.ints c
          live := w.live.erase x } x rfl rfl hx rc
        rw [hr] at this
        rw [← this]
        by_cases hrc : rc = rc0
        · simp [hrc]
        · have hrc2 : ¬ (rc0 = rc) := fun h => hrc h.symm
          simp [hrc, hrc2]
      have hzero := hh rc0
      simp only [if_true] at hzero
      refine ⟨List.Nodup.erase x i1, ?_, ?_, ?_, ?_⟩
      · intro rc
        have := hh rc
        by_cases hrc : rc = rc0
        · subst hrc
          have h0 : Store.handles { w with
              cout := w.cout
                ++ [cstring buf ++ " [" ++ toString ((w.handles rc : Int) - 1) ++ "]"]
              chars := fun b => if b = a then none else w.chars b
              ints := fun c => if c = rc then none else w.ints c
              live := w.live.erase x } rc = 0 := by omega
          rw [h0]
          simp
        · simp only [hrc, if_false, Nat.add_zero] at this ⊢
          rw [this]
          exact i2 rc
      · intro z hz rc hrz
        have hne : rc ≠ rc0 := by
          intro hrc
          subst hrc
          have hp := Store.handles_pos { w with
            cout := w.cout
              ++ [cstring buf ++ " [" ++ toString ((w.handles rc : Int) - 1) ++ "]"]
            chars := fun b => if b = a then none else w.chars b
            ints := fun c => if c = rc then none else w.ints c
            live := w.live.erase x } z rc hz hrz
          omega
        obtain ⟨a1, h1, h2, h3, buf1, h4⟩ := i3 z (hmem z hz).2 rc hrz
        have hane : a1 ≠ a := by omega
        exact ⟨a1, h1, h2, h3, buf1, by simp [hane, h4]⟩
      · intro z hz hrz
        exact i4 z (hmem z hz).2 hrz
      · intro a1 buf1 hb
        by_cases ha : a1 = a
        · simp [ha] at hb
        · simp only [ha, if_false] at hb
          have h5 := i5 a1 buf1 hb
          have h6 := hh (a1 + 1)
          have hne : ¬ (a1 + 1 = rc0) := by omega
          simp only [hne, if_false, Nat.add_zero] at h6
          rw [h6]
          exact h5
    · refine ⟨{ w with
        ints := fun c => if c = rc0 then some ((w.handles rc0 : Int) - 1) else w.ints c },
        by simp [Store.release, hr, hint, hmin, hone], rfl, rfl, ?_⟩
      have hh : ∀ rc, Store.handles { w with
          ints := fun c => if c = rc0 then some ((w.handles rc0 : Int) - 1) else w.ints c
          live := w.live.erase x } rc + (if rc = rc0 then 1 else 0) = w.handles rc := by
        intro rc
        have := Store.handles_erase w { w with
          ints := fun c => if c = rc0 then some ((w.handles rc0 : Int) - 1) else w.ints c
          live := w.live.erase x } x rfl rfl hx rc
        rw [hr] at this
        rw [← this]
        by_cases hrc : rc = rc0
        · simp [hrc]
        · have hrc2 : ¬ (rc0 = rc) := fun h => hrc h.symm
          simp [hrc, hrc2]
      refine ⟨List.Nodup.erase x i1, ?_, ?_, ?_, ?_⟩
      · intro rc
        have := hh rc
        by_cases hrc : rc = rc0
        · subst hrc
          simp only [if_true] at this ⊢
          have hne : Store.handles { w with
              ints := fun c => if c = rc then some ((w.handles rc : Int) - 1) else w.ints c
              live := w.live.erase x } rc ≠ 0 := by omega
          rw [if_neg hne]
          congr 1
          omega
        · simp only [hrc, if_false, Nat.add_zero] at this ⊢
          rw [this]
          exact i2 rc
      · intro z hz rc hrz
        exact i3 z (hmem z hz).2 rc hrz
      · intro z hz hrz
        exact i4 z (hmem z hz).2 hrz
      · intro a1 buf1 hb
        have h5 := i5 a1 buf1 hb
        have h6 := hh (a1 + 1)
        by_cases hrc : a1 + 1 = rc0
        · simp only [hrc, if_true] at h6
          rw [hrc] at h5 ⊢
          have h7 : Store.handles { w with
              ints := fun c => if c = rc0 then some ((w.handles rc0 : Int) - 1) else w.ints c
              live := w.live.erase x } rc0 ≠ 0 := by omega
          exact h7
        · simp only [hrc, if_false, Nat.add_zero] at h6
          rw [h6]
          exact h5

theorem Store.destruct_Inv (w : Store) (hw : w.Inv) (x : Nat) (hx : x ∈ w.live) :
    ∃ w1, w.destruct x = some w1 ∧ w1.Inv ∧ w1.live = w.live.erase x := by
  obtain ⟨r, hrel, hlive, _, hinv⟩ := Store.release_Inv w hw x hx
  refine ⟨{ r with live := r.live.erase x }, by simp [Store.destruct, hrel], hinv, ?_⟩
  show r.live.erase x = w.live.erase x
  rw [hlive]

theorem Store.Inv_perm (w : Store) (hw : w.Inv) (l : List Nat) (hl : l.Perm w.live) :
    Store.Inv { w with live := l } := by
  obtain ⟨i1, i2, i3, i4, i5⟩ := hw
  have hh : ∀ rc, Store.handles { w with live := l } rc = w.handles rc := fun rc =>
    Store.handles_perm w { w with live := l } hl rfl rc
  refine ⟨(List.Perm.nodup_iff hl).mpr i1, ?_, ?_, ?_, ?_⟩
  · intro rc
    rw [hh rc]
    exact i2 rc
  · intro z hz rc hrz
    exact i3 z ((List.Perm.mem_iff hl).mp hz) rc hrz
  · intro z hz hrz
    exact i4 z ((List.Perm.mem_iff hl).mp hz) hrz
  · intro a buf hb
    rw [hh]
    exact i5 a buf hb

theorem Store.assign_Inv (w : Store) (hw : w.Inv) (x y : Nat) (hx : x ∈ w.live)
    (hy : y ∈ w.live) (hroom : x ≠ y → w.room (w.live.erase x) (w.objs y).ref_count) :
    ∃ w1, w.assign x y = some w1 ∧ w1.Inv ∧ w1.live = w.live := by
  by_cases hxy : x = y
  · exact ⟨w, by simp [Store.assign, hxy], hw, rfl⟩
  · have hnodup := hw.1
    obtain ⟨r, hrel, hlive, hobjs, hinv⟩ := Store.release_Inv w hw x hx
    have hx1 : x ∉ r.live.erase x := by
      rw [hlive]
      exact List.Nodup.not_mem_erase hnodup
    have hy1 : y ∈ r.live.erase x := by
      rw [hlive]
      exact (List.mem_erase_of_ne (fun h => hxy h.symm)).mpr hy
    have hroom1 : Store.room { r with live := r.live.erase x } (r.live.erase x)
        (r.objs y).ref_count := by
      have h := hroom hxy
      rw [← hlive, ← hobjs] at h
      cases hr : (r.objs y).ref_count with
      | none => exact trivial
      | some rc =>
        rw [hr] at h
        unfold Store.room at h ⊢
        rw [← hobjs] at h
        exact h
    obtain ⟨w2, hcopy, hinv2, hlive2⟩ :=
      Store.copy_construct_Inv { r with live := r.live.erase x } hinv x y hx1 hy1 hroom1
    have hperm : w.live.Perm w2.live := by
      rw [hlive2]
      show w.live.Perm (x :: r.live.erase x)
      rw [hlive]
      exact List.perm_cons_erase hx
    refine ⟨{ w2 with live := w.live }, ?_, Store.Inv_perm w2 hinv2 w.live hperm, rfl⟩
    simp only [Store.assign, ne_eq, hxy, not_false_eq_true, if_true, hrel]
    simp only [Store.copy_construct] at hcopy
    cases hr : (r.objs y).ref_count with
    | none =>
      simp only [hr] at hcopy ⊢
      simp only [Option.some.injEq] at hcopy
      rw [← hcopy, hlive]
    | some rc =>
      simp only [hr] at hcopy ⊢
      cases hi : r.ints rc with
      | none => simp [hi] at hcopy
      | some n =>
        simp only [hi] at hcopy ⊢
        by_cases hmax : n = INT_MAX
        · simp [hmax] at hcopy
        · simp only [hmax, if_false, Option.some.injEq] at hcopy ⊢
          rw [← hcopy, hlive]

theorem Store.store_step_Inv (w : Store) (hw : w.Inv) (op : SOp) (hok : op.ok w.live)
    (hroom : op.room w) :
    ∃ w1, w.step op = some w1 ∧ w1.Inv ∧ w1.live = op.liveAfter w.live := by
  cases op with
  | construct x s =>
    refine ⟨w.construct x s, rfl, Store.construct_Inv w hw x s hok, ?_⟩
    cases s <;> rfl
  | copy x y => exact Store.copy_construct_Inv w hw x y hok.1 hok.2 hroom
  | assign x y => exact Store.assign_Inv w hw x y hok.1 hok.2 hroom
  | destroy x => exact Store.destruct_Inv w hw x hok

theorem SOp.length_liveAfter (live : List Nat) (op : SOp) :
    (op.liveAfter live).length ≤ live.length + 1 := by
  cases op with
  | construct x s => simp [SOp.liveAfter]
  | copy x y => simp [SOp.liveAfter]
  | assign x y => simp [SOp.liveAfter]
  | destroy x =>
    have := List.length_erase_le x live
    simp only [SOp.liveAfter]
    omega

theorem Store.store_run_Inv (ops : List SOp) :
    ∀ w : Store, w.Inv → wellFormed w.live ops → hasRoom (some w) ops →
      ∃ w1, w.run ops = some w1 ∧ w1.Inv := by
  induction ops with
  | nil => intro w hw _ _; exact ⟨w, rfl, hw⟩
  | cons op ops ih =>
    intro w hw hwf hroom
    obtain ⟨w1, hstep, hinv1, hlive1⟩ := Store.store_step_Inv w hw op hwf.1 hroom.1
    have hrest : hasRoom (some w1) ops := by
      have h2 := hroom.2
      rw [hstep] at h2
      exact h2
    obtain ⟨w2, hrun, hinv2⟩ := ih w1 hinv1 (by rw [hlive1]; exact hwf.2) hrest
    exact ⟨w2, by simp [Store.run, hstep, hrun], hinv2⟩

theorem Store.empty_Inv : Store.empty.Inv := by
  refine ⟨List.nodup_nil, ?_, ?_, ?_, ?_⟩
  · intro rc
    simp [Store.empty, Store.handles]
  · intro x hx
    simp [Store.empty] at hx
  · intro x hx
    simp [Store.empty] at hx
  · intro a buf hb
    simp [Store.empty] at hb

/-- A program whose live objects, with the statements still to come, number fewer than
`2^31` has room in every count. -/
theorem hasRoom_of_length (ops : List SOp) :
    ∀ w : Store, w.Inv → wellFormed w.live ops → w.live.length + ops.length < 2147483648 →
      hasRoom (some w) ops := by
  induction ops with
  | nil => intro w _ _ _; exact trivial
  | cons op ops ih =>
    intro w hw hwf hlen
    simp only [List.length_cons] at hlen
    have hroom : op.room w := by
      cases op with
      | construct x s => exact trivial
      | copy x y =>
        show w.room w.live (w.objs y).ref_count
        cases hr : (w.objs y).ref_count with
        | none => exact trivial
        | some rc =>
          have := Store.handles_le_length w rc
          show w.handles rc < 2147483647
          omega
      | assign x y =>
        intro _
        cases hr : (w.objs y).ref_count with
        | none => exact trivial
        | some rc =>
          have h1 : (w.live.erase x).countP
              (fun z => decide ((w.objs z).ref_count = some rc)) ≤ (w.live.erase x).length :=
            List.countP_le_length _
          have h2 := List.length_erase_le x w.live
          show (w.live.erase x).countP
            (fun z => decide ((w.objs z).ref_count = some rc)) < 2147483647
          omega
      | destroy x => exact trivial
    obtain ⟨w1, hstep, hinv1, hlive1⟩ := Store.store_step_Inv w hw op hwf.1 hroom
    have hl := SOp.length_liveAfter w.live op
    refine ⟨hroom, ?_⟩
    rw [hstep]
    exact ih w1 hinv1 (by rw [hlive1]; exact hwf.2) (by rw [hlive1]; omega)

/-- Release keeps every stored count at or below `INT_MAX`. -/
theorem Store.release_bounded (w r : Store) (x : Nat) (h : w.release x = some r)
    (hb : ∀ rc n, w.ints rc = some n → n ≤ 2147483647) :
    ∀ rc n, r.ints rc = some n → n ≤ 2147483647 := by
  unfold Store.release at h
  cases hr : (w.objs x).ref_count with
  | none =>
    simp only [hr, Option.some.injEq] at h
    subst h
    exact hb
  | some rc0 =>
    simp only [hr] at h
    cases hi : w.ints rc0 with
    | none => simp [hi] at h
    | some n0 =>
      simp only [hi] at h
      have hn0 := hb rc0 n0 hi
      by_cases hmin : n0 = INT_MIN
      · simp [hmin] at h
      · simp only [hmin, if_false] at h
        by_cases hz : n0 - 1 = 0
        · simp only [hz, if_true] at h
          cases hs : (w.objs x).str with
          | none => simp [hs] at h
          | some a =>
            simp only [hs] at h
            cases hc : w.chars a with
            | none => simp [hc] at h
            | some buf =>
              simp only [hc, Option.some.injEq] at h
              subst h
              intro rc n hn
              simp only at hn
              by_cases hrc : rc = rc0
              · simp [hrc] at hn
              · simp only [hrc, if_false] at hn
                exact hb rc n hn
        · simp only [hz, if_false, Option.some.injEq] at h
          subst h
          intro rc n hn
          simp only at hn
          by_cases hrc : rc = rc0
          · simp only [hrc, if_true, Option.some.injEq] at hn
            omega
          · simp only [hrc, if_false] at hn
            exact hb rc n hn

/-- A copy construction that is defined keeps every stored count at or below `INT_MAX`. -/
theorem Store.copy_construct_bounded (w w1 : Store) (x y : Nat)
    (h : w.copy_construct x y = some w1)
    (hb : ∀ rc n, w.ints rc = some n → n ≤ 2147483647) :
    ∀ rc n, w1.ints rc = some n → n ≤ 2147483647 := by
  unfold Store.copy_construct at h
  cases hr : (w.objs y).ref_count with
  | none =>
    simp only [hr, Option.some.injEq] at h
    subst h
    exact hb
  | some rc0 =>
    simp only [hr] at h
    cases hi : w.ints rc0 with
    | none => simp [hi] at h
    | some n0 =>
      simp only [hi] at h
      have hn0 := hb rc0 n0 hi
      by_cases hmax : n0 = INT_MAX
      · simp [hmax] at h
      · simp only [hmax, if_false, Option.some.injEq] at h
        subst h
        intro rc n hn
        simp only at hn
        by_cases hrc : rc = rc0
        · simp only [hrc, if_true, Option.some.injEq] at hn
          unfold INT_MAX at hmax
          omega
        · simp only [hrc, if_false] at hn
          exact hb rc n hn

/-- A statement that is defined keeps every stored count at or below `INT_MAX`. -/
theorem Store.store_step_bounded (w w1 : Store) (op : SOp) (h : w.step op = some w1)
    (hb : ∀ rc n, w.ints rc = some n → n ≤ 2147483647) :
    ∀ rc n, w1.ints rc = some n → n ≤ 2147483647 := by
  cases op with
  | construct x s =>
    simp only [Store.step, Option.some.injEq] at h
    subst h
    cases s with
    | none => exact hb
    | some cs =>
      intro rc n hn
      simp only [Store.construct] at hn
      by_cases hrc : rc = w.fresh + 1
      · simp only [hrc, if_true, Option.some.injEq] at hn
        omega
      · simp only [hrc, if_false] at hn
        exact hb rc n hn
  | copy x y => exact Store.copy_construct_bounded w w1 x y h hb
  | assign x y =>
    simp only [Store.step, Store.assign] at h
    by_cases hxy : x = y
    · simp only [hxy, ne_eq, not_true_eq_false, if_false, Option.some.injEq] at h
      subst h
      exact hb
    · simp only [ne_eq, hxy, not_false_eq_true, if_true] at h
      cases hrel : w.release x with
      | none => simp [hrel] at h
      | some r =>
        simp only [hrel] at h
        have hbr := Store.release_bounded w r x hrel hb
        cases hr : (r.objs y).ref_count with
        | none =>
          simp only [hr, Option.some.injEq] at h
          subst h
          exact hbr
        | some rc0 =>
          simp only [hr] at h
          cases hi : r.ints rc0 with
          | none => simp [hi] at h
          | some n0 =>
            simp only [hi] at h
            have hn0 := hbr rc0 n0 hi
            by_cases hmax : n0 = INT_MAX
            · simp [hmax] at h
            · simp only [hmax, if_false, Option.some.injEq] at h
              subst h
              intro rc n hn
              simp only at hn
              by_cases hrc : rc = rc0
              · simp only [hrc, if_true, Option.some.injEq] at hn
                unfold INT_MAX at hmax
                omega
              · simp only [hrc, if_false] at hn
                exact hbr rc n hn
  | destroy x =>
    simp only [Store.step, Store.destruct] at h
    cases hrel : w.release x with
    | none => simp [hrel] at h
    | some r =>
      simp only [hrel, Option.some.injEq] at h
      subst h
      exact Store.release_bounded w r x hrel hb

/-- A copy construction or assignment that finds no room in the count it increments is
undefined: the count stands at `INT_MAX` and `++(*ref_count)` overflows. -/
theorem Store.step_without_room (w : Store) (hw : w.Inv)
    (hb : ∀ rc n, w.ints rc = some n → n ≤ 2147483647) (op : SOp) (hok : op.ok w.live)
    (hno : ¬ op.room w) : w.step op = none := by
  cases op with
  | construct x s => exact absurd trivial hno
  | destroy x => exact absurd trivial hno
  | copy x y =>
    have hno2 : ¬ w.room w.live (w.objs y).ref_count := hno
    cases hr : (w.objs y).ref_count with
    | none =>
      rw [hr] at hno2
      exact absurd trivial hno2
    | some rc0 =>
      rw [hr] at hno2
      have hge : ¬ w.handles rc0 < 2147483647 := hno2
      obtain ⟨hint, _⟩ := Store.ints_of_handle w hw y rc0 hok.2 hr
      have hle := hb rc0 _ hint
      have hmax : (w.handles rc0 : Int) = INT_MAX := by
        unfold INT_MAX
        omega
      simp [Store.step, Store.copy_construct, hr, hint, hmax]
  | assign x y =>
    have hno2 : ¬ (x ≠ y → w.room (w.live.erase x) (w.objs y).ref_count) := hno
    have hxy : x ≠ y := fun e => hno2 (fun hne => absurd e hne)
    have hno3 : ¬ w.room (w.live.erase x) (w.objs y).ref_count := fun hr => hno2 (fun _ => hr)
    obtain ⟨r, hrel, hlive, hobjs, hinv⟩ := Store.release_Inv w hw x hok.1
    have hbr := Store.release_bounded w r x hrel hb
    have hy1 : y ∈ r.live.erase x := by
      rw [hlive]
      exact (List.mem_erase_of_ne (fun h => hxy h.symm)).mpr hok.2
    cases hr : (r.objs y).ref_count with
    | none =>
      rw [← hobjs, hr] at hno3
      exact absurd trivial hno3
    | some rc0 =>
      rw [← hobjs, hr, ← hlive] at hno3
      unfold Store.room at hno3
      rw [← hobjs] at hno3
      have hge : ¬ Store.handles { r with live := r.live.erase x } rc0 < 2147483647 := hno3
      obtain ⟨hint, _⟩ := Store.ints_of_handle { r with live := r.live.erase x } hinv y rc0
        hy1 hr
      have hint2 : r.ints rc0
          = some (Store.handles { r with live := r.live.erase x } rc0 : Int) := hint
      have hle := hbr rc0 _ hint2
      have hmax : (Store.handles { r with live := r.live.erase x } rc0 : Int) = INT_MAX := by
        unfold INT_MAX
        omega
      simp [Store.step, Store.assign, hxy, hrel, hr, hint2, hmax]

/-- Without room the program is undefined: a program that names its objects properly and at
some statement finds no room in the count it increments runs into the signed overflow. -/
theorem Store.run_without_room (ops : List SOp) :
    ∀ w : Store, w.Inv → (∀ rc n, w.ints rc = some n → n ≤ 2147483647) →
      wellFormed w.live ops → ¬ hasRoom (some w) ops → w.run ops = none := by
  induction ops with
  | nil => intro w _ _ _ hno; exact absurd trivial hno
  | cons op ops ih =>
    intro w hw hb hwf hno
    by_cases hroom : op.room w
    · obtain ⟨w1, hstep, hinv1, hlive1⟩ := Store.store_step_Inv w hw op hwf.1 hroom
      have hb1 := Store.store_step_bounded w w1 op hstep hb
      have hno1 : ¬ hasRoom (some w1) ops := by
        intro h1
        apply hno
        refine ⟨hroom, ?_⟩
        rw [hstep]
        exact h1
      have := ih w1 hinv1 hb1 (by rw [hlive1]; exact hwf.2) hno1
      simp [Store.run, hstep, this]
    · have := Store.step_without_room w hw hb op hwf.1 hroom
      simp [Store.run, this]

/-- For programs that name their objects properly, having room in every incremented count is
exactly having defined behaviour. -/
theorem defined_iff_hasRoom (ops : List SOp) (hwf : wellFormed [] ops) :
    (∃ w, Store.empty.run ops = some w) ↔ hasRoom (some Store.empty) ops := by
  constructor
  · rintro ⟨w, hrun⟩
    by_contra hno
    have := Store.run_without_room ops Store.empty Store.empty_Inv
      (fun rc n hn => by simp [Store.empty] at hn) hwf hno
    rw [this] at hrun
    simp at hrun
  · intro hroom
    obtain ⟨w, hrun, _⟩ := Store.store_run_Inv ops Store.empty Store.empty_Inv hwf hroom
    exact ⟨w, hrun⟩

/-- A loop that copies the object named `0` and destroys the copy again names its objects
properly and has room in the count at every turn, however long it runs. -/
theorem copy_destroy_loop_hasRoom (n : Nat) : ∀ w : Store, w.Inv → w.live = [0] →
    wellFormed [0] (List.replicate n [SOp.copy 1 0, SOp.destroy 1]).flatten
      ∧ hasRoom (some w) (List.replicate n [SOp.copy 1 0, SOp.destroy 1]).flatten := by
  induction n with
  | zero => intro w _ _; exact ⟨trivial, trivial⟩
  | succ n ih =>
    intro w hw hlive
    rw [List.replicate_succ, List.flatten_cons]
    show wellFormed [0] (SOp.copy 1 0 :: SOp.destroy 1
        :: (List.replicate n [SOp.copy 1 0, SOp.destroy 1]).flatten)
      ∧ hasRoom (some w) (SOp.copy 1 0 :: SOp.destroy 1
        :: (List.replicate n [SOp.copy 1 0, SOp.destroy 1]).flatten)
    have hok1 : (SOp.copy 1 0).ok w.live := by
      rw [hlive]
      exact ⟨by decide, by decide⟩
    have hroom1 : (SOp.copy 1 0).room w := by
      show w.room w.live (w.objs 0).ref_count
      cases hr : (w.objs 0).ref_count with
      | none => exact trivial
      | some rc =>
        have h1 := Store.handles_le_length w rc
        rw [hlive] at h1
        have h2 : w.handles rc ≤ 1 := h1
        show w.handles rc < 2147483647
        omega
    obtain ⟨w1, hstep1, hinv1, hlive1⟩ := Store.store_step_Inv w hw (SOp.copy 1 0) hok1 hroom1
    have hl1 : w1.live = [1, 0] := by
      rw [hlive1, hlive]
      rfl
    have hok2 : (SOp.destroy 1).ok w1.live := by
      rw [hl1]
      show 1 ∈ [1, 0]
      decide
    obtain ⟨w2, hstep2, hinv2, hlive2⟩ :=
      Store.store_step_Inv w1 hinv1 (SOp.destroy 1) hok2 trivial
    have hl2 : w2.live = [0] := by
      rw [hlive2, hl1]
      rfl
    obtain ⟨ih1, ih2⟩ := ih w2 hinv2 hl2
    refine ⟨⟨⟨by decide, by decide⟩, by show 1 ∈ [1, 0]; decide, ih1⟩, hroom1, ?_⟩
    rw [hstep1]
    refine ⟨trivial, ?_⟩
    rw [hstep2]
    exact ih2

/-- A program far longer than `2^31` statements is covered: one string, then `2^31` turns of
copying it and destroying the copy. It names its objects properly and has room in the count
throughout, so it has defined behaviour. -/
theorem long_copy_destroy_loop_defined :
    wellFormed [] (SOp.construct 0 (some ['a'])
        :: (List.replicate 2147483648 [SOp.copy 1 0, SOp.destroy 1]).flatten)
      ∧ hasRoom (some Store.empty) (SOp.construct 0 (some ['a'])
        :: (List.replicate 2147483648 [SOp.copy 1 0, SOp.destroy 1]).flatten)
      ∧ ∃ w, Store.empty.run (SOp.construct 0 (some ['a'])
        :: (List.replicate 2147483648 [SOp.copy 1 0, SOp.destroy 1]).flatten) = some w := by
  have hinv : (Store.empty.construct 0 (some ['a'])).Inv :=
    Store.construct_Inv Store.empty Store.empty_Inv 0 (some ['a']) (List.not_mem_nil 0)
  obtain ⟨h1, h2⟩ := copy_destroy_loop_hasRoom 2147483648
    (Store.empty.construct 0 (some ['a'])) hinv rfl
  have hwf : ∀ l, wellFormed [0] l → wellFormed [] (SOp.construct 0 (some ['a']) :: l) :=
    fun l h => ⟨List.not_mem_nil 0, h⟩
  have hroom : ∀ l, hasRoom (some (Store.empty.construct 0 (some ['a']))) l →
      hasRoom (some Store.empty) (SOp.construct 0 (some ['a']) :: l) :=
    fun l h => ⟨trivial, h⟩
  have hrun : ∀ l, (∃ w, (Store.empty.construct 0 (some ['a'])).run l = some w) →
      ∃ w, Store.empty.run (SOp.construct 0 (some ['a']) :: l) = some w := fun l h => h
  refine ⟨hwf _ h1, hroom _ h2, hrun _ ?_⟩
  obtain ⟨w, hw, _⟩ := Store.store_run_Inv _ (Store.empty.construct 0 (some ['a'])) hinv h1 h2
  exact ⟨w, hw⟩

/-- The client of `filetest_string.cpp` step by step: the count is 1 after construction, 2
and 3 after one and two copies, falls by one with each destroyed copy, and when the last
object is destroyed the count reaches 0, the line "Hello world [0]" is written and buffer and
count are deleted. -/
theorem ref_count_of_filetest :
    (Store.empty.run [SOp.construct 0 (some "Hello world".toList)]).map
        (fun w => (w.live, w.ints 1)) = some ([0], some 1)
      ∧ (Store.empty.run [SOp.construct 0 (some "Hello world".toList), SOp.copy 1 0]).map
        (fun w => (w.live, w.ints 1)) = some ([1, 0], some 2)
      ∧ (Store.empty.run [SOp.construct 0 (some "Hello world".toList), SOp.copy 1 0,
          SOp.copy 2 0]).map (fun w => (w.live, w.ints 1)) = some ([2, 1, 0], some 3)
      ∧ (Store.empty.run [SOp.construct 0 (some "Hello world".toList), SOp.copy 1 0,
          SOp.copy 2 0, SOp.destroy 2]).map (fun w => (w.live, w.ints 1))
          = some ([1, 0], some 2)
      ∧ (Store.empty.run [SOp.construct 0 (some "Hello world".toList), SOp.copy 1 0,
          SOp.copy 2 0, SOp.destroy 2, SOp.destroy 1, SOp.destroy 0]).map
          (fun w => (w.live, w.ints 1, w.chars 0, w.cout))
          = some ([], none, none, ["Hello world [0]"]) := by
  refine ⟨by decide, by decide, by decide, by decide, by rfl⟩

end Worksheet1.Task3

/-! ## C23: the count is an `int` -/

namespace Worksheet1.Task3

end Worksheet1.Task3

/-! ## C24: an in-range and an out-of-range index -/

theorem getChar_setChar_bounds_witness :
    ((0 : Int) ≤ 1 ∧ (1 : Int) < (Worksheet1.strlen ['H', 'i', Worksheet1.NUL] : Int)
      ∧ (Worksheet1.Task1.my_string.mk (some 0)).getChar
          (fun a => if a = 0 then some ['H', 'i', Worksheet1.NUL] else none) 1 = some 'i')
    ∧ ((Worksheet1.strlen ['H', 'i', Worksheet1.NUL] : Int) ≤ 2
      ∧ (Worksheet1.Task3.my_string.mk (some 0) (some 1)).getChar
          (fun a => if a = 0 then some ['H', 'i', Worksheet1.NUL] else none) 2
          = some Worksheet1.NUL
      ∧ (Worksheet1.Task3.my_string.mk (some 0) (some 1)).setChar
          (fun a => if a = 0 then some ['H', 'i', Worksheet1.NUL] else none) 2 'x'
          = some (fun a => if a = 0 then some ['H', 'i', Worksheet1.NUL] else none)) :=
  ⟨⟨by decide, by decide,
      (((getChar_setChar_bounds
        (fun a => if a = 0 then some ['H', 'i', Worksheet1.NUL] else none) 1 'x').1.2
        (Worksheet1.Task1.my_string.mk (some 0)) 0 ['H', 'i', Worksheet1.NUL] rfl rfl).2
        (by decide) (by decide)).2⟩,
    ⟨by decide,
      ((getChar_setChar_bounds
        (fun a => if a = 0 then some ['H', 'i', Worksheet1.NUL] else none) 2 'x').2.2
        (Worksheet1.Task3.my_string.mk (some 0) (some 1)) 0 ['H', 'i', Worksheet1.NUL]
        rfl rfl).1 (Or.inr (by decide))⟩⟩

/-! ## C31: the arenas at two base addresses -/

/-- Two multiples of `a` in the same window of width `a` are equal. -/
theorem multiple_unique_in_window (a p x y : Nat) (hx : x % a = 0) (hx1 : p ≤ x)
    (hx2 : x < p + a) (hy : y % a = 0) (hy1 : p ≤ y) (hy2 : y < p + a) : x = y := by
  have h1 := multiple_le_of_window a p x y hx hx2 hy hy1
  have h2 := multiple_le_of_window a p y x hy hy2 hx hx1
  omega

/-- One call on two forward arenas of equal capacity whose cursors stand at the same offset:
same outcome, same returned offset, cursors again at the same offset, equal counts. -/
theorem forward_step_shift {b1 b2 C : Nat} (s1 s2 : BumpAllocator) (op : Op)
    (h1 : BumpAllocator.Inv b1 (b1 + C) s1) (h2 : BumpAllocator.Inv b2 (b2 + C) s2)
    (hn : s1.next + b2 = s2.next + b1)
    (hc : s1.allocation_count = s2.allocation_count)
    (hw1 : BumpAllocator.noWrap (b1 + C) op) (hw2 : BumpAllocator.noWrap (b2 + C) op)
    (m : Nat) (hm : m < 64) (hb1 : 2 ^ m ∣ b1) (hb2 : 2 ^ m ∣ b2)
    (hal : op.alignDivides (2 ^ m)) :
    (s1.step op).1.map (fun a => a - b1) = (s2.step op).1.map (fun a => a - b2)
      ∧ (s1.step op).2.next + b2 = (s2.step op).2.next + b1
      ∧ (s1.step op).2.allocation_count = (s2.step op).2.allocation_count := by
  cases op with
  | alloc sizeofT alignofT num_objects =>
    have hal2 : alignofT ∣ 2 ^ m := hal
    obtain ⟨k, hkm, rfl⟩ := (Nat.dvd_prime_pow Nat.prime_two).1 hal2
    have hk : k < 64 := by omega
    have hpos : 0 < 2 ^ k := Nat.pos_pow_of_pos k (by norm_num)
    have hd1 : 2 ^ k ∣ b1 := Dvd.dvd.trans (pow_dvd_pow 2 hkm) hb1
    have hd2 : 2 ^ k ∣ b2 := Dvd.dvd.trans (pow_dvd_pow 2 hkm) hb2
    have ha1 := BumpAllocator.alloc_noWrap h1 sizeofT (2 ^ k) num_objects hw1
    have ha2 := BumpAllocator.alloc_noWrap h2 sizeofT (2 ^ k) num_objects hw2
    have hc1 := BumpAllocator.alloc_counters s1 sizeofT (2 ^ k) num_objects
    have hc2 := BumpAllocator.alloc_counters s2 sizeofT (2 ^ k) num_objects
    obtain ⟨_, _, f3, f4, f5⟩ := h1
    obtain ⟨_, _, g3, g4, g5⟩ := h2
    have hA1 := BumpAllocator.align_pointer_mod s1.next hk
    have hA2 := BumpAllocator.align_pointer_mod s2.next hk
    have hB1 := BumpAllocator.align_pointer_bounds s1.next (2 ^ k) hpos
      (by have := hw1.2; omega)
    have hB2 := BumpAllocator.align_pointer_bounds s2.next (2 ^ k) hpos
      (by have := hw2.2; omega)
    have hx : (BumpAllocator.align_pointer s1.next (2 ^ k) + b2) % 2 ^ k = 0 :=
      Nat.mod_eq_zero_of_dvd (Nat.dvd_add (Nat.dvd_of_mod_eq_zero hA1) hd2)
    have hy : (BumpAllocator.align_pointer s2.next (2 ^ k) + b1) % 2 ^ k = 0 :=
      Nat.mod_eq_zero_of_dvd (Nat.dvd_add (Nat.dvd_of_mod_eq_zero hA2) hd1)
    have heq : BumpAllocator.align_pointer s1.next (2 ^ k) + b2
        = BumpAllocator.align_pointer s2.next (2 ^ k) + b1 :=
      multiple_unique_in_window (2 ^ k) (s1.next + b2) _ _ hx (by omega) (by omega) hy
        (by omega) (by omega)
    simp only [BumpAllocator.step]
    rcases ha1 with ⟨n1, fail1, next1⟩ | ⟨a1, some1, eq1, _, fit1, next1⟩
    · rcases ha2 with ⟨n2, fail2, next2⟩ | ⟨a2, some2, eq2, _, fit2, next2⟩
      · refine ⟨by rw [n1, n2]; rfl, by rw [next1, next2]; exact hn, ?_⟩
        rw [(hc1.1 n1).1, (hc2.1 n2).1, hc]
      · exfalso
        rw [eq2] at fit2
        omega
    · rcases ha2 with ⟨n2, fail2, next2⟩ | ⟨a2, some2, eq2, _, fit2, next2⟩
      · exfalso
        rw [eq1] at fit1
        omega
      · refine ⟨?_, ?_, ?_⟩
        · rw [some1, some2, eq1, eq2]
          simp only [Option.map_some']
          congr 1
          omega
        · rw [next1, next2, eq1, eq2]
          omega
        · rw [(hc1.2 a1 some1).1, (hc2.2 a2 some2).1, hc]
  | dealloc =>
    have hd1 := BumpAllocator.dealloc_count_next s1
    have hd2 := BumpAllocator.dealloc_count_next s2
    have hn1 := BumpAllocator.dealloc_next_of_count_ne_zero s1
    have hn2 := BumpAllocator.dealloc_next_of_count_ne_zero s2
    have hceq : s1.dealloc.allocation_count = s2.dealloc.allocation_count := by
      rw [hd1.1, hd2.1, hc]
    obtain ⟨f1, _, _, _, _⟩ := h1
    obtain ⟨g1, _, _, _, _⟩ := h2
    simp only [BumpAllocator.step]
    refine ⟨rfl, ?_, hceq⟩
    by_cases h0 : s1.dealloc.allocation_count = 0
    · rw [hd1.2 h0, hd2.2 (hceq ▸ h0), f1, g1]
      omega
    · rw [hn1 h0, hn2 (hceq ▸ h0)]
      exact hn

theorem forward_run_shift {b1 b2 C : Nat} (m : Nat) (hm : m < 64) (hb1 : 2 ^ m ∣ b1)
    (hb2 : 2 ^ m ∣ b2) (ops : List Op) :
    ∀ (s1 s2 : BumpAllocator),
      BumpAllocator.Inv b1 (b1 + C) s1 → BumpAllocator.Inv b2 (b2 + C) s2 →
      s1.next + b2 = s2.next + b1 →
      s1.allocation_count = s2.allocation_count →
      (∀ op ∈ ops, BumpAllocator.noWrap (b1 + C) op ∧ BumpAllocator.noWrap (b2 + C) op
        ∧ op.alignDivides (2 ^ m)) →
      (s1.results ops).map (Option.map (fun a => a - b1))
          = (s2.results ops).map (Option.map (fun a => a - b2))
        ∧ (s1.run ops).remaining_memory = (s2.run ops).remaining_memory := by
  induction ops with
  | nil =>
    intro s1 s2 h1 h2 hn _ _
    obtain ⟨_, f2, f3, f4, f5⟩ := h1
    obtain ⟨_, g2, g3, g4, g5⟩ := h2
    refine ⟨rfl, ?_⟩
    simp only [BumpAllocator.run, BumpAllocator.remaining_memory]
    rw [f2, g2, wsub_eq_sub f4 f5, wsub_eq_sub g4 g5]
    omega
  | cons op ops ih =>
    intro s1 s2 h1 h2 hn hc hall
    obtain ⟨hw1, hw2, hal⟩ := hall op (List.mem_cons_self _ _)
    have hstep := forward_step_shift s1 s2 op h1 h2 hn hc hw1 hw2 m hm hb1 hb2 hal
    have hrec := ih (s1.step op).2 (s2.step op).2 (BumpAllocator.step_Inv h1 op hw1)
      (BumpAllocator.step_Inv h2 op hw2) hstep.2.1 hstep.2.2
      (fun o ho => hall o (List.mem_cons_of_mem _ ho))
    simp only [BumpAllocator.results, BumpAllocator.run, List.map_cons]
    exact ⟨by rw [hstep.1, hrec.1], hrec.2⟩

/-- One call on two backward arenas of equal capacity whose cursors stand at the same offset:
same outcome, same returned offset, cursors again at the same offset, equal counts. -/
theorem backward_step_shift {b1 b2 C : Nat} (s1 s2 : BumpAllocatorDownwards) (op : Op)
    (h1 : BumpAllocatorDownwards.Inv b1 (b1 + C) s1)
    (h2 : BumpAllocatorDownwards.Inv b2 (b2 + C) s2)
    (hn : s1.next + b2 = s2.next + b1)
    (hc : s1.allocation_count = s2.allocation_count)
    (hw1 : BumpAllocatorDownwards.noWrap b1 op) (hw2 : BumpAllocatorDownwards.noWrap b2 op)
    (m : Nat) (hm : m < 64) (hb1 : 2 ^ m ∣ b1) (hb2 : 2 ^ m ∣ b2)
    (hal : op.alignDivides (2 ^ m)) :
    (s1.step op).1.map (fun a => a - b1) = (s2.step op).1.map (fun a => a - b2)
      ∧ (s1.step op).2.next + b2 = (s2.step op).2.next + b1
      ∧ (s1.step op).2.allocation_count = (s2.step op).2.allocation_count := by
  cases op with
  | alloc sizeofT alignofT num_objects =>
    have hal2 : alignofT ∣ 2 ^ m := hal
    obtain ⟨k, hkm, rfl⟩ := (Nat.dvd_prime_pow Nat.prime_two).1 hal2
    have hk : k < 64 := by omega
    have hpos : 0 < 2 ^ k := Nat.pos_pow_of_pos k (by norm_num)
    have hd1 : 2 ^ k ∣ b1 := Dvd.dvd.trans (pow_dvd_pow 2 hkm) hb1
    have hd2 : 2 ^ k ∣ b2 := Dvd.dvd.trans (pow_dvd_pow 2 hkm) hb2
    have hr1 : sizeofT * num_objects ≤ b1 := hw1
    have hr2 : sizeofT * num_objects ≤ b2 := hw2
    have ha1 := BumpAllocatorDownwards.down_alloc_noWrap h1 sizeofT (2 ^ k) num_objects hw1
    have ha2 := BumpAllocatorDownwards.down_alloc_noWrap h2 sizeofT (2 ^ k) num_objects hw2
    have hc1 := BumpAllocatorDownwards.down_alloc_counters s1 sizeofT (2 ^ k) num_objects
    have hc2 := BumpAllocatorDownwards.down_alloc_counters s2 sizeofT (2 ^ k) num_objects
    obtain ⟨_, _, f3, f4, f5⟩ := h1
    obtain ⟨_, _, g3, g4, g5⟩ := h2
    have hp1 : s1.next - sizeofT * num_objects < WORD := by omega
    have hp2 : s2.next - sizeofT * num_objects < WORD := by omega
    have hA1 := BumpAllocatorDownwards.down_align_pointer_mod
      (s1.next - sizeofT * num_objects) hp1 hk
    have hA2 := BumpAllocatorDownwards.down_align_pointer_mod
      (s2.next - sizeofT * num_objects) hp2 hk
    have hE1 := BumpAllocatorDownwards.down_align_pointer_eq
      (s1.next - sizeofT * num_objects) hp1 hk
    have hE2 := BumpAllocatorDownwards.down_align_pointer_eq
      (s2.next - sizeofT * num_objects) hp2 hk
    have hM1 := Nat.mod_lt (s1.next - sizeofT * num_objects) hpos
    have hM2 := Nat.mod_lt (s2.next - sizeofT * num_objects) hpos
    have hL1 := Nat.mod_le (s1.next - sizeofT * num_objects) (2 ^ k)
    have hL2 := Nat.mod_le (s2.next - sizeofT * num_objects) (2 ^ k)
    have hx : (BumpAllocatorDownwards.align_pointer (s1.next - sizeofT * num_objects) (2 ^ k)
        + b2) % 2 ^ k = 0 :=
      Nat.mod_eq_zero_of_dvd (Nat.dvd_add (Nat.dvd_of_mod_eq_zero hA1) hd2)
    have hy : (BumpAllocatorDownwards.align_pointer (s2.next - sizeofT * num_objects) (2 ^ k)
        + b1) % 2 ^ k = 0 :=
      Nat.mod_eq_zero_of_dvd (Nat.dvd_add (Nat.dvd_of_mod_eq_zero hA2) hd1)
    have heq : BumpAllocatorDownwards.align_pointer (s1.next - sizeofT * num_objects) (2 ^ k)
          + b2
        = BumpAllocatorDownwards.align_pointer (s2.next - sizeofT * num_objects) (2 ^ k)
          + b1 := by
      have g1 := multiple_ge_of_window (2 ^ k) (s1.next - sizeofT * num_objects + b2) _ _ hx
        (by rw [hE1]; omega) hy (by rw [hE2]; omega)
      have g2 := multiple_ge_of_window (2 ^ k) (s1.next - sizeofT * num_objects + b2) _ _ hy
        (by rw [hE2]; omega) hx (by rw [hE1]; omega)
      omega
    simp only [BumpAllocatorDownwards.step]
    rcases ha1 with ⟨n1, fail1, next1⟩ | ⟨a1, some1, eq1, ge1, _, next1⟩
    · rcases ha2 with ⟨n2, fail2, next2⟩ | ⟨a2, some2, eq2, ge2, _, next2⟩
      · refine ⟨by rw [n1, n2]; rfl, by rw [next1, next2]; exact hn, ?_⟩
        rw [(hc1.1 n1).1, (hc2.1 n2).1, hc]
      · exfalso
        rw [eq2] at ge2
        omega
    · rcases ha2 with ⟨n2, fail2, next2⟩ | ⟨a2, some2, eq2, ge2, _, next2⟩
      · exfalso
        rw [eq1] at ge1
        omega
      · rw [eq1] at ge1
        rw [eq2] at ge2
        refine ⟨?_, ?_, ?_⟩
        · rw [some1, some2, eq1, eq2]
          simp only [Option.map_some']
          congr 1
          omega
        · rw [next1, next2, eq1, eq2]
          omega
        · rw [(hc1.2 a1 some1).1, (hc2.2 a2 some2).1, hc]
  | dealloc =>
    have hd1 := BumpAllocatorDownwards.down_dealloc_count_next s1
    have hd2 := BumpAllocatorDownwards.down_dealloc_count_next s2
    have hn1 := BumpAllocatorDownwards.down_dealloc_next_of_count_ne_zero s1
    have hn2 := BumpAllocatorDownwards.down_dealloc_next_of_count_ne_zero s2
    have hceq : s1.dealloc.allocation_count = s2.dealloc.allocation_count := by
      rw [hd1.1, hd2.1, hc]
    obtain ⟨_, f2, _, _, _⟩ := h1
    obtain ⟨_, g2, _, _, _⟩ := h2
    simp only [BumpAllocatorDownwards.step]
    refine ⟨rfl, ?_, hceq⟩
    by_cases h0 : s1.dealloc.allocation_count = 0
    · rw [hd1.2 h0, hd2.2 (hceq ▸ h0), f2, g2]
      omega
    · rw [hn1 h0, hn2 (hceq ▸ h0)]
      exact hn

theorem backward_run_shift {b1 b2 C : Nat} (m : Nat) (hm : m < 64) (hb1 : 2 ^ m ∣ b1)
    (hb2 : 2 ^ m ∣ b2) (ops : List Op) :
    ∀ (s1 s2 : BumpAllocatorDownwards),
      BumpAllocatorDownwards.Inv b1 (b1 + C) s1 → BumpAllocatorDownwards.Inv b2 (b2 + C) s2 →
      s1.next + b2 = s2.next + b1 →
      s1.allocation_count = s2.allocation_count →
      (∀ op ∈ ops, BumpAllocatorDownwards.noWrap b1 op ∧ BumpAllocatorDownwards.noWrap b2 op
        ∧ op.alignDivides (2 ^ m)) →
      (s1.results ops).map (Option.map (fun a => a - b1))
          = (s2.results ops).map (Option.map (fun a => a - b2))
        ∧ (s1.run ops).remaining_memory = (s2.run ops).remaining_memory := by
  induction ops with
  | nil =>
    intro s1 s2 h1 h2 hn _ _
    obtain ⟨f1, _, f3, f4, f5⟩ := h1
    obtain ⟨g1, _, g3, g4, g5⟩ := h2
    refine ⟨rfl, ?_⟩
    simp only [BumpAllocatorDownwards.run, BumpAllocatorDownwards.remaining_memory]
    rw [f1, g1, wsub_eq_sub f3 (by omega), wsub_eq_sub g3 (by omega)]
    omega
  | cons op ops ih =>
    intro s1 s2 h1 h2 hn hc hall
    obtain ⟨hw1, hw2, hal⟩ := hall op (List.mem_cons_self _ _)
    have hstep := backward_step_shift s1 s2 op h1 h2 hn hc hw1 hw2 m hm hb1 hb2 hal
    have hrec := ih (s1.step op).2 (s2.step op).2
      (BumpAllocatorDownwards.down_step_Inv h1 op hw1)
      (BumpAllocatorDownwards.down_step_Inv h2 op hw2) hstep.2.1 hstep.2.2
      (fun o ho => hall o (List.mem_cons_of_mem _ ho))
    simp only [BumpAllocatorDownwards.results, BumpAllocatorDownwards.run, List.map_cons]
    exact ⟨by rw [hstep.1, hrec.1], hrec.2⟩

/-- Both arenas on calls that do not wrap at either base: for every capacity, every power of
two `2 ^ m`, any two base addresses that are multiples of it and every sequence of calls whose
alignments divide it, after every number `n` of calls the two runs have returned the same
offsets (`nullptr` in the same places) and have the same `remaining_memory()`. -/
theorem base_independent_of_noWrap (C m b1 b2 : Nat) (h1 : b1 + C < WORD)
    (h2 : b2 + C < WORD) (hb1 : 2 ^ m ∣ b1) (hb2 : 2 ^ m ∣ b2) (ops : List Op)
    (hal : ∀ op ∈ ops, op.alignDivides (2 ^ m)) (n : Nat) :
    (∀ debug : Bool,
      (∀ op ∈ ops, BumpAllocator.noWrap (b1 + C) op ∧ BumpAllocator.noWrap (b2 + C) op) →
      ((BumpAllocator.create b1 C debug).results (ops.take n)).map
            (Option.map (fun a => a - b1))
          = ((BumpAllocator.create b2 C debug).results (ops.take n)).map
            (Option.map (fun a => a - b2))
        ∧ ((BumpAllocator.create b1 C debug).run (ops.take n)).remaining_memory
          = ((BumpAllocator.create b2 C debug).run (ops.take n)).remaining_memory)
    ∧ ((∀ op ∈ ops, BumpAllocatorDownwards.noWrap b1 op ∧ BumpAllocatorDownwards.noWrap b2 op) →
      ((BumpAllocatorDownwards.create b1 C).results (ops.take n)).map
            (Option.map (fun a => a - b1))
          = ((BumpAllocatorDownwards.create b2 C).results (ops.take n)).map
            (Option.map (fun a => a - b2))
        ∧ ((BumpAllocatorDownwards.create b1 C).run (ops.take n)).remaining_memory
          = ((BumpAllocatorDownwards.create b2 C).run (ops.take n)).remaining_memory) := by
  by_cases hbe : b1 = b2
  · subst hbe
    exact ⟨fun _ _ => ⟨rfl, rfl⟩, fun _ => ⟨rfl, rfl⟩⟩
  · have hm : m < 64 := by
      by_contra hge
      have e : (2 : Nat) ^ 64 = WORD := by norm_num [WORD]
      have hpow : 2 ^ 64 ≤ 2 ^ m := Nat.pow_le_pow_right (by norm_num) (by omega)
      have z1 : b1 = 0 := by
        by_contra hne
        have := Nat.le_of_dvd (Nat.pos_of_ne_zero hne) hb1
        omega
      have z2 : b2 = 0 := by
        by_contra hne
        have := Nat.le_of_dvd (Nat.pos_of_ne_zero hne) hb2
        omega
      omega
    refine ⟨fun debug hw => ?_, fun hw => ?_⟩
    · exact forward_run_shift m hm hb1 hb2 (ops.take n) _ _
        (BumpAllocator.create_Inv b1 C debug h1) (BumpAllocator.create_Inv b2 C debug h2)
        (Nat.add_comm b1 b2) rfl
        (fun op ho => ⟨(hw op (List.mem_of_mem_take ho)).1,
          (hw op (List.mem_of_mem_take ho)).2, hal op (List.mem_of_mem_take ho)⟩)
    · exact backward_run_shift m hm hb1 hb2 (ops.take n) _ _
        (BumpAllocatorDownwards.down_create_Inv b1 C h1)
        (BumpAllocatorDownwards.down_create_Inv b2 C h2)
        (by
          show wadd b1 C + b2 = wadd b2 C + b1
          rw [wadd_eq_add h1, wadd_eq_add h2]
          omega) rfl
        (fun op ho => ⟨(hw op (List.mem_of_mem_take ho)).1,
          (hw op (List.mem_of_mem_take ho)).2, hal op (List.mem_of_mem_take ho)⟩)

/-- C31: the outcome of a call whose arithmetic wraps depends on the base address. Capacity
16, bases 4096 and 8192 (both multiples of `2 ^ 12`), alignment 1. Backward arena:
`alloc<char>(5000)` succeeds at base 4096, where `next - required_size` wraps, and fails at
base 8192. Forward arena: `alloc<char>(2^64 - 5000)` fails at base 4096 and succeeds at base
8192, where `aligned_ptr + required_size` wraps; afterwards `remaining_memory()` is 16 at one
base and 5016 at the other. -/
theorem base_dependence_on_wrap :
    (2 ^ 12 ∣ 4096 ∧ 2 ^ 12 ∣ 8192 ∧ (Op.alloc 1 1 5000).alignDivides (2 ^ 12)
      ∧ (Op.alloc 1 1 18446744073709546616).alignDivides (2 ^ 12))
    ∧ (((BumpAllocatorDownwards.create 4096 16).alloc 1 1 5000).1
          = some 18446744073709550728
      ∧ ((BumpAllocatorDownwards.create 8192 16).alloc 1 1 5000).1 = none
      ∧ ((BumpAllocatorDownwards.create 4096 16).alloc 1 1 5000).2.remaining_memory
          = 18446744073709546632
      ∧ ((BumpAllocatorDownwards.create 8192 16).alloc 1 1 5000).2.remaining_memory = 16)
    ∧ (((BumpAllocator.create 4096 16 false).alloc 1 1 18446744073709546616).1 = none
      ∧ ((BumpAllocator.create 8192 16 false).alloc 1 1 18446744073709546616).1 = some 8192
      ∧ ((BumpAllocator.create 4096 16 false).alloc 1 1
          18446744073709546616).2.remaining_memory = 16
      ∧ ((BumpAllocator.create 8192 16 false).alloc 1 1
          18446744073709546616).2.remaining_memory = 5016) := by
  refine ⟨⟨by decide, by decide, ?_, ?_⟩, by decide, by decide⟩
  · exact one_dvd _
  · exact one_dvd _

/-! ## C32: `setChar` followed by `getChar` -/

theorem Worksheet1.strlen_cons (x : Char) (xs : List Char) :
    Worksheet1.strlen (x :: xs)
      = if x = Worksheet1.NUL then 0 else Worksheet1.strlen xs + 1 := by
  by_cases hx : x = Worksheet1.NUL
  · simp [Worksheet1.strlen, List.takeWhile_cons, hx]
  · simp [Worksheet1.strlen, List.takeWhile_cons, hx]

theorem Worksheet1.strlen_set (c : Char) (hc : c ≠ Worksheet1.NUL) (buf : List Char) :
    ∀ i, i < Worksheet1.strlen buf → Worksheet1.strlen (buf.set i c) = Worksheet1.strlen buf := by
  induction buf with
  | nil => intro i hi; simp [Worksheet1.strlen] at hi
  | cons x xs ih =>
    intro i hi
    rw [Worksheet1.strlen_cons] at hi
    by_cases hx : x = Worksheet1.NUL
    · rw [if_pos hx] at hi
      omega
    · rw [if_neg hx] at hi
      cases i with
      | zero => rw [List.set_cons_zero, Worksheet1.strlen_cons, Worksheet1.strlen_cons,
          if_neg hc, if_neg hx]
      | succ i =>
        rw [List.set_cons_succ, Worksheet1.strlen_cons, Worksheet1.strlen_cons, if_neg hx,
          if_neg hx, ih i (by omega)]

theorem Worksheet1.strlen_set_NUL (buf : List Char) :
    ∀ i, i < Worksheet1.strlen buf → Worksheet1.strlen (buf.set i Worksheet1.NUL) = i := by
  induction buf with
  | nil => intro i hi; simp [Worksheet1.strlen] at hi
  | cons x xs ih =>
    intro i hi
    rw [Worksheet1.strlen_cons] at hi
    by_cases hx : x = Worksheet1.NUL
    · rw [if_pos hx] at hi
      omega
    · rw [if_neg hx] at hi
      cases i with
      | zero => rw [List.set_cons_zero, Worksheet1.strlen_cons, if_pos rfl]
      | succ i =>
        rw [List.set_cons_succ, Worksheet1.strlen_cons, if_neg hx, ih i (by omega)]

theorem Worksheet1.getD_set (buf : List Char) (i j : Nat) (c d : Char) (hi : i < buf.length) :
    (buf.set i c)[j]?.getD d = if j = i then c else buf[j]?.getD d := by
  by_cases h : j = i
  · subst h
    simp [hi]
  · have h2 : i ≠ j := fun e => h e.symm
    simp [h, h2]

theorem task1_setChar_then_getChar (chars : Nat → Option (List Char))
    (o : Worksheet1.Task1.my_string) (a : Nat) (buf : List Char) (i : Int) (c : Char)
    (hs : o.str = some a) (hb : chars a = some buf) (h0 : 0 ≤ i)
    (hi : i < (Worksheet1.strlen buf : Int)) :
    ∃ chars1, o.setChar chars i c = some chars1
      ∧ chars1 a = some (buf.set i.toNat c)
      ∧ (∀ b, b ≠ a → chars1 b = chars b)
      ∧ o.getChar chars1 i = some c
      ∧ (c ≠ Worksheet1.NUL → ∀ j : Int, j ≠ i → o.getChar chars1 j = o.getChar chars j)
      ∧ (c = Worksheet1.NUL →
          (∀ j : Int, j < i → o.getChar chars1 j = o.getChar chars j)
            ∧ ∀ j : Int, i < j → o.getChar chars1 j = some Worksheet1.NUL) := by
  have hin : i.toNat < Worksheet1.strlen buf := by omega
  have hlen := Worksheet1.strlen_le_length buf
  have hil : i.toNat < buf.length := by omega
  refine ⟨fun b => if b = a then some (buf.set i.toNat c) else chars b, ?_, ?_, ?_, ?_, ?_, ?_⟩
  · simp [Worksheet1.Task1.my_string.setChar, hs, hb, h0, hin]
  · simp
  · intro b hne
    simp [hne]
  · by_cases hc : c = Worksheet1.NUL
    · subst hc
      simp [Worksheet1.Task1.my_string.getChar, hs, h0, Worksheet1.strlen_set_NUL buf _ hin]
    · simp [Worksheet1.Task1.my_string.getChar, hs, h0, Worksheet1.strlen_set c hc buf _ hin,
        hin, Worksheet1.getD_set buf _ _ c Worksheet1.NUL hil]
  · intro hc j hj
    by_cases hj0 : 0 ≤ j
    · have hne : j.toNat ≠ i.toNat := by omega
      simp [Worksheet1.Task1.my_string.getChar, hs, hb, hj0,
        Worksheet1.strlen_set c hc buf _ hin, Worksheet1.getD_set buf _ _ c Worksheet1.NUL hil,
        hne]
    · simp [Worksheet1.Task1.my_string.getChar, hs, hj0]
  · intro hc
    subst hc
    refine ⟨fun j hj => ?_, fun j hj => ?_⟩
    · by_cases hj0 : 0 ≤ j
      · have hne : j.toNat ≠ i.toNat := by omega
        have h1 : j.toNat < i.toNat := by omega
        have h2 : j.toNat < Worksheet1.strlen buf := by omega
        simp [Worksheet1.Task1.my_string.getChar, hs, hb, hj0,
          Worksheet1.strlen_set_NUL buf _ hin,
          Worksheet1.getD_set buf _ _ Worksheet1.NUL Worksheet1.NUL hil, hne, h1, h2]
      · simp [Worksheet1.Task1.my_string.getChar, hs, hj0]
    · have hj0 : 0 ≤ j := by omega
      have h1 : ¬ j.toNat < i.toNat := by omega
      simp [Worksheet1.Task1.my_string.getChar, hs, hj0, Worksheet1.strlen_set_NUL buf _ hin,
        h1]

theorem task3_setChar_then_getChar (chars : Nat → Option (List Char))
    (o : Worksheet1.Task3.my_string) (a : Nat) (buf : List Char) (i : Int) (c : Char)
    (hs : o.str = some a) (hb : chars a = some buf) (h0 : 0 ≤ i)
    (hi : i < (Worksheet1.strlen buf : Int)) :
    ∃ chars1, o.setChar chars i c = some chars1
      ∧ chars1 a = some (buf.set i.toNat c)
      ∧ (∀ b, b ≠ a → chars1 b = chars b)
      ∧ o.getChar chars1 i = some c
      ∧ (c ≠ Worksheet1.NUL → ∀ j : Int, j ≠ i → o.getChar chars1 j = o.getChar chars j)
      ∧ (c = Worksheet1.NUL →
          (∀ j : Int, j < i → o.getChar chars1 j = o.getChar chars j)
            ∧ ∀ j : Int, i < j → o.getChar chars1 j = some Worksheet1.NUL) := by
  have hin : i.toNat < Worksheet1.strlen buf := by omega
  have hlen := Worksheet1.strlen_le_length buf
  have hil : i.toNat < buf.length := by omega
  refine ⟨fun b => if b = a then some (buf.set i.toNat c) else chars b, ?_, ?_, ?_, ?_, ?_, ?_⟩
  · simp [Worksheet1.Task3.my_string.setChar, hs, hb, h0, hin]
  · simp
  · intro b hne
    simp [hne]
  · by_cases hc : c = Worksheet1.NUL
    · subst hc
      simp [Worksheet1.Task3.my_string.getChar, hs, h0, Worksheet1.strlen_set_NUL buf _ hin]
    · simp [Worksheet1.Task3.my_string.getChar, hs, h0, Worksheet1.strlen_set c hc buf _ hin,
        hin, Worksheet1.getD_set buf _ _ c Worksheet1.NUL hil]
  · intro hc j hj
    by_cases hj0 : 0 ≤ j
    · have hne : j.toNat ≠ i.toNat := by omega
      simp [Worksheet1.Task3.my_string.getChar, hs, hb, hj0,
        Worksheet1.strlen_set c hc buf _ hin, Worksheet1.getD_set buf _ _ c Worksheet1.NUL hil,
        hne]
    · simp [Worksheet1.Task3.my_string.getChar, hs, hj0]
  · intro hc
    subst hc
    refine ⟨fun j hj => ?_, fun j hj => ?_⟩
    · by_cases hj0 : 0 ≤ j
      · have hne : j.toNat ≠ i.toNat := by omega
        have h1 : j.toNat < i.toNat := by omega
        have h2 : j.toNat < Worksheet1.strlen buf := by omega
        simp [Worksheet1.Task3.my_string.getChar, hs, hb, hj0,
          Worksheet1.strlen_set_NUL buf _ hin,
          Worksheet1.getD_set buf _ _ Worksheet1.NUL Worksheet1.NUL hil, hne, h1, h2]
      · simp [Worksheet1.Task3.my_string.getChar, hs, hj0]
    · have hj0 : 0 ≤ j := by omega
      have h1 : ¬ j.toNat < i.toNat := by omega
      simp [Worksheet1.Task3.my_string.getChar, hs, hj0, Worksheet1.strlen_set_NUL buf _ hin,
        h1]

/-- C32, as stated, fails for the character `NUL`: in "Hello", `setChar(1, NUL)` ends the
string after its first character, so `getChar(2)`, which returned the character l before,
returns `NUL` afterwards although `2 != 1` (Task1 and Task3). -/
theorem setChar_nul_shortens_string :
    ((0 : Int) ≤ 1 ∧ (1 : Int) < (Worksheet1.strlen ['H', 'e', 'l', 'l', 'o', Worksheet1.NUL] : Int))
    ∧ ((Worksheet1.Task1.my_string.mk (some 0)).getChar
          (fun a => if a = 0 then some ['H', 'e', 'l', 'l', 'o', Worksheet1.NUL] else none) 2
          = some 'l'
      ∧ ((Worksheet1.Task1.my_string.mk (some 0)).setChar
          (fun a => if a = 0 then some ['H', 'e', 'l', 'l', 'o', Worksheet1.NUL] else none) 1
          Worksheet1.NUL).bind
            (fun chars1 => (Worksheet1.Task1.my_string.mk (some 0)).getChar chars1 2)
          = some Worksheet1.NUL)
    ∧ ((Worksheet1.Task3.my_string.mk (some 0) (some 1)).getChar
          (fun a => if a = 0 then some ['H', 'e', 'l', 'l', 'o', Worksheet1.NUL] else none) 2
          = some 'l'
      ∧ ((Worksheet1.Task3.my_string.mk (some 0) (some 1)).setChar
          (fun a => if a = 0 then some ['H', 'e', 'l', 'l', 'o', Worksheet1.NUL] else none) 1
          Worksheet1.NUL).bind
            (fun chars1 => (Worksheet1.Task3.my_string.mk (some 0) (some 1)).getChar chars1 2)
          = some Worksheet1.NUL) := by
  decide

/-- C32, amended: `my_string` of Task1 and of Task3, a string with live buffer `buf`, an index
`0 <= i < strlen(buf)` and a character `c`. `setChar(i, c)` writes `c` at index `i` of that
buffer and leaves every other buffer alone; afterwards `getChar(i)` returns `c`. When `c` is
not `NUL`, `getChar(j)` returns the same value as before for every `j != i`. When `c` is
`NUL`, the string ends at `i`: `getChar(j)` returns the same value as before for `j < i` and
`NUL` for `j > i`. -/
theorem setChar_getChar_round_trip (chars : Nat → Option (List Char)) (a : Nat)
    (buf : List Char) (i : Int) (c : Char) (hb : chars a = some buf) (h0 : 0 ≤ i)
    (hi : i < (Worksheet1.strlen buf : Int)) :
    (∀ o : Worksheet1.Task1.my_string, o.str = some a →
      ∃ chars1, o.setChar chars i c = some chars1
        ∧ chars1 a = some (buf.set i.toNat c)
        ∧ (∀ b, b ≠ a → chars1 b = chars b)
        ∧ o.getChar chars1 i = some c
        ∧ (c ≠ Worksheet1.NUL → ∀ j : Int, j ≠ i → o.getChar chars1 j = o.getChar chars j)
        ∧ (c = Worksheet1.NUL →
            (∀ j : Int, j < i → o.getChar chars1 j = o.getChar chars j)
              ∧ ∀ j : Int, i < j → o.getChar chars1 j = some Worksheet1.NUL))
    ∧ (∀ o : Worksheet1.Task3.my_string, o.str = some a →
      ∃ chars1, o.setChar chars i c = some chars1
        ∧ chars1 a = some (buf.set i.toNat c)
        ∧ (∀ b, b ≠ a → chars1 b = chars b)
        ∧ o.getChar chars1 i = some c
        ∧ (c ≠ Worksheet1.NUL → ∀ j : Int, j ≠ i → o.getChar chars1 j = o.getChar chars j)
        ∧ (c = Worksheet1.NUL →
            (∀ j : Int, j < i → o.getChar chars1 j = o.getChar chars j)
              ∧ ∀ j : Int, i < j → o.getChar chars1 j = some Worksheet1.NUL)) :=
  ⟨fun o hs => task1_setChar_then_getChar chars o a buf i c hs hb h0 hi,
    fun o hs => task3_setChar_then_getChar chars o a buf i c hs hb h0 hi⟩

theorem setChar_getChar_round_trip_witness :
    (fun a => if a = 0 then some ['H', 'e', 'l', 'l', 'o', Worksheet1.NUL] else none) 0
        = some ['H', 'e', 'l', 'l', 'o', Worksheet1.NUL]
      ∧ (0 : Int) ≤ 1
      ∧ (1 : Int) < (Worksheet1.strlen ['H', 'e', 'l', 'l', 'o', Worksheet1.NUL] : Int)
      ∧ ∃ chars1,
        (Worksheet1.Task3.my_string.mk (some 0) (some 1)).setChar
            (fun a => if a = 0 then some ['H', 'e', 'l', 'l', 'o', Worksheet1.NUL] else none)
            1 'a' = some chars1
          ∧ chars1 0 = some ['H', 'a', 'l', 'l', 'o', Worksheet1.NUL]
          ∧ (Worksheet1.Task3.my_string.mk (some 0) (some 1)).getChar chars1 1 = some 'a'
          ∧ (Worksheet1.Task3.my_string.mk (some 0) (some 1)).getChar chars1 4
            = (Worksheet1.Task3.my_string.mk (some 0) (some 1)).getChar
                (fun a => if a = 0 then some ['H', 'e', 'l', 'l', 'o', Worksheet1.NUL]
                  else none) 4 :=
  ⟨rfl, by decide, by decide,
    match (setChar_getChar_round_trip
      (fun a => if a = 0 then some ['H', 'e', 'l', 'l', 'o', Worksheet1.NUL] else none) 0
      ['H', 'e', 'l', 'l', 'o', Worksheet1.NUL] 1 'a' rfl (by decide) (by decide)).2
      (Worksheet1.Task3.my_string.mk (some 0) (some 1)) rfl with
    | ⟨chars1, hset, hbuf, _, hget, hframe, _⟩ =>
      ⟨chars1, hset, hbuf, hget, hframe (by decide) 4 (by decide)⟩⟩
